import Mathlib

/-!
# A shallow embedding of the Ray autoscaler v2 control core

This file embeds, in Lean, the two components of the autoscaler control
core found in `python/ray/autoscaler/v2/`:

* `scheduler.py` — the `ResourceDemandScheduler` (a pure bin-packing
  scheduler producing launch/terminate decisions), and
* `instance_manager/reconciler.py` — the passive `Reconciler.sync_from`
  state synchronizer.

Modelling conventions:

* Python `dict`s are association lists in insertion order with unique keys
  (`List (String × α)`); lookups return the first match.
* Python `float` resource amounts are modelled as exact rationals `ℚ`.
* Python `assert` statements and other raise sites are modelled by making
  the function return `Option`, where `none` is an uncaught exception.
* `time.time_ns()` is modelled by an explicit `now : Nat` argument; all
  reads of the wall clock within a single call return `now`.
* Python `list.sort(key=f)` / `sorted(key=f)` are stable; they are modelled
  by `List.insertionSort` (stable) on the key order, with `reverse=True`
  modelled by the flipped key order (which preserves the original order of
  ties, exactly as CPython does).
* A few helpers imported by the two files live in modules that are not part
  of this repository snapshot (`InstanceUtil`, `ResourceRequestUtil`,
  `NodeTypeConfig`, the protobuf messages, the `InstanceManager` store);
  these are modelled from the specification and are marked
  `Modelled from the spec:` in their doc comments.
-/

namespace Ray

/-! ## Python dictionaries as insertion-ordered association lists -/

/-- `d[k]` lookup returning `Option` (first matching key). -/
def dget? {α : Type} (d : List (String × α)) (k : String) : Option α :=
  (d.find? (fun p => p.1 == k)).map (·.2)

/-- `d.get(k, v)` lookup with default. -/
def dgetD {α : Type} (d : List (String × α)) (k : String) (v : α) : α :=
  (dget? d k).getD v

/-- `k in d`. -/
def dcontains {α : Type} (d : List (String × α)) (k : String) : Bool :=
  d.any (fun p => p.1 == k)

/-- `d[k] = v`: replaces the value in place if the key exists (keeping its
position), otherwise appends the binding at the end, as Python does. -/
def dset {α : Type} (d : List (String × α)) (k : String) (v : α) : List (String × α) :=
  if dcontains d k then d.map (fun p => if p.1 == k then (p.1, v) else p)
  else d ++ [(k, v)]

/-- `d[k] -= v` for a plain dict: raises `KeyError` (`none`) if `k` is absent. -/
def dsub (d : List (String × ℚ)) (k : String) (v : ℚ) : Option (List (String × ℚ)) :=
  if dcontains d k then
    some (d.map (fun p => if p.1 == k then (p.1, p.2 - v) else p))
  else none

/-- `d[k] += v` for a `defaultdict` (missing keys count as `0` and are
inserted at the end). -/
def dincr {α : Type} [Add α] (d : List (String × α)) (k : String) (v : α) (z : α) :
    List (String × α) :=
  if dcontains d k then d.map (fun p => if p.1 == k then (p.1, p.2 + v) else p)
  else d ++ [(k, z + v)]

/-- `defaultdict(list)`: append `v` to the list at key `k`. -/
def dappend {α : Type} (d : List (String × List α)) (k : String) (v : α) :
    List (String × List α) :=
  if dcontains d k then d.map (fun p => if p.1 == k then (p.1, p.2 ++ [v]) else p)
  else d ++ [(k, [v])]

/-! ## Protobuf data model (`autoscaler_pb2` / `instance_manager_pb2`)

Modelled from the spec: the protobuf message definitions themselves are not
part of this repository snapshot; the fields below are the ones the two
source files read or write, with proto3 defaults (`""`, `0`, empty lists). -/

/-- One `affinity`/`anti_affinity` placement constraint
(`label_name`, `label_value`), with `HasField` modelled by `Option`. -/
structure PlacementConstraint where
  affinity : Option (String × String) := none
  anti_affinity : Option (String × String) := none
deriving Repr, DecidableEq

/-- `autoscaler_pb2.ResourceRequest`. -/
structure ResourceRequest where
  resources_bundle : List (String × ℚ) := []
  placement_constraints : List PlacementConstraint := []
deriving Repr, DecidableEq

/-- `autoscaler_pb2.ResourceRequestByCount`. -/
structure ResourceRequestByCount where
  request : ResourceRequest
  count : Nat
deriving Repr, DecidableEq

/-- `autoscaler_pb2.GangResourceRequest`. -/
structure GangResourceRequest where
  requests : List ResourceRequest := []
deriving Repr, DecidableEq

/-- `autoscaler_pb2.ClusterResourceConstraint`. -/
structure ClusterResourceConstraint where
  min_bundles : List ResourceRequestByCount := []
deriving Repr, DecidableEq

/-- `NodeStatus` of a ray node as reported by GCS. -/
inductive RayNodeStatus where
  | UNSPECIFIED
  | RUNNING
  | IDLE
  | DEAD
  | DRAINING
deriving Repr, DecidableEq

/-- `autoscaler_pb2.NodeState`: the observed state of a live ray node.
`instance_id` is the back-link to the cloud instance id; `node_id` is the
(decoded) ray node id. -/
structure NodeState where
  node_id : String := ""
  instance_id : String := ""
  ray_node_type_name : String := ""
  total_resources : List (String × ℚ) := []
  available_resources : List (String × ℚ) := []
  dynamic_labels : List (String × String) := []
  idle_duration_ms : Nat := 0
  status : RayNodeStatus := .UNSPECIFIED
deriving Repr, DecidableEq

/-- Instance Manager instance statuses, per the spec state machine. -/
inductive IMStatus where
  | QUEUED
  | REQUESTED
  | ALLOCATED
  | ALLOCATION_FAILED
  | RAY_INSTALLING
  | RAY_RUNNING
  | RAY_INSTALL_FAILED
  | RAY_STOPPING
  | RAY_STOPPED
  | TERMINATING
  | TERMINATED
  | TERMINATION_FAILED
deriving Repr, DecidableEq

/-- `instance_manager_pb2.Instance`: an instance managed by the Instance
Manager, with its per-instance transition history `(status, timestamp_ns)`. -/
structure IMInstance where
  instance_id : String := ""
  instance_type : String := ""
  status : IMStatus := .QUEUED
  cloud_instance_id : String := ""
  launch_request_id : String := ""
  launch_config_hash : String := ""
  status_history : List (IMStatus × Nat) := []
deriving Repr, DecidableEq

/-- `schema.AutoscalerInstance`: the scheduler's view of one instance,
combining the IM record, the live ray node state (when running) and the
cloud instance id (when bound). -/
structure AutoscalerInstance where
  im_instance : Option IMInstance := none
  ray_node : Option NodeState := none
  cloud_instance_id : Option String := none
deriving Repr, DecidableEq

/-- `config.NodeTypeConfig`.
Modelled from the spec: name, total capacity, static labels, min/max
worker counts and the launch config fingerprint. -/
structure NodeTypeConfig where
  name : String
  resources : List (String × ℚ) := []
  labels : List (String × String) := []
  min_worker_nodes : Nat := 0
  max_worker_nodes : Nat := 0
  launch_config_hash : Option String := none
deriving Repr, DecidableEq

/-- `TerminationRequest.Cause`. -/
inductive TerminationCause where
  | MAX_NUM_NODES
  | MAX_NUM_NODE_PER_TYPE
  | IDLE
  | OUTDATED
deriving Repr, DecidableEq

/-- `instance_manager_pb2.TerminationRequest`. The `id` field holds the
value of `time.time_ns()` at creation. -/
structure TerminationRequest where
  id : Nat := 0
  instance_id : Option String := none
  ray_node_id : Option String := none
  cause : TerminationCause
  max_num_nodes : Option Nat := none
  max_num_nodes_per_type : Option Nat := none
  idle_duration_ms : Option Nat := none
deriving Repr, DecidableEq

/-- `instance_manager_pb2.LaunchRequest`. `id` and `request_ts_ms` are
derived from `time.time_ns()` at creation. -/
structure LaunchRequest where
  instance_type : String
  count : Nat
  id : Nat
  request_ts_ms : Nat
deriving Repr, DecidableEq

/-! ## `scheduler.py`: scheduling request/reply and `SchedulingNode` -/

/-- `scheduler.SchedulingRequest`. -/
structure SchedulingRequest where
  node_type_configs : List (String × NodeTypeConfig) := []
  max_num_nodes : Option Nat := none
  idle_timeout_s : Option Int := none
  resource_requests : List ResourceRequestByCount := []
  gang_resource_requests : List GangResourceRequest := []
  cluster_resource_constraints : List ClusterResourceConstraint := []
  current_instances : List AutoscalerInstance := []
deriving Repr, DecidableEq

/-- `scheduler.SchedulingReply`. -/
structure SchedulingReply where
  to_launch : List LaunchRequest := []
  to_terminate : List TerminationRequest := []
  infeasible_resource_requests : List ResourceRequestByCount := []
  infeasible_gang_resource_requests : List GangResourceRequest := []
  infeasible_cluster_resource_constraints : List ClusterResourceConstraint := []
deriving Repr, DecidableEq

/-- `scheduler.SchedulingNodeStatus`. -/
inductive SchedulingNodeStatus where
  | TO_LAUNCH
  | PENDING
  | RUNNING
  | TO_TERMINATE
deriving Repr, DecidableEq

/-- `scheduler.SchedulingNode`. -/
structure SchedulingNode where
  node_type : String
  sched_constraints : List ResourceRequest := []
  sched_requests : List ResourceRequest := []
  total_resources : List (String × ℚ) := []
  available_resources : List (String × ℚ) := []
  available_resources_for_constraints : List (String × ℚ) := []
  labels : List (String × String) := []
  status : SchedulingNodeStatus := .TO_LAUNCH
  launch_reason : Option String := none
  termination_request : Option TerminationRequest := none
  im_instance_id : Option String := none
  ray_node_id : Option String := none
  idle_duration_ms : Nat := 0
  launch_config_hash : Option String := none
deriving Repr, DecidableEq

/-- `AUTOSCALER_CONSERVE_GPU_NODES` (from `_private.constants`).
Modelled from the spec: the "conserve GPU nodes" policy flag, enabled by
default. -/
def AUTOSCALER_CONSERVE_GPU_NODES : Bool := true

/-- The utilization score: the lexicographic 4-tuple
`(gpu_ok, num_matching_resource_types, min_util, avg_util)`. -/
abbrev UtilizationScore := Bool ×ₗ Nat ×ₗ ℚ ×ₗ ℚ

/-- Build a `UtilizationScore` from its four components. -/
def mkScore (gpu_ok : Bool) (matching : Nat) (minu avgu : ℚ) : UtilizationScore :=
  toLex (gpu_ok, toLex (matching, toLex (minu, avgu)))

namespace SchedulingNode

/-- `SchedulingNode.from_node_config`. -/
def from_node_config (node_config : NodeTypeConfig) (status : SchedulingNodeStatus)
    (im_instance_id : Option String := none) : SchedulingNode :=
  { node_type := node_config.name
    total_resources := node_config.resources
    available_resources := node_config.resources
    available_resources_for_constraints := node_config.resources
    labels := node_config.labels
    status := status
    im_instance_id := im_instance_id }

/-- `SchedulingNode._add_label`; the `assert` (a label key never changes
value) is modelled by `none`. -/
def add_label (n : SchedulingNode) (label_name label_value : String) :
    Option SchedulingNode :=
  match dget? n.labels label_name with
  | none => some { n with labels := dset n.labels label_name label_value }
  | some v =>
      if v = label_value then
        some { n with labels := dset n.labels label_name label_value }
      else none

/-- The anti-affinity check at the top of `_try_schedule_one`: `True` iff
some anti-affinity constraint's `(label, value)` matches an existing label. -/
def violates_anti_affinity (n : SchedulingNode) (r : ResourceRequest) : Bool :=
  r.placement_constraints.any (fun c =>
    match c.anti_affinity with
    | some (k, v) => dget? n.labels k == some v
    | none => false)

/-- The resource-domination check of `_try_schedule_one` against a pool. -/
def bundle_fits (pool : List (String × ℚ)) (r : ResourceRequest) : Bool :=
  r.resources_bundle.all (fun p => decide (p.2 ≤ dgetD pool p.1 0))

/-- Subtract the bundle from a pool, one resource at a time
(`available_resources_dict[k] -= v`, which can raise `KeyError`). -/
def bundle_sub (pool : List (String × ℚ)) (r : ResourceRequest) :
    Option (List (String × ℚ)) :=
  r.resources_bundle.foldlM (fun d p => dsub d p.1 p.2) pool

/-- Imprint the affinity/anti-affinity labels of one request onto the node
(the trailing loop of `_try_schedule_one`). -/
def imprint_labels (n : SchedulingNode) (r : ResourceRequest) :
    Option SchedulingNode :=
  r.placement_constraints.foldlM
    (fun m c => do
      let m ← match c.affinity with
              | some (k, v) => m.add_label k v
              | none => pure m
      match c.anti_affinity with
      | some (k, v) => m.add_label k v
      | none => pure m)
    n

/-- `SchedulingNode._try_schedule_one`. Returns the (possibly updated) node
and whether the request was scheduled; `none` models an uncaught exception
(`KeyError` on the subtraction, or the `_add_label` assert). -/
def try_schedule_one (n : SchedulingNode) (request : ResourceRequest)
    (is_constraint : Bool) : Option (SchedulingNode × Bool) :=
  if violates_anti_affinity n request then some (n, false)
  else
    let pool := if is_constraint then n.available_resources_for_constraints
                else n.available_resources
    if bundle_fits pool request then do
      let pool2 ← bundle_sub pool request
      let n2 :=
        if is_constraint then
          { n with available_resources_for_constraints := pool2
                   sched_constraints := n.sched_constraints ++ [request] }
        else
          { n with available_resources := pool2
                   sched_requests := n.sched_requests ++ [request] }
      let n3 ← imprint_labels n2 request
      some (n3, true)
    else some (n, false)

/-- `SchedulingNode._compute_score`. The in-loop `assert 0 ≤ util ≤ 1`
is modelled by `none`. -/
def compute_score (n : SchedulingNode) : Option UtilizationScore := do
  let num_matching_resource_types :=
    (n.sched_requests.map (fun req =>
      (req.resources_bundle.filter
        (fun p => dcontains n.total_resources p.1)).length)).sum
  let util_by_resources ←
    n.total_resources.foldlM
      (fun (acc : List ℚ) p =>
        if p.2 = 0 then some acc
        else if dcontains n.available_resources p.1 then
          let util := (p.2 - dgetD n.available_resources p.1 0) / p.2
          if 0 ≤ util ∧ util ≤ 1 then some (acc ++ [util]) else none
        else some acc)
      []
  let gpu_ok :=
    if AUTOSCALER_CONSERVE_GPU_NODES then
      let is_gpu_node := decide (0 < dgetD n.total_resources "GPU" 0)
      let any_gpu_requests :=
        n.sched_requests.any (fun r => dcontains r.resources_bundle "GPU")
      !(is_gpu_node && !any_gpu_requests)
    else true
  let min_util := match util_by_resources with
                  | [] => 0
                  | u :: us => us.foldl min u
  let avg_util := if util_by_resources.isEmpty then 0
                  else util_by_resources.sum / util_by_resources.length
  some (mkScore gpu_ok num_matching_resource_types min_util avg_util)

/-- One step of the request loop in `SchedulingNode.try_schedule`: try one
request, keeping it in the unschedulable accumulator on failure. -/
def try_step (is_constraint : Bool) (st : SchedulingNode × List ResourceRequest)
    (r : ResourceRequest) : Option (SchedulingNode × List ResourceRequest) := do
  let (m2, ok) ← st.1.try_schedule_one r is_constraint
  pure (m2, if ok then st.2 else st.2 ++ [r])

/-- `SchedulingNode.try_schedule`: schedule the requests one by one in
order, collecting the ones that do not fit, then compute the score. -/
def try_schedule (n : SchedulingNode) (requests : List ResourceRequest)
    (is_constraint : Bool) :
    Option (SchedulingNode × List ResourceRequest × UtilizationScore) := do
  let (n2, unschedulable) ← requests.foldlM (try_step is_constraint) (n, [])
  let score ← n2.compute_score
  pure (n2, unschedulable, score)

end SchedulingNode

/-- `InstanceUtil.is_ray_running_reachable`.
Modelled from the spec: an IM status can still reach `RAY_RUNNING` iff it is
somewhere in the `QUEUED .. RAY_INSTALLING` chain. -/
def is_ray_running_reachable (s : IMStatus) : Bool :=
  match s with
  | .QUEUED | .REQUESTED | .ALLOCATED | .RAY_INSTALLING => true
  | _ => false

namespace Sched

/-- `ResourceDemandScheduler.ScheduleContext` (the `_node_type_available`
cache is recomputed on every `update`, mirroring the constructor). -/
structure ScheduleContext where
  node_type_configs : List (String × NodeTypeConfig)
  max_num_nodes : Option Nat := none
  idle_timeout_s : Option Int := none
  nodes : List SchedulingNode := []
  node_type_available : List (String × Int) := []
deriving Repr, DecidableEq

/-- `ScheduleContext._compute_available_node_types`:
`max_worker_nodes(N) − existing_count(N)` for every configured type `N`
(existing counts include every node, whatever its status). -/
def compute_available_node_types (nodes : List SchedulingNode)
    (node_type_configs : List (String × NodeTypeConfig)) : List (String × Int) :=
  let node_type_existing : List (String × Int) :=
    nodes.foldl (fun d n => dincr d n.node_type 1 0) []
  node_type_configs.foldl
    (fun d p =>
      dset d p.1 ((p.2.max_worker_nodes : Int) - dgetD node_type_existing p.1 0))
    []

/-- The `ScheduleContext` constructor. -/
def mkContext (nodes : List SchedulingNode)
    (node_type_configs : List (String × NodeTypeConfig))
    (max_num_nodes : Option Nat := none) (idle_timeout_s : Option Int := none) :
    ScheduleContext :=
  { node_type_configs := node_type_configs
    max_num_nodes := max_num_nodes
    idle_timeout_s := idle_timeout_s
    nodes := nodes
    node_type_available := compute_available_node_types nodes node_type_configs }

/-- `ScheduleContext.from_schedule_request`: build one `RUNNING` scheduling
node per live ray node, one `PENDING` node per IM instance that can still
reach `RAY_RUNNING` (skipped when its node type config no longer exists),
and skip everything else. -/
def from_schedule_request (req : SchedulingRequest) : ScheduleContext :=
  let nodes :=
    req.current_instances.foldl
      (fun (acc : List SchedulingNode) instance_ =>
        match instance_.ray_node with
        | some ray_node =>
            acc ++ [{
              node_type := ray_node.ray_node_type_name
              total_resources := ray_node.total_resources
              available_resources := ray_node.available_resources
              labels := ray_node.dynamic_labels
              status := .RUNNING
              im_instance_id := instance_.im_instance.map (·.instance_id)
              ray_node_id := some ray_node.node_id
              idle_duration_ms := ray_node.idle_duration_ms
              launch_config_hash := instance_.im_instance.map (·.launch_config_hash)
              available_resources_for_constraints := ray_node.total_resources }]
        | none =>
            match instance_.im_instance with
            | some im =>
                if is_ray_running_reachable im.status then
                  match dget? req.node_type_configs im.instance_type with
                  | none => acc
                  | some node_config =>
                      acc ++ [SchedulingNode.from_node_config node_config .PENDING
                                (some im.instance_id)]
                else acc
            | none => acc)
      []
  mkContext nodes req.node_type_configs req.max_num_nodes req.idle_timeout_s

/-- `ScheduleContext.update`: replace the nodes and recompute the
available-per-type counters. -/
def ScheduleContext.update (ctx : ScheduleContext) (new_nodes : List SchedulingNode) :
    ScheduleContext :=
  { ctx with nodes := new_nodes
             node_type_available :=
               compute_available_node_types new_nodes ctx.node_type_configs }

/-- `ScheduleContext.get_cluster_shape`: count of nodes per type, skipping
nodes already marked `TO_TERMINATE`. -/
def ScheduleContext.get_cluster_shape (ctx : ScheduleContext) : List (String × Int) :=
  ctx.nodes.foldl
    (fun d n => if n.status = .TO_TERMINATE then d else dincr d n.node_type 1 0) []

/-- `ScheduleContext.get_launch_requests`: one `LaunchRequest` per node type
with `TO_LAUNCH` nodes, counted in node order; ids come from the clock. -/
def ScheduleContext.get_launch_requests (ctx : ScheduleContext) (now : Nat) :
    List LaunchRequest :=
  let launch_by_type : List (String × Int) :=
    ctx.nodes.foldl
      (fun d n => if n.status = .TO_LAUNCH then dincr d n.node_type 1 0 else d) []
  launch_by_type.map (fun p =>
    { instance_type := p.1
      count := p.2.toNat
      id := now
      request_ts_ms := now / 1000 })

/-- `ScheduleContext.get_terminate_requests`. -/
def ScheduleContext.get_terminate_requests (ctx : ScheduleContext) :
    List TerminationRequest :=
  ctx.nodes.filterMap (·.termination_request)

/-! ### Termination selection (`_sort_nodes_for_termination`,
`_select_nodes_to_terminate`) -/

/-- The per-resource average utilization used by the termination sort. -/
def avg_util_of (n : SchedulingNode) : ℚ :=
  let utils : List ℚ :=
    n.total_resources.foldl
      (fun acc p =>
        if p.2 ≤ 0 then acc
        else acc ++ [(p.2 - dgetD n.available_resources p.1 0) / p.2])
      []
  if utils.isEmpty then 0 else utils.sum / utils.length

/-- `ResourceDemandScheduler._sort_nodes_for_termination`: the ascending
sort key `(running_ray, −idle_duration_ms, avg_util)`. -/
def sort_nodes_for_termination (n : SchedulingNode) : Bool ×ₗ Int ×ₗ ℚ :=
  toLex (n.status = .RUNNING,
    toLex ((-1 : Int) * n.idle_duration_ms, avg_util_of n))

/-- The ascending order used when selecting nodes to terminate. -/
def termination_le (a b : SchedulingNode) : Prop :=
  sort_nodes_for_termination a ≤ sort_nodes_for_termination b

instance : DecidableRel termination_le := fun _ _ =>
  inferInstanceAs (Decidable (_ ≤ _))

instance : IsTotal SchedulingNode termination_le :=
  ⟨fun a b => le_total (sort_nodes_for_termination a) (sort_nodes_for_termination b)⟩

instance : IsTrans SchedulingNode termination_le :=
  ⟨fun _ _ _ h h2 => le_trans h h2⟩

/-- Mark one selected node `TO_TERMINATE` and attach its
`TerminationRequest` (body of the loop in `_select_nodes_to_terminate`). -/
def mark_to_terminate (now : Nat) (cause : TerminationCause)
    (max_num_nodes max_num_nodes_per_type : Option Nat) (n : SchedulingNode) :
    SchedulingNode :=
  { n with
    status := .TO_TERMINATE
    termination_request := some
      { id := now
        instance_id := n.im_instance_id
        ray_node_id := n.ray_node_id
        cause := cause
        max_num_nodes := if cause = .MAX_NUM_NODES then max_num_nodes else none
        max_num_nodes_per_type :=
          if cause = .MAX_NUM_NODE_PER_TYPE then max_num_nodes_per_type else none } }

/-- `ResourceDemandScheduler._select_nodes_to_terminate`: stable-sort the
candidates by the termination key, terminate the first `num_to_terminate`
and return `(terminated, remained)`. The `assert` restricting the cause is
modelled by `none`. -/
def select_nodes_to_terminate (now : Nat) (nodes : List SchedulingNode)
    (num_to_terminate : Nat) (cause : TerminationCause)
    (max_num_nodes : Option Nat := none)
    (max_num_nodes_per_type : Option Nat := none) :
    Option (List SchedulingNode × List SchedulingNode) :=
  let sorted := nodes.insertionSort termination_le
  if cause = .MAX_NUM_NODES ∨ cause = .MAX_NUM_NODE_PER_TYPE then
    some ((sorted.take num_to_terminate).map
            (mark_to_terminate now cause max_num_nodes max_num_nodes_per_type),
          sorted.drop num_to_terminate)
  else none

/-! ### Phase 1: `_terminate_outdated_nodes` -/

/-- Truthiness of the optional config hash (`None` and `""` are falsy). -/
def hash_truthy (h : Option String) : Bool :=
  match h with
  | none => false
  | some s => s ≠ ""

/-- Whether a `RUNNING` node is outdated: its node type config is gone, or
the config declares a (truthy) launch config hash different from the
node's. -/
def outdated (node_type_configs : List (String × NodeTypeConfig))
    (n : SchedulingNode) : Bool :=
  match dget? node_type_configs n.node_type with
  | none => true
  | some cfg =>
      hash_truthy cfg.launch_config_hash && (cfg.launch_config_hash ≠ n.launch_config_hash)

/-- Mark one node `TO_TERMINATE` with cause `OUTDATED`. -/
def mark_outdated (now : Nat) (n : SchedulingNode) : SchedulingNode :=
  { n with
    status := .TO_TERMINATE
    termination_request := some
      { id := now
        instance_id := n.im_instance_id
        ray_node_id := n.ray_node_id
        cause := .OUTDATED } }

/-- The per-node step of `_terminate_outdated_nodes`. -/
def outdated_step (now : Nat) (node_type_configs : List (String × NodeTypeConfig))
    (n : SchedulingNode) : SchedulingNode :=
  if n.status = .RUNNING ∧ outdated node_type_configs n then mark_outdated now n
  else n

/-- `ResourceDemandScheduler._terminate_outdated_nodes`. -/
def terminate_outdated_nodes (now : Nat) (ctx : ScheduleContext) : ScheduleContext :=
  ctx.update (ctx.nodes.map (outdated_step now ctx.node_type_configs))

/-! ### Phase 2: `_enforce_min_workers_per_type` -/

/-- `ResourceDemandScheduler._enforce_min_workers_per_type`: for every
configured type below its `min_worker_nodes`, prepend the missing number of
fresh `TO_LAUNCH` nodes. -/
def enforce_min_workers_per_type (ctx : ScheduleContext) : ScheduleContext :=
  let count_by_node_type := ctx.get_cluster_shape
  let new_nodes :=
    ctx.node_type_configs.foldl
      (fun (acc : List SchedulingNode) p =>
        let cur_count := (dgetD count_by_node_type p.1 0).toNat
        let min_count := p.2.min_worker_nodes
        if cur_count < min_count then
          acc ++ List.replicate (min_count - cur_count)
                   (SchedulingNode.from_node_config p.2 .TO_LAUNCH)
        else acc)
      []
  ctx.update (new_nodes ++ ctx.nodes)

/-! ### Phase 3: `_enforce_max_workers_per_type` -/

/-- The per-type trimming step of `_enforce_max_workers_per_type`: given
the non-terminating nodes of one type, terminate the excess over the
type's `max_worker_nodes` (`0` when the config is gone). -/
def max_per_type_step (now : Nat) (node_type_configs : List (String × NodeTypeConfig))
    (node_type : String) (non_terminate_nodes_of_type : List SchedulingNode) :
    Option (List SchedulingNode × List SchedulingNode) :=
  let num_max_nodes_per_type : Nat :=
    match dget? node_type_configs node_type with
    | some cfg => cfg.max_worker_nodes
    | none => 0
  let num_extra_nodes : Int :=
    (non_terminate_nodes_of_type.length : Int) - (num_max_nodes_per_type : Int)
  if num_extra_nodes ≤ 0 then some ([], non_terminate_nodes_of_type)
  else
    select_nodes_to_terminate now non_terminate_nodes_of_type num_extra_nodes.toNat
      .MAX_NUM_NODE_PER_TYPE none (some num_max_nodes_per_type)

/-- The grouping step of `_enforce_max_workers_per_type`: terminating
nodes are collected apart, the rest are grouped by node type. -/
def max_partition_step
    (st : List SchedulingNode × List (String × List SchedulingNode))
    (n : SchedulingNode) :
    List SchedulingNode × List (String × List SchedulingNode) :=
  if n.status = .TO_TERMINATE then (st.1 ++ [n], st.2)
  else (st.1, dappend st.2 n.node_type n)

/-- The per-group step of `_enforce_max_workers_per_type`: trim one type
group and accumulate the terminated and remaining nodes. -/
def max_fold_step (now : Nat) (cfgs : List (String × NodeTypeConfig))
    (st : List SchedulingNode × List (String × List SchedulingNode))
    (p : String × List SchedulingNode) :
    Option (List SchedulingNode × List (String × List SchedulingNode)) := do
  let (to_terminate, remained) ← max_per_type_step now cfgs p.1 p.2
  pure (st.1 ++ to_terminate, st.2 ++ [(p.1, remained)])

/-- `ResourceDemandScheduler._enforce_max_workers_per_type`. Nodes are
grouped by type (non-terminating only), each group is trimmed to its cap,
and the context is rebuilt as `terminating ++ flattened groups`; the
length `assert` is modelled by `none`. -/
def enforce_max_workers_per_type (now : Nat) (ctx : ScheduleContext) :
    Option ScheduleContext := do
  let all_nodes := ctx.nodes
  let (terminating_nodes, grouped) := all_nodes.foldl max_partition_step ([], [])
  let (terminating_nodes, grouped) ←
    grouped.foldlM (max_fold_step now ctx.node_type_configs)
      (terminating_nodes, [])
  let non_terminating_nodes := grouped.foldl (fun acc p => acc ++ p.2) []
  if all_nodes.length = (terminating_nodes ++ non_terminating_nodes).length then
    pure (ctx.update (terminating_nodes ++ non_terminating_nodes))
  else none

/-! ### Phase 4: `_enforce_max_workers_global` -/

/-- `ResourceDemandScheduler._enforce_max_workers_global`. Note the Python
truthiness test `if num_max_nodes`: a configured maximum of `0` disables
the global cap here. -/
def enforce_max_workers_global (now : Nat) (ctx : ScheduleContext) :
    Option ScheduleContext := do
  let all_nodes := ctx.nodes
  let terminating_nodes := all_nodes.filter (fun n => n.status = .TO_TERMINATE)
  let non_terminating_nodes := all_nodes.filter (fun n => ¬ n.status = .TO_TERMINATE)
  let num_to_terminate : Nat :=
    match ctx.max_num_nodes with
    | some m => if m ≠ 0 then non_terminating_nodes.length - m else 0
    | none => 0
  if num_to_terminate = 0 then pure ctx
  else do
    let (to_terminate_nodes, remained) ←
      select_nodes_to_terminate now non_terminating_nodes num_to_terminate
        .MAX_NUM_NODES ctx.max_num_nodes none
    let terminating_nodes := terminating_nodes ++ to_terminate_nodes
    if all_nodes.length = (terminating_nodes ++ remained).length then
      pure (ctx.update (terminating_nodes ++ remained))
    else none

/-! ### Phase 8: `_enforce_idle_termination` -/

/-- Mark one node `TO_TERMINATE` with cause `IDLE`, recording its idle
duration. -/
def mark_idle (now : Nat) (n : SchedulingNode) : SchedulingNode :=
  { n with
    status := .TO_TERMINATE
    termination_request := some
      { id := now
        instance_id := n.im_instance_id
        ray_node_id := n.ray_node_id
        cause := .IDLE
        idle_duration_ms := some n.idle_duration_ms } }

/-- The per-node step of `_enforce_idle_termination`: a `RUNNING` node is
marked `TO_TERMINATE` with cause `IDLE` iff an idle timeout is configured,
its idle duration strictly exceeds `idle_timeout_s * 1000` ms, and it holds
no committed cluster-constraint bundles. -/
def idle_step (now : Nat) (idle_timeout_s : Option Int) (n : SchedulingNode) :
    SchedulingNode :=
  if n.status ≠ .RUNNING then n
  else match idle_timeout_s with
    | none => n
    | some t =>
        if (n.idle_duration_ms : Int) ≤ t * 1000 then n
        else if n.sched_constraints.length ≠ 0 then n
        else mark_idle now n

/-- `ResourceDemandScheduler._enforce_idle_termination`. -/
def enforce_idle_termination (now : Nat) (ctx : ScheduleContext) : ScheduleContext :=
  ctx.update (ctx.nodes.map (idle_step now ctx.idle_timeout_s))

/-! ### The greedy bin-packer (`_sched_best_node`, `_try_schedule`) -/

/-- `_sort_resource_request`: the key `(#placement constraints, #resources,
sum of amounts, sorted bundle items)`, compared lexicographically. -/
def sort_resource_request (r : ResourceRequest) :
    Nat ×ₗ Nat ×ₗ ℚ ×ₗ List (String ×ₗ ℚ) :=
  toLex (r.placement_constraints.length,
    toLex (r.resources_bundle.length,
      toLex ((r.resources_bundle.map (·.2)).sum,
        (r.resources_bundle.map (toLex ·)).insertionSort (· ≤ ·))))

/-- The descending (`reverse=True`) stable order on resource requests. -/
def request_order (a b : ResourceRequest) : Prop :=
  sort_resource_request b ≤ sort_resource_request a

instance : DecidableRel request_order := fun _ _ =>
  inferInstanceAs (Decidable (_ ≤ _))

instance : IsTotal ResourceRequest request_order :=
  ⟨fun a b => le_total (sort_resource_request b) (sort_resource_request a)⟩

instance : IsTrans ResourceRequest request_order :=
  ⟨fun _ _ _ h h2 => le_trans h2 h⟩

/-- The temporary `ScheduleResult` record of `_sched_best_node`. -/
structure ScheduleResult where
  node : SchedulingNode
  infeasible_requests : List ResourceRequest
  idx : Nat
  score : UtilizationScore

/-- The descending (`reverse=True`) stable order on scheduling results. -/
def result_order (a b : ScheduleResult) : Prop := b.score ≤ a.score

instance : DecidableRel result_order := fun _ _ =>
  inferInstanceAs (Decidable (_ ≤ _))

/-- The candidate-probing loop of `_sched_best_node`: try the requests on
(a deep copy of) each node, skipping nodes that schedule none of them.
`idx` is the running index into the original node list. -/
def best_results (requests : List ResourceRequest) (is_constraint : Bool) :
    Nat → List SchedulingNode → Option (List ScheduleResult)
  | _, [] => some []
  | idx, n :: ns => do
      let (n2, remaining, score) ← n.try_schedule requests is_constraint
      let rest ← best_results requests is_constraint (idx + 1) ns
      if remaining.length = requests.length then pure rest
      else pure (⟨n2, remaining, idx, score⟩ :: rest)

/-- `ResourceDemandScheduler._sched_best_node`. The outer `Option` models
an uncaught exception; the inner `Option` is the `None` best node. On
success the chosen index is removed from the candidate list. -/
def sched_best_node (requests : List ResourceRequest) (nodes : List SchedulingNode)
    (is_constraint : Bool) :
    Option (Option (SchedulingNode × List ResourceRequest) × List SchedulingNode) := do
  let results ← best_results requests is_constraint 0 nodes
  match results with
  | [] => pure (none, nodes)
  | _ :: _ =>
      match results.insertionSort result_order with
      | [] => pure (none, nodes)
      | best :: _ =>
          pure (some (best.node, best.infeasible_requests), nodes.eraseIdx best.idx)


/-- The first `while` loop of `_try_schedule`: greedily commit the best of
the existing nodes until no requests or no candidates are left. Returns
`(remaining requests, remaining candidates, committed target nodes)`.

The loop is compiled with structural fuel so the kernel can evaluate it:
every iteration that continues strictly shrinks the request list
(`sched_best_node_rem_lt`), so with fuel `|requests|` the zero-fuel case —
which returns exactly what the `while` condition returns on an empty
request list — is reached only when the request list is empty. -/
def sched_existing (c : Bool) :
    Nat → List ResourceRequest → List SchedulingNode → List SchedulingNode →
    Option (List ResourceRequest × List SchedulingNode × List SchedulingNode)
  | 0, requests, existing, target => some (requests, existing, target)
  | fuel + 1, requests, existing, target =>
    if requests.length = 0 ∨ existing.length = 0 then some (requests, existing, target)
    else
      match sched_best_node requests existing c with
      | none => none
      | some (none, ns) => some (requests, ns, target)
      | some (some (bn, rem), ns) => sched_existing c fuel rem ns (target ++ [bn])

/-- The second `while` loop of `_try_schedule`: extend the cluster with
fresh `TO_LAUNCH` nodes from the per-type pool, decrementing
`node_type_available` and refilling the pool while capacity remains, and
stopping at the global `max_num_nodes` cap. Fueled exactly like
`sched_existing`. -/
def sched_new_guard (max_num_nodes : Option Nat) (len : Nat) : Bool :=
  match max_num_nodes with
  | some m => decide (m ≤ len)
  | none => false

def sched_new (node_type_configs : List (String × NodeTypeConfig))
    (max_num_nodes : Option Nat) (c : Bool) :
    Nat → List ResourceRequest → List SchedulingNode → List SchedulingNode →
    List (String × Int) → Option (List ResourceRequest × List SchedulingNode)
  | 0, requests, _pool, target, _avail => some (requests, target)
  | fuel + 1, requests, pool, target, avail =>
    if requests.length = 0 ∨ pool.length = 0 then some (requests, target)
    else if sched_new_guard max_num_nodes target.length then some (requests, target)
    else
      match sched_best_node requests pool c with
      | none => none
      | some (none, _) => some (requests, target)
      | some (some (bn, rem), pool2) =>
          if 0 < dgetD (dincr avail bn.node_type (-1) 0) bn.node_type 0 then
            match dget? node_type_configs bn.node_type with
            | none => none
            | some cfg =>
                sched_new node_type_configs max_num_nodes c fuel rem
                  (pool2 ++ [SchedulingNode.from_node_config cfg .TO_LAUNCH])
                  (target ++ [bn]) (dincr avail bn.node_type (-1) 0)
          else sched_new node_type_configs max_num_nodes c fuel rem pool2
                 (target ++ [bn]) (dincr avail bn.node_type (-1) 0)

/-- `ResourceDemandScheduler._try_schedule`: sort the requests
(hardest first), pack onto existing nodes, then onto new nodes drawn from
the per-type availability pool. Returns the target nodes and the
infeasible requests. -/
def try_schedule_ctx (ctx : ScheduleContext) (requests_to_sched : List ResourceRequest)
    (is_constraint : Bool) :
    Option (List SchedulingNode × List ResourceRequest) := do
  let sorted := requests_to_sched.insertionSort request_order
  let (reqs1, existing_left, target1) ←
    sched_existing is_constraint sorted.length sorted ctx.nodes []
  let target2 := target1 ++ existing_left
  let node_type_available := ctx.node_type_available
  let node_pools ←
    (node_type_available.filter (fun p => 0 < p.2)).mapM
      (fun p => (dget? ctx.node_type_configs p.1).map
        (fun cfg => SchedulingNode.from_node_config cfg .TO_LAUNCH))
  let (reqs2, target3) ←
    sched_new ctx.node_type_configs ctx.max_num_nodes is_constraint reqs1.length
      reqs1 node_pools target2 node_type_available
  pure (target3, reqs2)

/-! ### `ResourceRequestUtil` helpers -/

/-- `ResourceRequestUtil.ungroup_by_count`.
Modelled from the spec: flatten `(request, count)` pairs into `count`
copies of each request, in order. -/
def ungroup_by_count (by_count : List ResourceRequestByCount) : List ResourceRequest :=
  by_count.foldl (fun acc rc => acc ++ List.replicate rc.count rc.request) []

/-- `ResourceRequestUtil.group_by_count`.
Modelled from the spec: group equal requests, recording each distinct
request once with its multiplicity. -/
def group_by_count (requests : List ResourceRequest) : List ResourceRequestByCount :=
  requests.foldl
    (fun acc r =>
      if acc.any (fun rc => rc.request == r) then
        acc.map (fun rc => if rc.request == r then { rc with count := rc.count + 1 } else rc)
      else acc ++ [{ request := r, count := 1 }])
    []

/-- `ResourceRequestUtil.combine_requests_with_affinity`.
Modelled from the spec: gang members whose `AFFINITY` placement
constraints share the same `(label_name, label_value)` are fused — fused
members sum their bundles and union their constraints; members without
affinity constraints pass through unchanged. -/
def combine_requests_with_affinity (requests : List ResourceRequest) :
    List ResourceRequest :=
  let step := fun (st : List ((String × String) × ResourceRequest) × List ResourceRequest)
                  (r : ResourceRequest) =>
    match r.placement_constraints.filterMap (·.affinity) with
    | [] => (st.1, st.2 ++ [r])
    | k :: _ =>
        if st.1.any (fun p => p.1 == k) then
          (st.1.map (fun p =>
            if p.1 == k then
              (p.1,
                { resources_bundle :=
                    r.resources_bundle.foldl (fun d q => dincr d q.1 q.2 0)
                      p.2.resources_bundle
                  placement_constraints :=
                    p.2.placement_constraints ++ r.placement_constraints })
            else p), st.2)
        else (st.1 ++ [(k, r)], st.2)
  let (buckets, plain) := requests.foldl step ([], [])
  buckets.map (·.2) ++ plain

/-! ### Phases 5–7 -/

/-- `ResourceDemandScheduler._enforce_resource_constraints`. The
`assert len(constraints) <= 1` is modelled by `none`. -/
def enforce_resource_constraints (ctx : ScheduleContext)
    (constraints : List ClusterResourceConstraint) :
    Option (ScheduleContext × List ClusterResourceConstraint) :=
  if constraints.length ≤ 1 then
    match constraints with
    | [] => some (ctx, [])
    | constraint :: _ => do
        let requests := ungroup_by_count constraint.min_bundles
        let (scheduled_nodes, infeasible) ← try_schedule_ctx ctx requests true
        if infeasible.length ≠ 0 then pure (ctx, [constraint])
        else pure (ctx.update scheduled_nodes, [])
  else none

/-- `_sort_gang_resource_requests`: the key
`(total_placement_constraints, #requests)`. -/
def sort_gang_resource_requests (g : GangResourceRequest) : Nat ×ₗ Nat :=
  toLex ((g.requests.map (·.placement_constraints.length)).sum, g.requests.length)

/-- The descending (`reverse=True`) stable order on gang requests. -/
def gang_order (a b : GangResourceRequest) : Prop :=
  sort_gang_resource_requests b ≤ sort_gang_resource_requests a

instance : DecidableRel gang_order := fun _ _ =>
  inferInstanceAs (Decidable (_ ≤ _))

/-- The per-gang step of `_sched_gang_resource_requests`: a gang is
committed atomically or reported infeasible as a whole. -/
def gang_step (st : ScheduleContext × List GangResourceRequest)
    (gang_req : GangResourceRequest) :
    Option (ScheduleContext × List GangResourceRequest) := do
  let requests := combine_requests_with_affinity gang_req.requests
  let (nodes, infeasible) ← try_schedule_ctx st.1 requests false
  if infeasible.length ≠ 0 then pure (st.1, st.2 ++ [gang_req])
  else pure (st.1.update nodes, st.2)

/-- `ResourceDemandScheduler._sched_gang_resource_requests`: gangs are
tried hardest-first and each is all-or-nothing. -/
def sched_gang_resource_requests (ctx : ScheduleContext)
    (gang_requests : List GangResourceRequest) :
    Option (ScheduleContext × List GangResourceRequest) :=
  (gang_requests.insertionSort gang_order).foldlM gang_step (ctx, [])

/-- `ResourceDemandScheduler._sched_resource_requests`. -/
def sched_resource_requests (ctx : ScheduleContext)
    (requests_by_count : List ResourceRequestByCount) :
    Option (ScheduleContext × List ResourceRequest) := do
  let requests := ungroup_by_count requests_by_count
  let (nodes, infeasible) ← try_schedule_ctx ctx requests false
  pure (ctx.update nodes, infeasible)

/-! ### `ResourceDemandScheduler.schedule` -/

/-- The phase pipeline of `ResourceDemandScheduler.schedule`, returning the
final schedule context together with the three infeasibility lists. -/
def schedule_impl (now : Nat) (request : SchedulingRequest) :
    Option (ScheduleContext × List ClusterResourceConstraint ×
            List GangResourceRequest × List ResourceRequest) := do
  let ctx := from_schedule_request request
  let ctx := terminate_outdated_nodes now ctx
  let ctx := enforce_min_workers_per_type ctx
  let ctx ← enforce_max_workers_per_type now ctx
  let ctx ← enforce_max_workers_global now ctx
  let (ctx, infeasible_constraints) ←
    enforce_resource_constraints ctx request.cluster_resource_constraints
  let (ctx, infeasible_gang_requests) ←
    sched_gang_resource_requests ctx request.gang_resource_requests
  let (ctx, infeasible_requests) ←
    sched_resource_requests ctx request.resource_requests
  let ctx := enforce_idle_termination now ctx
  pure (ctx, infeasible_constraints, infeasible_gang_requests, infeasible_requests)

/-- `ResourceDemandScheduler.schedule`: run the phase pipeline and package
the reply. `none` models an uncaught exception. -/
def schedule (now : Nat) (request : SchedulingRequest) : Option SchedulingReply := do
  let (ctx, infeasible_constraints, infeasible_gang_requests, infeasible_requests) ←
    schedule_impl now request
  pure
    { to_launch := ctx.get_launch_requests now
      to_terminate := ctx.get_terminate_requests
      infeasible_resource_requests := group_by_count infeasible_requests
      infeasible_gang_resource_requests := infeasible_gang_requests
      infeasible_cluster_resource_constraints := infeasible_constraints }

end Sched

/-! ## `reconciler.py`: the passive `Reconciler.sync_from` -/

namespace Recon

/-- `node_provider.CloudInstance`.
Modelled from the spec: identity `cloud_instance_id`, plus `node_type` and
the soliciting `launch_request_id`. -/
structure CloudInstance where
  cloud_instance_id : String
  node_type : String
  launch_request_id : String := ""
deriving Repr, DecidableEq

/-- `node_provider.LaunchNodeError`.
Modelled from the spec: `{request_id, node_type, details}`. -/
structure LaunchNodeError where
  request_id : String
  node_type : String
  details : String := ""
deriving Repr, DecidableEq

/-- `node_provider.TerminateNodeError`.
Modelled from the spec: `{cloud_instance_id, request_id, details}`. -/
structure TerminateNodeError where
  cloud_instance_id : String
  request_id : String := ""
  details : String := ""
deriving Repr, DecidableEq

/-- `node_provider.CloudInstanceProviderError`: a tagged union of launch
and terminate errors. -/
inductive CloudInstanceProviderError where
  | launch (e : LaunchNodeError)
  | terminate (e : TerminateNodeError)
deriving Repr, DecidableEq

/-- `ray_installer.RayInstallError`.
Modelled from the spec: `{im_instance_id, details}`. -/
structure RayInstallError where
  im_instance_id : String
  details : String := ""
deriving Repr, DecidableEq

/-- `instance_manager_pb2.InstanceUpdateEvent` (the fields the reconciler
writes; human-readable log strings in `details` are elided as `""` where
the source formats prose). -/
structure IMInstanceUpdateEvent where
  instance_id : String
  new_instance_status : IMStatus
  cloud_instance_id : String := ""
  details : String := ""
deriving Repr, DecidableEq

/-- The Instance Manager's versioned state.
Modelled from the spec: an authoritative store of instances whose version
monotonically increments on every successful mutation. -/
structure IMState where
  instances : List IMInstance := []
  version : Nat := 0
deriving Repr, DecidableEq

/-- `InstanceUtil.get_reachable_statuses`.
Modelled from the spec: the set of statuses strictly downstream of a
status in the instance state-machine DAG. -/
def reachable_statuses (s : IMStatus) : List IMStatus :=
  match s with
  | .QUEUED => [.REQUESTED, .ALLOCATED, .ALLOCATION_FAILED, .RAY_INSTALLING,
      .RAY_RUNNING, .RAY_INSTALL_FAILED, .RAY_STOPPING, .RAY_STOPPED,
      .TERMINATING, .TERMINATED, .TERMINATION_FAILED]
  | .REQUESTED => [.ALLOCATED, .ALLOCATION_FAILED, .RAY_INSTALLING, .RAY_RUNNING,
      .RAY_INSTALL_FAILED, .RAY_STOPPING, .RAY_STOPPED, .TERMINATING,
      .TERMINATED, .TERMINATION_FAILED]
  | .ALLOCATED => [.RAY_INSTALLING, .RAY_RUNNING, .RAY_INSTALL_FAILED,
      .RAY_STOPPING, .RAY_STOPPED, .TERMINATING, .TERMINATED, .TERMINATION_FAILED]
  | .ALLOCATION_FAILED => []
  | .RAY_INSTALLING => [.RAY_RUNNING, .RAY_INSTALL_FAILED, .RAY_STOPPING,
      .RAY_STOPPED, .TERMINATING, .TERMINATED, .TERMINATION_FAILED]
  | .RAY_RUNNING => [.RAY_STOPPING, .RAY_STOPPED, .TERMINATING, .TERMINATED,
      .TERMINATION_FAILED]
  | .RAY_INSTALL_FAILED => [.TERMINATING, .TERMINATED, .TERMINATION_FAILED]
  | .RAY_STOPPING => [.RAY_STOPPED, .TERMINATING, .TERMINATED, .TERMINATION_FAILED]
  | .RAY_STOPPED => [.TERMINATING, .TERMINATED, .TERMINATION_FAILED]
  | .TERMINATING => [.TERMINATED, .TERMINATION_FAILED]
  | .TERMINATED => []
  | .TERMINATION_FAILED => [.TERMINATING, .TERMINATED]

/-- `InstanceUtil.get_status_transition_times_ns`.
Modelled from the spec: the timestamps at which the instance transitioned
into the given status, read off the per-instance history. -/
def get_status_transition_times_ns (inst : IMInstance) (status : IMStatus) :
    List Nat :=
  (inst.status_history.filter (fun p => p.1 == status)).map (·.2)

/-- Apply one validated update event to an instance: set the new status,
bind the cloud instance id when the event carries one, and append to the
transition history. Modelled from the spec (`InstanceManager.update`). -/
def apply_event (now : Nat) (inst : IMInstance) (e : IMInstanceUpdateEvent) :
    IMInstance :=
  { inst with
    status := e.new_instance_status
    cloud_instance_id :=
      if e.cloud_instance_id ≠ "" then e.cloud_instance_id else inst.cloud_instance_id
    status_history := inst.status_history ++ [(e.new_instance_status, now)] }

/-- `InstanceManager.update_instance_manager_state`.
Modelled from the spec: the batch succeeds iff the expected version matches
and every event is a legal (strictly downstream) state-machine transition of
a known instance; the whole batch is atomic and bumps the version. -/
def im_update (s : IMState) (expected_version : Nat)
    (events : List IMInstanceUpdateEvent) (now : Nat) : Option IMState :=
  if expected_version ≠ s.version then none
  else if events.all (fun e =>
      match s.instances.find? (fun i => i.instance_id == e.instance_id) with
      | some inst => e.new_instance_status ∈ reachable_statuses inst.status
      | none => false) then
    some { instances := s.instances.map (fun i =>
             match events.find? (fun e => e.instance_id == i.instance_id) with
             | some e => apply_event now i e
             | none => i)
           version := s.version + 1 }
  else none

/-- `Reconciler._update_instance_manager`: skip the write when there are no
updates; otherwise update at the version just read. A failed update trips
the `assert reply.status.code == StatusCode.OK`, modelled by `none`. -/
def update_instance_manager (s : IMState) (events : List IMInstanceUpdateEvent)
    (now : Nat) : Option IMState :=
  if events.length = 0 then some s
  else im_update s s.version events now

/-! ### Pass (a): `_handle_cloud_instance_allocation` -/

/-- The ascending sort key of the allocation pass: the instance's REQUESTED
transition times. -/
def alloc_order (a b : IMInstance) : Prop :=
  get_status_transition_times_ns a .REQUESTED ≤ get_status_transition_times_ns b .REQUESTED

instance : DecidableRel alloc_order := fun _ _ =>
  inferInstanceAs (Decidable (_ ≤ _))

instance : IsTotal IMInstance alloc_order :=
  ⟨fun a b => le_total (get_status_transition_times_ns a .REQUESTED)
    (get_status_transition_times_ns b .REQUESTED)⟩

instance : IsTrans IMInstance alloc_order :=
  ⟨fun _ _ _ h h2 => le_trans h h2⟩

/-- `Reconciler._try_or_fail_allocation`: pop an unassigned cloud instance
of the same type (→ ALLOCATED), else match a launch error by request id and
node type (→ ALLOCATION_FAILED), else no update. Returns the event (if
any) and the updated unassigned pool. -/
def try_or_fail_allocation (im_instance : IMInstance)
    (unassigned_cloud_instances_by_type : List (String × List CloudInstance))
    (launch_errors : List (String × LaunchNodeError)) :
    Option IMInstanceUpdateEvent × List (String × List CloudInstance) :=
  let lst := dgetD unassigned_cloud_instances_by_type im_instance.instance_type []
  match lst.getLast? with
  | some unassigned_cloud_instance =>
      (some { instance_id := im_instance.instance_id
              new_instance_status := .ALLOCATED
              cloud_instance_id := unassigned_cloud_instance.cloud_instance_id },
       dset unassigned_cloud_instances_by_type im_instance.instance_type lst.dropLast)
  | none =>
      match dget? launch_errors im_instance.launch_request_id with
      | some launch_error =>
          if launch_error.node_type = im_instance.instance_type then
            (some { instance_id := im_instance.instance_id
                    new_instance_status := .ALLOCATION_FAILED
                    details := launch_error.details },
             unassigned_cloud_instances_by_type)
          else (none, unassigned_cloud_instances_by_type)
      | none => (none, unassigned_cloud_instances_by_type)

/-- The `launch_errors` index of the allocation pass: `LaunchNodeError`s
keyed by `request_id` (later errors overwrite earlier ones, as in the
Python dict comprehension). -/
def launch_errors_of (cloud_provider_errors : List CloudInstanceProviderError) :
    List (String × LaunchNodeError) :=
  cloud_provider_errors.foldl
    (fun d e => match e with
      | .launch err => dset d err.request_id err
      | .terminate _ => d)
    []

/-- The `unassigned_cloud_instances_by_type` pool of the allocation pass:
non-terminated cloud instances not already bound to any IM instance,
grouped by node type in observation order. -/
def unassigned_of (instances : List IMInstance)
    (non_terminated_cloud_instances : List (String × CloudInstance)) :
    List (String × List CloudInstance) :=
  let assigned_cloud_instance_ids := instances.map (·.cloud_instance_id)
  non_terminated_cloud_instances.foldl
    (fun d p =>
      if assigned_cloud_instance_ids.contains p.1 then d
      else dappend d p.2.node_type p.2)
    []

/-- One step of the allocation-pass loop: run `try_or_fail_allocation` and
collect its update event (if any), threading the unassigned pool. -/
def alloc_fold_step (launch_errors : List (String × LaunchNodeError))
    (st : List IMInstanceUpdateEvent × List (String × List CloudInstance))
    (im : IMInstance) :
    List IMInstanceUpdateEvent × List (String × List CloudInstance) :=
  match try_or_fail_allocation im st.2 launch_errors with
  | (some e, un2) => (st.1 ++ [e], un2)
  | (none, un2) => (st.1, un2)

/-- The update events of `Reconciler._handle_cloud_instance_allocation`:
launch-request-bearing instances, sorted by REQUESTED time ascending, each
tried against the unassigned pool and the launch errors. -/
def alloc_pass_events (instances : List IMInstance)
    (non_terminated_cloud_instances : List (String × CloudInstance))
    (cloud_provider_errors : List CloudInstanceProviderError) :
    List IMInstanceUpdateEvent :=
  let instances_with_launch_requests :=
    instances.filter (fun i => i.launch_request_id ≠ "")
  let launch_errors := launch_errors_of cloud_provider_errors
  let unassigned_cloud_instances_by_type :=
    unassigned_of instances non_terminated_cloud_instances
  let sorted := instances_with_launch_requests.insertionSort alloc_order
  (sorted.foldl (alloc_fold_step launch_errors)
    ([], unassigned_cloud_instances_by_type)).1

/-! ### Pass (c): `_handle_ray_status_transition` -/

/-- `Reconciler._reconciled_im_status_from_ray_status`. -/
def reconciled_im_status_from_ray_status (ray_status : RayNodeStatus)
    (cur_im_status : IMStatus) : Option IMStatus :=
  let reconciled : Option IMStatus :=
    match ray_status with
    | .RUNNING | .IDLE => some .RAY_RUNNING
    | .DEAD => some .RAY_STOPPED
    | .DRAINING => some .RAY_STOPPING
    | .UNSPECIFIED => none
  match reconciled with
  | none => none
  | some r =>
      if cur_im_status = r ∨ cur_im_status ∈ reachable_statuses r then
        some cur_im_status
      else some r

/-- The update events of `Reconciler._handle_ray_status_transition`: index
IM instances and ray nodes by cloud instance id (later entries win, ids
`""` skipped) and emit a transition whenever the reconciled status
differs from the current one. -/
def ray_pass_events (instances : List IMInstance) (ray_nodes : List NodeState) :
    List IMInstanceUpdateEvent :=
  let im_instances_by_cloud_instance_id : List (String × IMInstance) :=
    instances.foldl
      (fun d i => if i.cloud_instance_id ≠ "" then dset d i.cloud_instance_id i else d)
      []
  let ray_nodes_by_cloud_instance_id : List (String × NodeState) :=
    ray_nodes.foldl
      (fun d n => if n.instance_id ≠ "" then dset d n.instance_id n else d)
      []
  ray_nodes_by_cloud_instance_id.foldl
    (fun evs p =>
      match dget? im_instances_by_cloud_instance_id p.1 with
      | none => evs
      | some im_instance =>
          match reconciled_im_status_from_ray_status p.2.status im_instance.status with
          | none => evs
          | some reconciled =>
              if reconciled ≠ im_instance.status then
                evs ++ [{ instance_id := im_instance.instance_id
                          new_instance_status := reconciled }]
              else evs)
    []

/-! ### Pass (d): `_handle_ray_install_failed` -/

/-- The update events of `Reconciler._handle_ray_install_failed`: every
`RAY_INSTALLING` instance with a matching install error moves to
`RAY_INSTALL_FAILED`. -/
def install_pass_events (instances : List IMInstance)
    (ray_install_errors : List RayInstallError) : List IMInstanceUpdateEvent :=
  let instances_with_ray_installing :=
    instances.filter (fun i => i.status == .RAY_INSTALLING)
  let install_errors : List (String × RayInstallError) :=
    ray_install_errors.foldl (fun d e => dset d e.im_instance_id e) []
  instances_with_ray_installing.foldl
    (fun evs i =>
      match dget? install_errors i.instance_id with
      | some install_error =>
          evs ++ [{ instance_id := i.instance_id
                    new_instance_status := .RAY_INSTALL_FAILED
                    details := install_error.details }]
      | none => evs)
    []

/-! ### Pass (b): `_handle_cloud_instance_terminated` -/

/-- The update events of `Reconciler._handle_cloud_instance_terminated`.
The method body in the source is `pass`: it performs no reads and emits no
updates. -/
def terminated_pass_events (_instances : List IMInstance)
    (_non_terminated_cloud_instances : List (String × CloudInstance))
    (_cloud_provider_errors : List CloudInstanceProviderError) :
    List IMInstanceUpdateEvent :=
  []

/-! ### `Reconciler.sync_from` -/

/-- `Reconciler.sync_from`: the four passes in order — allocation,
cloud-termination (a stub in the source), ray status, install failures —
each reading the IM state fresh and applying its update events. Returns
the final IM state together with every update event handed to the
instance manager; `none` models a tripped assertion on a rejected update. -/
def sync_from (s : IMState) (ray_nodes : List NodeState)
    (non_terminated_cloud_instances : List (String × CloudInstance))
    (cloud_provider_errors : List CloudInstanceProviderError)
    (ray_install_errors : List RayInstallError) (now : Nat) :
    Option (IMState × List IMInstanceUpdateEvent) := do
  let evs_a :=
    alloc_pass_events s.instances non_terminated_cloud_instances cloud_provider_errors
  let s ← update_instance_manager s evs_a now
  let evs_b :=
    terminated_pass_events s.instances non_terminated_cloud_instances
      cloud_provider_errors
  let s ← update_instance_manager s evs_b now
  let evs_c := ray_pass_events s.instances ray_nodes
  let s ← update_instance_manager s evs_c now
  let evs_d := install_pass_events s.instances ray_install_errors
  let s ← update_instance_manager s evs_d now
  pure (s, evs_a ++ evs_b ++ evs_c ++ evs_d)

end Recon

/-! ## Derived counting functions used by the theorems -/

/-- The number of scheduling nodes of a given type not marked
`TO_TERMINATE`. -/
def count_non_terminated (nodes : List SchedulingNode) (t : String) : Nat :=
  nodes.countP (fun n => n.node_type == t && !(n.status == .TO_TERMINATE))

/-- The number of scheduling nodes of a given type (any status). -/
def count_of_type (nodes : List SchedulingNode) (t : String) : Nat :=
  nodes.countP (fun n => n.node_type == t)

/-- Two scheduling nodes agree on every field a scheduling attempt never
touches (everything except labels, the two resource pools and the two
committed-request lists). -/
def same_shell (a b : SchedulingNode) : Prop :=
  a.node_type = b.node_type ∧ a.status = b.status ∧
  a.termination_request = b.termination_request ∧
  a.total_resources = b.total_resources ∧
  a.im_instance_id = b.im_instance_id ∧ a.ray_node_id = b.ray_node_id ∧
  a.idle_duration_ms = b.idle_duration_ms ∧
  a.launch_config_hash = b.launch_config_hash ∧
  a.launch_reason = b.launch_reason

/-! ## Well-formed inputs

`schedule` can raise: `_enforce_resource_constraints` asserts at most one
cluster constraint, `_compute_score` asserts `0 ≤ util ≤ 1`, the bundle
subtraction `available_resources_dict[k] -= v` can hit a `KeyError`, and
`_add_label` asserts a label never changes value. The predicates below
carve out the inputs on which none of these fire: resource dictionaries
with unique keys (Python dicts), bundles with strictly positive demands,
requests free of placement constraints, and ray nodes reporting
`0 ≤ available ≤ total` key by key. -/

/-- A well-formed node type config: its resource dictionary has unique keys
and nonnegative amounts. -/
def good_cfg (c : NodeTypeConfig) : Prop :=
  ((c.resources.map (·.1)).Nodup) ∧ ∀ p ∈ c.resources, 0 ≤ p.2

/-- A well-formed resource request: no placement constraints, unique bundle
keys, strictly positive demands. -/
def good_req (r : ResourceRequest) : Prop :=
  r.placement_constraints = [] ∧
  ((r.resources_bundle.map (·.1)).Nodup) ∧
  ∀ p ∈ r.resources_bundle, 0 < p.2

/-- A scheduling node on which `_compute_score` and the bundle subtraction
cannot fail: unique total keys, nonnegative totals, and an available pool
between `0` and the total, key by key. -/
def good_node (n : SchedulingNode) : Prop :=
  ((n.total_resources.map (·.1)).Nodup) ∧
  (∀ p ∈ n.total_resources, 0 ≤ p.2) ∧
  (∀ p ∈ n.available_resources,
    0 ≤ dgetD n.available_resources p.1 0 ∧
    dgetD n.available_resources p.1 0 ≤ dgetD n.total_resources p.1 0)

/-- A well-formed ray node report: unique total keys, nonnegative totals,
and `0 ≤ available ≤ total` key by key. -/
def good_ray (rn : NodeState) : Prop :=
  ((rn.total_resources.map (·.1)).Nodup) ∧
  (∀ p ∈ rn.total_resources, 0 ≤ p.2) ∧
  (∀ p ∈ rn.available_resources,
    0 ≤ dgetD rn.available_resources p.1 0 ∧
    dgetD rn.available_resources p.1 0 ≤ dgetD rn.total_resources p.1 0)

instance (c : NodeTypeConfig) : Decidable (good_cfg c) := by
  unfold good_cfg
  infer_instance

instance (r : ResourceRequest) : Decidable (good_req r) := by
  unfold good_req
  infer_instance

instance (n : SchedulingNode) : Decidable (good_node n) := by
  unfold good_node
  infer_instance

instance (rn : NodeState) : Decidable (good_ray rn) := by
  unfold good_ray
  infer_instance

/-! ## Clock-field erasure

`schedule` reads the wall clock (`time.time_ns()`) and stamps it into
`LaunchRequest.id` / `LaunchRequest.request_ts_ms` and
`TerminationRequest.id`. The erasures below zero exactly those
clock-derived fields; they define what "identical outputs up to the clock
stamps" means. -/

/-- Zero the clock-derived id of a termination request. -/
def erase_clock_tr (tr : TerminationRequest) : TerminationRequest :=
  { tr with id := 0 }

/-- Zero the clock-derived fields of a launch request. -/
def erase_clock_launch (lr : LaunchRequest) : LaunchRequest :=
  { lr with id := 0, request_ts_ms := 0 }

/-- Zero the clock-derived id inside a node's termination request. -/
def erase_clock_node (n : SchedulingNode) : SchedulingNode :=
  { n with termination_request := n.termination_request.map erase_clock_tr }

/-- Zero the clock-derived ids of a whole schedule context. -/
def erase_clock_ctx (ctx : Sched.ScheduleContext) : Sched.ScheduleContext :=
  { ctx with nodes := ctx.nodes.map erase_clock_node }

/-- Zero the clock-derived ids of a `schedule_impl` output. -/
def erase_clock_out
    (out : Sched.ScheduleContext × List ClusterResourceConstraint ×
           List GangResourceRequest × List ResourceRequest) :
    Sched.ScheduleContext × List ClusterResourceConstraint ×
    List GangResourceRequest × List ResourceRequest :=
  (erase_clock_ctx out.1, out.2)

/-- Zero the clock-derived fields of a scheduling reply. -/
def erase_clock_reply (r : SchedulingReply) : SchedulingReply :=
  { r with to_launch := r.to_launch.map erase_clock_launch
           to_terminate := r.to_terminate.map erase_clock_tr }

/-! ## Concrete inputs used by the claim theorems and witnesses -/

namespace Sched

/-- A concrete node for the C6 witness: 1001 ms idle, no constraints. -/
def idle_witness_node : SchedulingNode :=
  { node_type := "a"
    status := .RUNNING
    idle_duration_ms := 1001 }

/-- A concrete node for the C9 witness. -/
def select_witness_node : SchedulingNode :=
  { node_type := "a"
    status := .RUNNING }

/-- A node type with `min_worker_nodes = 1`. -/
def c7_config : NodeTypeConfig :=
  { name := "t1"
    resources := [("CPU", 1)]
    min_worker_nodes := 1
    max_worker_nodes := 10 }

/-- The IM record of the only `t1` instance. -/
def c7_im : IMInstance :=
  { instance_id := "i-1"
    instance_type := "t1"
    status := .RAY_RUNNING }

/-- The ray node of the only `t1` instance: running, idle for 2000 ms. -/
def c7_ray_node : NodeState :=
  { node_id := "r-1"
    ray_node_type_name := "t1"
    total_resources := [("CPU", 1)]
    available_resources := [("CPU", 1)]
    idle_duration_ms := 2000
    status := .IDLE }

/-- The only instance of type `t1`. -/
def c7_instance : AutoscalerInstance :=
  { im_instance := some c7_im
    ray_node := some c7_ray_node }

/-- A scheduling request with `idle_timeout_s = 1` and the single idle
node of a type whose minimum is 1. -/
def c7_request : SchedulingRequest :=
  { node_type_configs := [("t1", c7_config)]
    idle_timeout_s := some 1
    current_instances := [c7_instance] }

/-- A request with one node type below its minimum and no instances: every
`schedule` call launches one node, stamping the clock into the launch
request. -/
def c3_request : SchedulingRequest :=
  { node_type_configs := [("t1", c7_config)] }

/-- A request carrying two cluster resource constraints: the
`assert len(constraints) <= 1` of `_enforce_resource_constraints` fires. -/
def c4_request : SchedulingRequest :=
  { node_type_configs := [("t1", c7_config)]
    cluster_resource_constraints := [{ min_bundles := [] }, { min_bundles := [] }] }

end Sched

namespace Recon

/-- An instance bound to cloud instance `"c-1"`. -/
def c2_inst : IMInstance :=
  { instance_id := "i-1"
    instance_type := "t"
    status := .ALLOCATED
    cloud_instance_id := "c-1" }

/-- An IM state holding only `c2_inst`. -/
def c2_state : IMState := { instances := [c2_inst] }

/-- A one-entry unassigned pool for the C8 witness. -/
def c8_pool : List (String × List CloudInstance) :=
  [("t", [{ cloud_instance_id := "c1", node_type := "t" }])]

/-- A launch-request-bearing instance for the C8 witness. -/
def c8_im : IMInstance :=
  { instance_id := "i"
    instance_type := "t"
    status := .REQUESTED
    launch_request_id := "r" }

/-- A `REQUESTED` instance still carrying its launch request id. -/
def c5_inst : IMInstance :=
  { instance_id := "i-1"
    instance_type := "t"
    status := .REQUESTED
    launch_request_id := "r1"
    status_history := [(.QUEUED, 0), (.REQUESTED, 1)] }

/-- The IM state before the first `sync_from`. -/
def c5_state : IMState := { instances := [c5_inst] }

/-- Two unassigned non-terminated cloud instances of type `"t"`. -/
def c5_cloud : List (String × CloudInstance) :=
  [("c1", { cloud_instance_id := "c1", node_type := "t" }),
   ("c2", { cloud_instance_id := "c2", node_type := "t" })]

/-- The IM state after the first `sync_from`: the instance is `ALLOCATED`,
bound to the popped cloud instance `"c2"`, and still carries its
`launch_request_id`. -/
def c5_state1 : IMState :=
  { instances := [{ instance_id := "i-1"
                    instance_type := "t"
                    status := .ALLOCATED
                    cloud_instance_id := "c2"
                    launch_request_id := "r1"
                    status_history := [(.QUEUED, 0), (.REQUESTED, 1),
                                       (.ALLOCATED, 10)] }]
    version := 1 }

end Recon

/-! ## Helper lemmas: dictionaries -/

theorem dget?_nil {α : Type} (t : String) : dget? ([] : List (String × α)) t = none :=
  rfl

theorem dget?_cons {α : Type} (k : String) (v : α) (d : List (String × α))
    (t : String) :
    dget? ((k, v) :: d) t = if k == t then some v else dget? d t := by
  simp only [dget?, List.find?_cons]
  by_cases h : k == t <;> simp [h]

theorem dcontains_eq_isSome {α : Type} (d : List (String × α)) (k : String) :
    dcontains d k = (dget? d k).isSome := by
  induction d with
  | nil => rfl
  | cons p d ih =>
      obtain ⟨k1, v1⟩ := p
      rw [dget?_cons]
      by_cases h : k1 == k <;> simp [dcontains, h] <;>
        simpa [dcontains] using ih

theorem dget?_append_single {α : Type} (d : List (String × α)) (k : String)
    (w : α) (h : dget? d k = none) : dget? (d ++ [(k, w)]) k = some w := by
  induction d with
  | nil => simp [dget?_cons]
  | cons p d ih =>
      obtain ⟨k1, v1⟩ := p
      rw [dget?_cons] at h
      rw [List.cons_append, dget?_cons]
      by_cases hk : k1 == k
      · rw [if_pos hk] at h; exact absurd h (by simp)
      · rw [if_neg hk] at h ⊢; exact ih h

theorem dget?_append_single_ne {α : Type} (d : List (String × α)) (k : String)
    (w : α) (t : String) (hne : k ≠ t) : dget? (d ++ [(k, w)]) t = dget? d t := by
  induction d with
  | nil =>
      rw [List.nil_append, dget?_cons, if_neg (by simpa using hne), dget?_nil]
  | cons p d ih =>
      obtain ⟨k1, v1⟩ := p
      rw [List.cons_append, dget?_cons, dget?_cons]
      by_cases hk : k1 == t
      · rw [if_pos hk, if_pos hk]
      · rw [if_neg hk, if_neg hk]; exact ih

theorem dget?_map_adjust {α : Type} (g : String × α → α) (k : String)
    (d : List (String × α)) (t : String) :
    dget? (d.map (fun p => if p.1 == k then (p.1, g p) else p)) t =
      if k = t then (d.find? (fun p => p.1 == t)).map (fun p => g p)
      else dget? d t := by
  induction d with
  | nil => by_cases h : k = t <;> simp [dget?, h]
  | cons p d ih =>
      obtain ⟨k1, v1⟩ := p
      simp only [List.map_cons]
      by_cases hk1t : k1 = t
      · subst hk1t
        by_cases hkt : k = k1
        · subst hkt
          simp [dget?_cons, List.find?_cons]
        · have hne : (k1 == k) = false := by
            simp only [beq_eq_false_iff_ne, ne_eq]
            exact fun h => hkt h.symm
          rw [hne]
          simp only [Bool.false_eq_true, if_false]
          rw [if_neg hkt, dget?_cons, dget?_cons]
          simp
      · by_cases hk1k : k1 = k
        · subst hk1k
          rw [if_pos (by simp)]
          rw [dget?_cons, if_neg (by simpa using hk1t), ih]
          simp [hk1t, dget?_cons]
        · rw [if_neg (by simpa using hk1k)]
          rw [dget?_cons, if_neg (by simpa using hk1t), ih]
          by_cases hkt : k = t
          · rw [if_pos hkt, if_pos hkt,
              List.find?_cons_of_neg _ (by simpa using hk1t)]
          · rw [if_neg hkt, if_neg hkt, dget?_cons,
              if_neg (by simpa using hk1t)]

theorem dget?_dset_self {α : Type} (d : List (String × α)) (k : String) (v : α) :
    dget? (dset d k v) k = some v := by
  unfold dset
  by_cases h : dcontains d k
  · rw [if_pos h]
    have heq := dget?_map_adjust (fun _ => v) k d k
    rw [heq, if_pos rfl]
    rw [dcontains_eq_isSome] at h
    unfold dget? at h
    cases hf : d.find? (fun p => p.1 == k) with
    | none => rw [hf] at h; simp at h
    | some p => simp
  · rw [if_neg h]
    rw [dcontains_eq_isSome] at h
    refine dget?_append_single d k v ?_
    cases hx : dget? d k with
    | none => rfl
    | some _ => rw [hx] at h; simp at h

theorem dget?_dset_ne {α : Type} (d : List (String × α)) (k : String) (v : α)
    (t : String) (hne : k ≠ t) : dget? (dset d k v) t = dget? d t := by
  unfold dset
  by_cases h : dcontains d k
  · rw [if_pos h, dget?_map_adjust, if_neg hne]
  · rw [if_neg h, dget?_append_single_ne d k v t hne]

theorem dget?_of_not_contains {α : Type} (d : List (String × α)) (k : String)
    (h : ¬ dcontains d k) : dget? d k = none := by
  rw [dcontains_eq_isSome] at h
  cases hx : dget? d k with
  | none => rfl
  | some _ => rw [hx] at h; simp at h

theorem dget?_dincr_self (d : List (String × Int)) (k : String) (v : Int) :
    dget? (dincr d k v 0) k = some (dgetD d k 0 + v) := by
  unfold dincr
  by_cases h : dcontains d k
  · rw [if_pos h, dget?_map_adjust (fun p => p.2 + v) k d k, if_pos rfl]
    have h2 := h
    rw [dcontains_eq_isSome] at h2
    unfold dget? at h2
    unfold dgetD dget?
    cases hf : d.find? (fun p => p.1 == k) with
    | none => rw [hf] at h2; simp at h2
    | some p => simp
  · rw [if_neg h]
    have hnone := dget?_of_not_contains d k h
    have hz : dgetD d k 0 = 0 := by unfold dgetD; rw [hnone]; rfl
    rw [hz, zero_add]
    exact dget?_append_single d k v hnone

theorem dget?_dincr_ne (d : List (String × Int)) (k : String) (v : Int)
    (t : String) (hne : k ≠ t) : dget? (dincr d k v 0) t = dget? d t := by
  unfold dincr
  by_cases h : dcontains d k
  · rw [if_pos h, dget?_map_adjust, if_neg hne]
  · rw [if_neg h, dget?_append_single_ne d k (0 + v) t hne]

theorem dgetD_dincr_self (d : List (String × Int)) (k : String) (v : Int) :
    dgetD (dincr d k v 0) k 0 = dgetD d k 0 + v := by
  unfold dgetD
  rw [dget?_dincr_self]
  rfl

theorem dgetD_dincr_ne (d : List (String × Int)) (k : String) (v : Int)
    (t : String) (hne : k ≠ t) : dgetD (dincr d k v 0) t 0 = dgetD d t 0 := by
  unfold dgetD
  rw [dget?_dincr_ne _ _ _ _ hne]

theorem dget?_foldl_dset_not_mem {β α : Type} (g : String × β → α)
    (items : List (String × β)) (t : String)
    (hmem : t ∉ items.map (·.1)) :
    ∀ init, dget? (items.foldl (fun d p => dset d p.1 (g p)) init) t =
      dget? init t := by
  induction items with
  | nil => intro init; rfl
  | cons p rest ih =>
      intro init
      simp only [List.map_cons, List.mem_cons] at hmem
      push_neg at hmem
      rw [List.foldl_cons, ih hmem.2, dget?_dset_ne _ _ _ _ (fun h => hmem.1 h.symm)]

theorem dget?_foldl_dset {β α : Type} (g : String × β → α)
    (items : List (String × β)) (t : String) :
    ∀ init, (items.map (·.1)).Nodup →
      dget? (items.foldl (fun d p => dset d p.1 (g p)) init) t =
        (match dget? items t with
         | some b => some (g (t, b))
         | none => dget? init t) := by
  induction items with
  | nil => intro init _; rfl
  | cons p rest ih =>
      intro init hnodup
      obtain ⟨k, b⟩ := p
      simp only [List.map_cons, List.nodup_cons] at hnodup
      rw [List.foldl_cons, dget?_cons]
      by_cases hkt : k = t
      · subst hkt
        rw [if_pos (by simp)]
        rw [dget?_foldl_dset_not_mem g rest k hnodup.1, dget?_dset_self]
      · rw [if_neg (by simpa using hkt), ih _ hnodup.2]
        cases dget? rest t with
        | none => simp [dget?_dset_ne _ _ _ _ hkt]
        | some _ => rfl

theorem dgetD_nil_zero (t : String) : dgetD ([] : List (String × Int)) t 0 = 0 :=
  rfl

theorem dgetD_count_incr_fold (nodes : List SchedulingNode) :
    ∀ (acc : List (String × Int)) (t : String),
      dgetD (nodes.foldl (fun d n => dincr d n.node_type 1 0) acc) t 0 =
        dgetD acc t 0 + count_of_type nodes t := by
  induction nodes with
  | nil => intro acc t; simp [count_of_type]
  | cons n ns ih =>
      intro acc t
      rw [List.foldl_cons, ih]
      unfold count_of_type
      rw [List.countP_cons]
      by_cases h : n.node_type = t
      · subst h
        rw [dgetD_dincr_self]
        simp [count_of_type]
        omega
      · rw [dgetD_dincr_ne _ _ _ _ h]
        simp [count_of_type, h]

theorem dget?_compute_available (nodes : List SchedulingNode)
    (cfgs : List (String × NodeTypeConfig)) (t : String) (cfg : NodeTypeConfig)
    (hnodup : (cfgs.map (·.1)).Nodup) (hcfg : dget? cfgs t = some cfg) :
    dget? (Sched.compute_available_node_types nodes cfgs) t =
      some ((cfg.max_worker_nodes : Int) - count_of_type nodes t) := by
  unfold Sched.compute_available_node_types
  rw [dget?_foldl_dset
        (fun p => (p.2.max_worker_nodes : Int) -
          dgetD (nodes.foldl (fun d n => dincr d n.node_type 1 0) []) p.1 0)
        cfgs t [] hnodup]
  simp only [hcfg]
  rw [dgetD_count_incr_fold nodes [] t, dgetD_nil_zero, zero_add]

theorem dset_keys_contains {α : Type} (d : List (String × α)) (k : String) (v : α)
    (h : dcontains d k) : (dset d k v).map (·.1) = d.map (·.1) := by
  unfold dset
  rw [if_pos h, List.map_map]
  refine List.map_congr_left (fun p _ => ?_)
  simp only [Function.comp_apply]
  split <;> rfl

theorem dset_keys_not_contains {α : Type} (d : List (String × α)) (k : String)
    (v : α) (h : ¬ dcontains d k) :
    (dset d k v).map (·.1) = d.map (·.1) ++ [k] := by
  unfold dset
  rw [if_neg h, List.map_append]
  rfl

theorem not_contains_not_mem_keys {α : Type} (d : List (String × α)) (k : String)
    (h : ¬ dcontains d k) : k ∉ d.map (·.1) := by
  intro hmem
  apply h
  unfold dcontains
  rw [List.any_eq_true]
  obtain ⟨p, hp, hkey⟩ := List.mem_map.mp hmem
  exact ⟨p, hp, by simp [hkey]⟩

theorem dset_keys_nodup {α : Type} (d : List (String × α)) (k : String) (v : α)
    (h : (d.map (·.1)).Nodup) : ((dset d k v).map (·.1)).Nodup := by
  by_cases hc : dcontains d k
  · rw [dset_keys_contains d k v hc]; exact h
  · rw [dset_keys_not_contains d k v hc]
    exact List.Nodup.append h (List.nodup_singleton k)
      (by simpa using not_contains_not_mem_keys d k hc)

theorem foldl_dset_keys_nodup {β α : Type} (g : String × β → α)
    (items : List (String × β)) :
    ∀ init : List (String × α), ((init.map (·.1)).Nodup) →
      (((items.foldl (fun d p => dset d p.1 (g p)) init).map (·.1)).Nodup) := by
  induction items with
  | nil => intro init h; exact h
  | cons p rest ih =>
      intro init h
      rw [List.foldl_cons]
      exact ih _ (dset_keys_nodup _ _ _ h)

theorem compute_available_keys_nodup (nodes : List SchedulingNode)
    (cfgs : List (String × NodeTypeConfig)) :
    ((Sched.compute_available_node_types nodes cfgs).map (·.1)).Nodup := by
  unfold Sched.compute_available_node_types
  exact foldl_dset_keys_nodup _ cfgs [] (by simp)

theorem dget?_of_mem_nodup {α : Type} (d : List (String × α)) (k : String) (v : α)
    (hnodup : (d.map (·.1)).Nodup) (hmem : (k, v) ∈ d) :
    dget? d k = some v := by
  induction d with
  | nil => simp at hmem
  | cons p rest ih =>
      obtain ⟨k1, v1⟩ := p
      simp only [List.map_cons, List.nodup_cons] at hnodup
      rw [dget?_cons]
      rcases List.mem_cons.mp hmem with heq | hmem2
      · obtain ⟨rfl, rfl⟩ := Prod.mk.injEq .. ▸ heq
        rw [if_pos (by simp)]
      · by_cases hk : k1 = k
        · subst hk
          exact absurd (List.mem_map.mpr ⟨(k1, v), hmem2, rfl⟩) hnodup.1
        · rw [if_neg (by simpa using hk)]
          exact ih hnodup.2 hmem2

theorem dget?_mem {α : Type} (d : List (String × α)) (k : String) (v : α)
    (h : dget? d k = some v) : (k, v) ∈ d := by
  unfold dget? at h
  cases hf : d.find? (fun p => p.1 == k) with
  | none => rw [hf] at h; exact absurd h (by simp)
  | some p =>
      rw [hf] at h
      have hmem := List.mem_of_find?_eq_some hf
      have hkey := List.find?_some hf
      obtain ⟨k1, v1⟩ := p
      obtain rfl : k1 = k := by simpa using hkey
      obtain rfl : v1 = v := by simpa using h
      exact hmem

/-! ## Helper lemmas: counting scheduling nodes -/

theorem count_non_terminated_append (a b : List SchedulingNode) (t : String) :
    count_non_terminated (a ++ b) t =
      count_non_terminated a t + count_non_terminated b t :=
  List.countP_append _ _ _

theorem count_of_type_append (a b : List SchedulingNode) (t : String) :
    count_of_type (a ++ b) t = count_of_type a t + count_of_type b t :=
  List.countP_append _ _ _

theorem count_non_terminated_le_count_of_type (ns : List SchedulingNode)
    (t : String) : count_non_terminated ns t ≤ count_of_type ns t :=
  List.countP_mono_left (fun n _ h => by
    simp only [Bool.and_eq_true] at h
    exact h.1)

/-! ## Helper lemmas: shell preservation through scheduling attempts -/

theorem same_shell_refl (n : SchedulingNode) : same_shell n n :=
  ⟨rfl, rfl, rfl, rfl, rfl, rfl, rfl, rfl, rfl⟩

theorem same_shell_trans {a b c : SchedulingNode} (h1 : same_shell a b)
    (h2 : same_shell b c) : same_shell a c := by
  obtain ⟨a1, a2, a3, a4, a5, a6, a7, a8, a9⟩ := h1
  obtain ⟨b1, b2, b3, b4, b5, b6, b7, b8, b9⟩ := h2
  exact ⟨a1.trans b1, a2.trans b2, a3.trans b3, a4.trans b4, a5.trans b5,
    a6.trans b6, a7.trans b7, a8.trans b8, a9.trans b9⟩

theorem add_label_shell (n : SchedulingNode) (k v : String) (n2 : SchedulingNode)
    (h : n.add_label k v = some n2) : same_shell n n2 := by
  unfold SchedulingNode.add_label at h
  split at h
  · obtain rfl := Option.some.injEq .. ▸ h.symm
    exact ⟨rfl, rfl, rfl, rfl, rfl, rfl, rfl, rfl, rfl⟩
  · split at h
    · obtain rfl := Option.some.injEq .. ▸ h.symm
      exact ⟨rfl, rfl, rfl, rfl, rfl, rfl, rfl, rfl, rfl⟩
    · exact absurd h (by simp)

theorem imprint_labels_shell (n : SchedulingNode) (r : ResourceRequest)
    (n2 : SchedulingNode) (h : n.imprint_labels r = some n2) : same_shell n n2 := by
  unfold SchedulingNode.imprint_labels at h
  revert h
  generalize r.placement_constraints = cs
  intro h
  induction cs generalizing n with
  | nil =>
      simp only [List.foldlM_nil, Option.pure_def, Option.some.injEq] at h
      subst h
      exact same_shell_refl n
  | cons c cs ih =>
      rw [List.foldlM_cons] at h
      simp only [Option.bind_eq_bind, Option.bind_eq_some] at h
      obtain ⟨m, hm, hrest⟩ := h
      refine same_shell_trans ?_ (ih m hrest)
      have anti_step : ∀ (a x : SchedulingNode),
          (match c.anti_affinity with
           | some (k, v) => a.add_label k v
           | none => pure a) = some x → same_shell a x := by
        intro a x hx
        match hc : c.anti_affinity with
        | some (k, v) => rw [hc] at hx; exact add_label_shell a k v x hx
        | none =>
            rw [hc] at hx
            simp only [Option.pure_def, Option.some.injEq] at hx
            subst hx
            exact same_shell_refl a
      match hc : c.affinity with
      | some (k, v) =>
          rw [hc] at hm
          simp only [Option.bind_eq_bind, Option.bind_eq_some] at hm
          obtain ⟨y, hy, hy2⟩ := hm
          exact same_shell_trans (add_label_shell n k v y hy) (anti_step y m hy2)
      | none =>
          rw [hc] at hm
          simp only [Option.pure_def, Option.bind_eq_bind, Option.some_bind] at hm
          exact anti_step n m hm

theorem try_schedule_one_shell (n : SchedulingNode) (r : ResourceRequest)
    (c : Bool) (n2 : SchedulingNode) (ok : Bool)
    (h : n.try_schedule_one r c = some (n2, ok)) : same_shell n n2 := by
  unfold SchedulingNode.try_schedule_one at h
  by_cases hviol : SchedulingNode.violates_anti_affinity n r
  · rw [if_pos hviol] at h
    obtain ⟨rfl, rfl⟩ : n = n2 ∧ false = ok := by
      simpa [Prod.ext_iff] using h
    exact same_shell_refl n
  · rw [if_neg hviol] at h
    cases c with
    | true =>
        simp only [if_true] at h
        by_cases hfits :
            SchedulingNode.bundle_fits n.available_resources_for_constraints r
        · rw [if_pos hfits] at h
          simp only [Option.bind_eq_bind, Option.bind_eq_some] at h
          obtain ⟨pool2, hpool, h⟩ := h
          obtain ⟨n3, himp, hpure⟩ := h
          obtain ⟨rfl, rfl⟩ : n3 = n2 ∧ true = ok := by
            simpa [Prod.ext_iff] using hpure
          refine same_shell_trans ?_ (imprint_labels_shell _ r _ himp)
          exact ⟨rfl, rfl, rfl, rfl, rfl, rfl, rfl, rfl, rfl⟩
        · rw [if_neg hfits] at h
          obtain ⟨rfl, rfl⟩ : n = n2 ∧ false = ok := by
            simpa [Prod.ext_iff] using h
          exact same_shell_refl n
    | false =>
        simp only [if_false, Bool.false_eq_true] at h
        by_cases hfits : SchedulingNode.bundle_fits n.available_resources r
        · rw [if_pos hfits] at h
          simp only [Option.bind_eq_bind, Option.bind_eq_some] at h
          obtain ⟨pool2, hpool, h⟩ := h
          obtain ⟨n3, himp, hpure⟩ := h
          obtain ⟨rfl, rfl⟩ : n3 = n2 ∧ true = ok := by
            simpa [Prod.ext_iff] using hpure
          refine same_shell_trans ?_ (imprint_labels_shell _ r _ himp)
          exact ⟨rfl, rfl, rfl, rfl, rfl, rfl, rfl, rfl, rfl⟩
        · rw [if_neg hfits] at h
          obtain ⟨rfl, rfl⟩ : n = n2 ∧ false = ok := by
            simpa [Prod.ext_iff] using h
          exact same_shell_refl n

theorem foldlM_try_step_shell (c : Bool) (rs : List ResourceRequest) :
    ∀ (st out : SchedulingNode × List ResourceRequest),
      rs.foldlM (SchedulingNode.try_step c) st = some out →
      same_shell st.1 out.1 := by
  induction rs with
  | nil =>
      intro st out h
      simp only [List.foldlM_nil, Option.pure_def, Option.some.injEq] at h
      subst h
      exact same_shell_refl _
  | cons r rs ih =>
      intro st out h
      simp only [List.foldlM_cons, Option.bind_eq_bind, Option.bind_eq_some] at h
      obtain ⟨st2, hstep, hrest⟩ := h
      refine same_shell_trans ?_ (ih st2 out hrest)
      unfold SchedulingNode.try_step at hstep
      simp only [Option.bind_eq_bind, Option.bind_eq_some] at hstep
      obtain ⟨⟨m2, ok⟩, hone, hpure⟩ := hstep
      obtain rfl : st2.1 = m2 := by
        simp only [Option.pure_def, Option.some.injEq] at hpure
        rw [hpure.symm]
      exact try_schedule_one_shell st.1 r c _ ok hone

theorem try_schedule_shell (n : SchedulingNode) (requests : List ResourceRequest)
    (c : Bool) (n2 : SchedulingNode) (rem : List ResourceRequest)
    (s : UtilizationScore) (h : n.try_schedule requests c = some (n2, rem, s)) :
    same_shell n n2 := by
  unfold SchedulingNode.try_schedule at h
  simp only [Option.bind_eq_bind, Option.bind_eq_some] at h
  obtain ⟨st2, hfold, hrest⟩ := h
  obtain ⟨sc, _, hpure⟩ := hrest
  have hshell := foldlM_try_step_shell c requests (n, []) st2 hfold
  simp only [Option.pure_def, Option.some.injEq] at hpure
  obtain ⟨rfl, _, _⟩ := Prod.mk.injEq .. ▸ hpure.symm
  exact hshell

/-! ## Helper lemmas: clock-field erasure commutes with node scheduling -/

theorem erase_labels (n : SchedulingNode) :
    (erase_clock_node n).labels = n.labels := rfl

theorem erase_avail (n : SchedulingNode) :
    (erase_clock_node n).available_resources = n.available_resources := rfl

theorem erase_avail_constraints (n : SchedulingNode) :
    (erase_clock_node n).available_resources_for_constraints =
      n.available_resources_for_constraints := rfl

theorem erase_sched_requests (n : SchedulingNode) :
    (erase_clock_node n).sched_requests = n.sched_requests := rfl

theorem erase_sched_constraints (n : SchedulingNode) :
    (erase_clock_node n).sched_constraints = n.sched_constraints := rfl

theorem erase_status (n : SchedulingNode) :
    (erase_clock_node n).status = n.status := rfl

theorem erase_node_type (n : SchedulingNode) :
    (erase_clock_node n).node_type = n.node_type := rfl

theorem erase_total (n : SchedulingNode) :
    (erase_clock_node n).total_resources = n.total_resources := rfl

theorem erase_launch_reason (n : SchedulingNode) :
    (erase_clock_node n).launch_reason = n.launch_reason := rfl

theorem erase_tr_field (n : SchedulingNode) :
    (erase_clock_node n).termination_request =
      n.termination_request.map erase_clock_tr := rfl

theorem erase_im (n : SchedulingNode) :
    (erase_clock_node n).im_instance_id = n.im_instance_id := rfl

theorem erase_ray (n : SchedulingNode) :
    (erase_clock_node n).ray_node_id = n.ray_node_id := rfl

theorem erase_idle (n : SchedulingNode) :
    (erase_clock_node n).idle_duration_ms = n.idle_duration_ms := rfl

theorem erase_hash (n : SchedulingNode) :
    (erase_clock_node n).launch_config_hash = n.launch_config_hash := rfl

theorem compute_score_erase (n : SchedulingNode) :
    (erase_clock_node n).compute_score = n.compute_score := rfl

theorem violates_anti_affinity_erase (n : SchedulingNode) (r : ResourceRequest) :
    (erase_clock_node n).violates_anti_affinity r =
      n.violates_anti_affinity r := rfl

theorem add_label_erase (n : SchedulingNode) (k v : String) :
    (erase_clock_node n).add_label k v =
      (n.add_label k v).map erase_clock_node := by
  unfold SchedulingNode.add_label
  rw [erase_labels]
  cases hd : dget? n.labels k with
  | none => simp only [hd, Option.map_some']; rfl
  | some w =>
      simp only [hd]
      by_cases hv : w = v
      · simp only [if_pos hv, Option.map_some']; rfl
      · simp only [if_neg hv, Option.map_none']

theorem imprint_labels_erase (n : SchedulingNode) (r : ResourceRequest) :
    (erase_clock_node n).imprint_labels r =
      (n.imprint_labels r).map erase_clock_node := by
  unfold SchedulingNode.imprint_labels
  generalize r.placement_constraints = cs
  induction cs generalizing n with
  | nil => simp
  | cons c cs ih =>
      have anti_step : ∀ m : SchedulingNode,
          (match c.anti_affinity with
           | some (k, v) => (erase_clock_node m).add_label k v
           | none => pure (erase_clock_node m)) =
          ((match c.anti_affinity with
            | some (k, v) => m.add_label k v
            | none => pure m) : Option SchedulingNode).map erase_clock_node := by
        intro m
        cases hc : c.anti_affinity with
        | some kv => obtain ⟨k, v⟩ := kv; exact add_label_erase m k v
        | none => rfl
      simp only [Option.pure_def] at anti_step
      simp only [List.foldlM_cons]
      cases hc : c.affinity with
      | some kv =>
          obtain ⟨k, v⟩ := kv
          simp only [hc, add_label_erase, Option.bind_eq_bind]
          cases ha : n.add_label k v with
          | none => rfl
          | some m =>
              simp only [Option.map_some', Option.some_bind, Option.pure_def]
              rw [anti_step m]
              cases hanti : (match c.anti_affinity with
                  | some (k, v) => m.add_label k v
                  | none => some m : Option SchedulingNode) with
              | none => rfl
              | some m2 =>
                  simp only [Option.map_some', Option.some_bind]
                  exact ih m2
      | none =>
          simp only [hc, Option.pure_def, Option.bind_eq_bind, Option.some_bind]
          rw [anti_step n]
          cases hanti : (match c.anti_affinity with
              | some (k, v) => n.add_label k v
              | none => some n : Option SchedulingNode) with
          | none => rfl
          | some m2 =>
              simp only [Option.map_some', Option.some_bind]
              exact ih m2

theorem try_schedule_one_erase (n : SchedulingNode) (r : ResourceRequest)
    (c : Bool) :
    (erase_clock_node n).try_schedule_one r c =
      (n.try_schedule_one r c).map (fun p => (erase_clock_node p.1, p.2)) := by
  unfold SchedulingNode.try_schedule_one
  simp only [violates_anti_affinity_erase, erase_labels, erase_avail,
    erase_avail_constraints, erase_sched_requests, erase_sched_constraints,
    erase_node_type, erase_status, erase_total, erase_launch_reason,
    erase_tr_field, erase_im, erase_ray, erase_idle, erase_hash]
  by_cases hviol : n.violates_anti_affinity r
  · rw [if_pos hviol, if_pos hviol]
    rfl
  · rw [if_neg hviol, if_neg hviol]
    cases c with
    | true =>
        simp only [if_true]
        by_cases hfits :
            SchedulingNode.bundle_fits n.available_resources_for_constraints r
        · rw [if_pos hfits, if_pos hfits]
          cases hsub : SchedulingNode.bundle_sub
              n.available_resources_for_constraints r with
          | none => rfl
          | some pool2 =>
              simp only [hsub, Option.some_bind, Option.bind_eq_bind]
              have he : ({ node_type := n.node_type,
                                sched_constraints := n.sched_constraints ++ [r],
                                sched_requests := n.sched_requests,
                                total_resources := n.total_resources,
                                available_resources := n.available_resources,
                                available_resources_for_constraints := pool2,
                                labels := n.labels,
                                status := n.status,
                                launch_reason := n.launch_reason,
                                termination_request := n.termination_request.map erase_clock_tr,
                                im_instance_id := n.im_instance_id,
                                ray_node_id := n.ray_node_id,
                                idle_duration_ms := n.idle_duration_ms,
                                launch_config_hash := n.launch_config_hash } :
                                  SchedulingNode) =
                  erase_clock_node { n with
                    available_resources_for_constraints := pool2
                    sched_constraints := n.sched_constraints ++ [r] } := rfl
              rw [he, imprint_labels_erase]
              cases himp : SchedulingNode.imprint_labels
                  { n with
                    available_resources_for_constraints := pool2
                    sched_constraints := n.sched_constraints ++ [r] } r with
              | none => rfl
              | some n3 => simp
        · rw [if_neg hfits, if_neg hfits]
          rfl
    | false =>
        simp only [if_false, Bool.false_eq_true]
        by_cases hfits : SchedulingNode.bundle_fits n.available_resources r
        · rw [if_pos hfits, if_pos hfits]
          cases hsub : SchedulingNode.bundle_sub n.available_resources r with
          | none => rfl
          | some pool2 =>
              simp only [hsub, Option.some_bind, Option.bind_eq_bind]
              have he : ({ node_type := n.node_type,
                                sched_constraints := n.sched_constraints,
                                sched_requests := n.sched_requests ++ [r],
                                total_resources := n.total_resources,
                                available_resources := pool2,
                                available_resources_for_constraints :=
                                  n.available_resources_for_constraints,
                                labels := n.labels,
                                status := n.status,
                                launch_reason := n.launch_reason,
                                termination_request := n.termination_request.map erase_clock_tr,
                                im_instance_id := n.im_instance_id,
                                ray_node_id := n.ray_node_id,
                                idle_duration_ms := n.idle_duration_ms,
                                launch_config_hash := n.launch_config_hash } :
                                  SchedulingNode) =
                  erase_clock_node { n with
                    available_resources := pool2
                    sched_requests := n.sched_requests ++ [r] } := rfl
              rw [he, imprint_labels_erase]
              cases himp : SchedulingNode.imprint_labels
                  { n with
                    available_resources := pool2
                    sched_requests := n.sched_requests ++ [r] } r with
              | none => rfl
              | some n3 => simp
        · rw [if_neg hfits, if_neg hfits]
          rfl

theorem try_step_erase (c : Bool) (st : SchedulingNode × List ResourceRequest)
    (r : ResourceRequest) :
    SchedulingNode.try_step c (erase_clock_node st.1, st.2) r =
      (SchedulingNode.try_step c st r).map
        (fun st2 => (erase_clock_node st2.1, st2.2)) := by
  unfold SchedulingNode.try_step
  rw [show (erase_clock_node st.1, st.2).1 = erase_clock_node st.1 from rfl]
  rw [try_schedule_one_erase]
  cases hone : st.1.try_schedule_one r c with
  | none => rfl
  | some p => cases p with | mk m ok => cases ok <;> rfl

theorem foldlM_try_step_erase (c : Bool) (rs : List ResourceRequest) :
    ∀ (st : SchedulingNode × List ResourceRequest),
      rs.foldlM (SchedulingNode.try_step c) (erase_clock_node st.1, st.2) =
        (rs.foldlM (SchedulingNode.try_step c) st).map
          (fun st2 => (erase_clock_node st2.1, st2.2)) := by
  induction rs with
  | nil => intro st; rfl
  | cons r rs ih =>
      intro st
      rw [List.foldlM_cons, List.foldlM_cons, try_step_erase]
      cases hstep : SchedulingNode.try_step c st r with
      | none => rfl
      | some st2 =>
          simp only [Option.map_some', Option.bind_eq_bind, Option.some_bind]
          exact ih st2

theorem try_schedule_erase (n : SchedulingNode) (requests : List ResourceRequest)
    (c : Bool) :
    (erase_clock_node n).try_schedule requests c =
      (n.try_schedule requests c).map
        (fun t => (erase_clock_node t.1, t.2.1, t.2.2)) := by
  unfold SchedulingNode.try_schedule
  have hf := foldlM_try_step_erase c requests (n, [])
  rw [show ((erase_clock_node n, []) :
        SchedulingNode × List ResourceRequest) =
      (erase_clock_node (n, (([] : List ResourceRequest))).1,
        (n, ([] : List ResourceRequest)).2) from rfl]
  rw [hf]
  cases hfold : requests.foldlM (SchedulingNode.try_step c) (n, []) with
  | none => rfl
  | some st2 =>
      simp only [Option.map_some', Option.bind_eq_bind, Option.some_bind]
      rw [compute_score_erase]
      cases hsc : st2.1.compute_score with
      | none => rfl
      | some sc => simp

/-! ## Helper lemmas for the bin-packer loops -/

namespace Sched

theorem try_step_snd (c : Bool) (st : SchedulingNode × List ResourceRequest)
    (r : ResourceRequest) (out : SchedulingNode × List ResourceRequest)
    (h : SchedulingNode.try_step c st r = some out) :
    out.2 = st.2 ∨ out.2 = st.2 ++ [r] := by
  unfold SchedulingNode.try_step at h
  cases hstep : st.1.try_schedule_one r c with
  | none => simp [hstep] at h
  | some p =>
      simp only [hstep, Option.bind_eq_bind, Option.some_bind] at h
      cases hb : p.2 <;> simp [hb] at h <;> simp [h.symm]

theorem foldlM_try_step_length (c : Bool) (rs : List ResourceRequest) :
    ∀ (st out : SchedulingNode × List ResourceRequest),
      rs.foldlM (SchedulingNode.try_step c) st = some out →
      out.2.length ≤ st.2.length + rs.length := by
  induction rs with
  | nil =>
      intro st out h
      simp only [List.foldlM_nil, Option.pure_def, Option.some.injEq] at h
      simp [h]
  | cons r rs ih =>
      intro st out h
      simp only [List.foldlM_cons, Option.bind_eq_bind, Option.bind_eq_some] at h
      obtain ⟨st2, hstep, hrest⟩ := h
      have h2 := ih st2 out hrest
      rcases try_step_snd c st r st2 hstep with heq | heq <;>
        simp [heq] at h2 ⊢ <;> omega

theorem try_schedule_unschedulable_le (n : SchedulingNode)
    (requests : List ResourceRequest) (c : Bool) (n2 : SchedulingNode)
    (rem : List ResourceRequest) (s : UtilizationScore)
    (h : n.try_schedule requests c = some (n2, rem, s)) :
    rem.length ≤ requests.length := by
  unfold SchedulingNode.try_schedule at h
  simp only [Option.bind_eq_bind, Option.bind_eq_some] at h
  obtain ⟨st2, hfold, hrest⟩ := h
  have := foldlM_try_step_length c requests (n, []) st2 hfold
  obtain ⟨sc, _, hpure⟩ := hrest
  simp only [Option.pure_def, Option.some.injEq] at hpure
  obtain ⟨rfl, rfl, rfl⟩ := Prod.mk.injEq .. ▸ hpure.symm
  simpa using this

theorem best_results_spec (requests : List ResourceRequest) (c : Bool) :
    ∀ (idx : Nat) (ns : List SchedulingNode) (results : List ScheduleResult),
      best_results requests c idx ns = some results →
      ∀ r ∈ results,
        r.infeasible_requests.length < requests.length ∧
        idx ≤ r.idx ∧ r.idx < idx + ns.length := by
  intro idx ns
  induction ns generalizing idx with
  | nil =>
      intro results h r hr
      simp only [best_results, Option.some.injEq] at h
      subst h; simp at hr
  | cons n ns ih =>
      intro results h r hr
      simp only [best_results, Option.bind_eq_bind, Option.bind_eq_some] at h
      obtain ⟨⟨n2, rem, s⟩, htry, h⟩ := h
      obtain ⟨rest, hrest, h⟩ := h
      have hrec := ih (idx + 1) rest hrest
      by_cases hlen : rem.length = requests.length
      · rw [if_pos hlen] at h
        simp only [Option.pure_def, Option.some.injEq] at h
        subst h
        have := hrec r hr
        exact ⟨this.1, by omega, by simp only [List.length_cons]; omega⟩
      · rw [if_neg hlen] at h
        simp only [Option.pure_def, Option.some.injEq] at h
        subst h
        rcases List.mem_cons.mp hr with hr | hr
        · subst hr
          have hle := try_schedule_unschedulable_le n requests c n2 rem s htry
          exact ⟨Nat.lt_of_le_of_ne hle hlen, le_refl _, by simp⟩
        · have := hrec r hr
          exact ⟨this.1, by omega, by simp only [List.length_cons]; omega⟩

theorem sched_best_node_some (requests : List ResourceRequest)
    (nodes : List SchedulingNode) (c : Bool) (bn : SchedulingNode)
    (rem : List ResourceRequest) (ns : List SchedulingNode)
    (h : sched_best_node requests nodes c = some (some (bn, rem), ns)) :
    rem.length < requests.length ∧ ∃ i, i < nodes.length ∧ ns = nodes.eraseIdx i := by
  unfold sched_best_node at h
  simp only [Option.bind_eq_bind, Option.bind_eq_some] at h
  obtain ⟨results, hres, h⟩ := h
  cases results with
  | nil => simp at h
  | cons r0 rs =>
      cases hsort : (r0 :: rs).insertionSort result_order with
      | nil =>
          exfalso
          have hp := List.perm_insertionSort result_order (r0 :: rs)
          rw [hsort] at hp
          simpa using hp.length_eq
      | cons best rest =>
          rw [hsort] at h
          simp only [Option.pure_def, Option.some.injEq, Prod.mk.injEq,
            Option.some.injEq] at h
          obtain ⟨⟨hbn, hrem⟩, hns⟩ := h
          have hbestmem : best ∈ r0 :: rs := by
            have hp := List.perm_insertionSort result_order (r0 :: rs)
            rw [hsort] at hp
            exact hp.mem_iff.mp (by simp)
          have hspec := best_results_spec requests c 0 nodes (r0 :: rs) hres best hbestmem
          subst hrem
          exact ⟨hspec.1, best.idx, by simpa using hspec.2.2, hns.symm⟩

theorem perm_get_cons_eraseIdx {α : Type} :
    ∀ (l : List α) (i : Nat) (h : i < l.length),
      List.Perm (l.get ⟨i, h⟩ :: l.eraseIdx i) l := by
  intro l
  induction l with
  | nil => intro i h; simp at h
  | cons x xs ih =>
      intro i h
      cases i with
      | zero => simp [List.eraseIdx]
      | succ j =>
          have hj : j < xs.length := by simpa using h
          have hrec := ih j hj
          show List.Perm (xs.get ⟨j, hj⟩ :: x :: xs.eraseIdx j) (x :: xs)
          exact List.Perm.trans (List.Perm.swap x (xs.get ⟨j, hj⟩) _)
            (List.Perm.cons x hrec)

theorem sched_best_node_none_eq (requests : List ResourceRequest)
    (nodes : List SchedulingNode) (c : Bool) (ns : List SchedulingNode)
    (h : sched_best_node requests nodes c = some (none, ns)) : ns = nodes := by
  unfold sched_best_node at h
  simp only [Option.bind_eq_bind, Option.bind_eq_some] at h
  obtain ⟨results, _, h⟩ := h
  cases results with
  | nil =>
      simp only [Option.pure_def, Option.some.injEq, Prod.mk.injEq] at h
      exact h.2.symm
  | cons r0 rs =>
      cases hsort : (r0 :: rs).insertionSort result_order with
      | nil =>
          exfalso
          have hp := List.perm_insertionSort result_order (r0 :: rs)
          rw [hsort] at hp
          simpa using hp.length_eq
      | cons best rest =>
          rw [hsort] at h
          simp only [Option.pure_def, Option.some.injEq, Prod.mk.injEq] at h
          exact absurd h.1 (by simp)

theorem best_results_shell (requests : List ResourceRequest) (c : Bool) :
    ∀ (idx : Nat) (ns : List SchedulingNode) (results : List ScheduleResult),
      best_results requests c idx ns = some results →
      ∀ r ∈ results, ∃ (j : Nat) (hj : j < ns.length),
        r.idx = idx + j ∧ same_shell (ns.get ⟨j, hj⟩) r.node := by
  intro idx ns
  induction ns generalizing idx with
  | nil =>
      intro results h r hr
      simp only [best_results, Option.some.injEq] at h
      subst h; simp at hr
  | cons n ns ih =>
      intro results h r hr
      simp only [best_results, Option.bind_eq_bind, Option.bind_eq_some] at h
      obtain ⟨⟨n2, rem, s⟩, htry, h⟩ := h
      obtain ⟨rest, hrest, h⟩ := h
      have hrec := ih (idx + 1) rest hrest
      by_cases hlen : rem.length = requests.length
      · rw [if_pos hlen] at h
        simp only [Option.pure_def, Option.some.injEq] at h
        subst h
        obtain ⟨j, hj, hidx, hsh⟩ := hrec r hr
        exact ⟨j + 1, by simpa using Nat.succ_lt_succ hj, by omega, hsh⟩
      · rw [if_neg hlen] at h
        simp only [Option.pure_def, Option.some.injEq] at h
        subst h
        rcases List.mem_cons.mp hr with hr | hr
        · subst hr
          exact ⟨0, by simp, by simp,
            try_schedule_shell n requests c n2 rem s htry⟩
        · obtain ⟨j, hj, hidx, hsh⟩ := hrec r hr
          exact ⟨j + 1, by simpa using Nat.succ_lt_succ hj, by omega, hsh⟩

theorem sched_best_node_shell (requests : List ResourceRequest)
    (nodes : List SchedulingNode) (c : Bool) (bn : SchedulingNode)
    (rem : List ResourceRequest) (ns : List SchedulingNode)
    (h : sched_best_node requests nodes c = some (some (bn, rem), ns)) :
    ∃ (j : Nat) (hj : j < nodes.length),
      same_shell (nodes.get ⟨j, hj⟩) bn ∧ ns = nodes.eraseIdx j := by
  unfold sched_best_node at h
  simp only [Option.bind_eq_bind, Option.bind_eq_some] at h
  obtain ⟨results, hres, h⟩ := h
  cases results with
  | nil => simp at h
  | cons r0 rs =>
      cases hsort : (r0 :: rs).insertionSort result_order with
      | nil =>
          exfalso
          have hp := List.perm_insertionSort result_order (r0 :: rs)
          rw [hsort] at hp
          simpa using hp.length_eq
      | cons best rest =>
          rw [hsort] at h
          simp only [Option.pure_def, Option.some.injEq, Prod.mk.injEq,
            Option.some.injEq] at h
          obtain ⟨⟨hbn, _⟩, hns⟩ := h
          have hbestmem : best ∈ r0 :: rs := by
            have hp := List.perm_insertionSort result_order (r0 :: rs)
            rw [hsort] at hp
            exact hp.mem_iff.mp (by simp)
          obtain ⟨j, hj, hidx, hsh⟩ :=
            best_results_shell requests c 0 nodes (r0 :: rs) hres best hbestmem
          refine ⟨j, hj, hbn ▸ hsh, ?_⟩
          rw [← hns, hidx]
          simp

/-- The ``(node_type, status)``-like counting predicates are invariant
under `same_shell`. -/
theorem countP_cons_eraseIdx (p : SchedulingNode → Bool)
    (hp : ∀ a b, same_shell a b → p a = p b)
    (nodes : List SchedulingNode) (j : Nat) (hj : j < nodes.length)
    (bn : SchedulingNode) (hsh : same_shell (nodes.get ⟨j, hj⟩) bn) :
    (bn :: nodes.eraseIdx j).countP p = nodes.countP p := by
  have hperm := perm_get_cons_eraseIdx nodes j hj
  calc (bn :: nodes.eraseIdx j).countP p
      = (if p bn then 1 else 0) + (nodes.eraseIdx j).countP p := by
        rw [List.countP_cons]
        by_cases h : p bn <;> simp [h] <;> omega
    _ = (if p (nodes.get ⟨j, hj⟩) then 1 else 0) + (nodes.eraseIdx j).countP p := by
        rw [hp _ _ hsh]
    _ = ((nodes.get ⟨j, hj⟩) :: nodes.eraseIdx j).countP p := by
        rw [List.countP_cons]
        by_cases h : p (nodes.get ⟨j, hj⟩) <;> simp [h] <;> omega
    _ = nodes.countP p := hperm.countP_eq p

/-- Loop 1 of `_try_schedule` preserves any shell-invariant count over
`target ++ existing`. -/
theorem sched_existing_countP (c : Bool) (p : SchedulingNode → Bool)
    (hp : ∀ a b, same_shell a b → p a = p b) :
    ∀ (fuel : Nat) (requests : List ResourceRequest)
      (existing target : List SchedulingNode)
      (reqs2 : List ResourceRequest) (ex2 tgt2 : List SchedulingNode),
      sched_existing c fuel requests existing target = some (reqs2, ex2, tgt2) →
      (tgt2 ++ ex2).countP p = (target ++ existing).countP p := by
  intro fuel
  induction fuel with
  | zero =>
      intro requests existing target reqs2 ex2 tgt2 h
      simp only [sched_existing, Option.some.injEq, Prod.mk.injEq] at h
      rw [h.2.2.symm, h.2.1.symm]
  | succ fuel ih =>
      intro requests existing target reqs2 ex2 tgt2 h
      rw [sched_existing] at h
      split at h
      · simp only [Option.some.injEq, Prod.mk.injEq] at h
        rw [h.2.2.symm, h.2.1.symm]
      · split at h
        · exact absurd h (by simp)
        · next ns heq =>
            simp only [Option.some.injEq, Prod.mk.injEq] at h
            rw [h.2.2.symm, h.2.1.symm]
            rw [sched_best_node_none_eq _ _ _ _ heq]
        · next bn rem ns heq =>
            have hstep := ih _ _ _ _ _ _ h
            rw [hstep]
            obtain ⟨j, hj, hsh, rfl⟩ :=
              sched_best_node_shell _ _ _ _ _ _ heq
            rw [List.countP_append, List.countP_append, List.countP_append]
            have hcnt := countP_cons_eraseIdx p hp existing j hj bn hsh
            rw [List.countP_cons] at hcnt ⊢
            simp only [List.countP_nil]
            omega

theorem shell_type_pred (u : String) (a b : SchedulingNode) (h : same_shell a b) :
    (a.node_type == u) = (b.node_type == u) := by rw [h.1]

theorem shell_nonterm_pred (u : String) (a b : SchedulingNode) (h : same_shell a b) :
    ((a.node_type == u) && !(a.status == SchedulingNodeStatus.TO_TERMINATE)) =
      ((b.node_type == u) && !(b.status == SchedulingNodeStatus.TO_TERMINATE)) := by
  rw [h.1, h.2.1]

/-- Loop 2 of `_try_schedule` adds, for every node type, at most
`node_type_available` new non-terminating nodes: the per-type pool always
holds at most one fresh candidate per type, a candidate is only present
while availability remains, and committing decrements availability. -/
theorem sched_new_count_bound (cfgs : List (String × NodeTypeConfig))
    (mx : Option Nat) (c : Bool)
    (hname : ∀ k cfg, dget? cfgs k = some cfg → cfg.name = k) (t : String) :
    ∀ (fuel : Nat) (requests : List ResourceRequest)
      (pool target : List SchedulingNode) (avail : List (String × Int))
      (out : List ResourceRequest × List SchedulingNode),
      sched_new cfgs mx c fuel requests pool target avail = some out →
      (∀ n ∈ pool, n.status = SchedulingNodeStatus.TO_LAUNCH) →
      (∀ u, 1 ≤ count_of_type pool u → 1 ≤ dgetD avail u 0) →
      (∀ u, count_of_type pool u ≤ 1) →
      count_non_terminated out.2 t ≤
        count_non_terminated target t + (dgetD avail t 0).toNat := by
  intro fuel
  induction fuel with
  | zero =>
      intro requests pool target avail out h _ _ _
      simp only [sched_new, Option.some.injEq] at h
      rw [h.symm]
      exact Nat.le_add_right _ _
  | succ fuel ih =>
      intro requests pool target avail out h H0 H1 H2
      simp only [sched_new] at h
      by_cases hc1 : (requests.length = 0 ∨ pool.length = 0)
      · rw [if_pos hc1] at h
        simp only [Option.some.injEq] at h
        rw [h.symm]
        exact Nat.le_add_right _ _
      · rw [if_neg hc1] at h
        by_cases hc2 : sched_new_guard mx target.length = true
        · rw [if_pos hc2] at h
          simp only [Option.some.injEq] at h
          rw [h.symm]
          exact Nat.le_add_right _ _
        · rw [if_neg hc2] at h
          cases hbest : sched_best_node requests pool c with
          | none => rw [hbest] at h; exact absurd h (by simp)
          | some ob =>
              obtain ⟨ob1, pool2⟩ := ob
              cases ob1 with
              | none =>
                  simp only [hbest, Option.some.injEq] at h
                  rw [h.symm]
                  exact Nat.le_add_right _ _
              | some br =>
                  obtain ⟨bn, rem⟩ := br
                  simp only [hbest] at h
                  obtain ⟨j, hj, hsh, rfl⟩ :=
                    sched_best_node_shell _ _ _ _ _ _ hbest
                  have hmem : pool.get ⟨j, hj⟩ ∈ pool := pool.get_mem _ _
                  have hstatus : bn.status = SchedulingNodeStatus.TO_LAUNCH :=
                    hsh.2.1 ▸ H0 _ hmem
                  have hcount : ∀ u, count_of_type pool u =
                      (if (bn.node_type == u) then 1 else 0) +
                        count_of_type (pool.eraseIdx j) u := by
                    intro u
                    have := countP_cons_eraseIdx (fun n => n.node_type == u)
                      (shell_type_pred u) pool j hj bn hsh
                    unfold count_of_type
                    rw [← this, List.countP_cons]
                    by_cases hbt : (bn.node_type == u) <;> simp [hbt] <;> omega
                  have hpoolT : 1 ≤ count_of_type pool bn.node_type := by
                    rw [hcount bn.node_type]
                    simp
                  have havailT : 1 ≤ dgetD avail bn.node_type 0 := H1 _ hpoolT
                  have htarget : ∀ u, count_non_terminated (target ++ [bn]) u =
                      count_non_terminated target u +
                        (if (bn.node_type == u) then 1 else 0) := by
                    intro u
                    unfold count_non_terminated
                    rw [List.countP_append, List.countP_cons]
                    simp only [List.countP_nil, hstatus]
                    by_cases hbt : (bn.node_type == u) <;> simp [hbt]
                  have H0e : ∀ n ∈ pool.eraseIdx j,
                      n.status = SchedulingNodeStatus.TO_LAUNCH :=
                    fun n hn => H0 n (List.mem_of_mem_eraseIdx hn)
                  have H2e : ∀ u, count_of_type (pool.eraseIdx j) u ≤ 1 := by
                    intro u
                    have := H2 u
                    rw [hcount u] at this
                    omega
                  by_cases hrefill :
                      0 < dgetD (dincr avail bn.node_type (-1) 0) bn.node_type 0
                  · rw [if_pos hrefill] at h
                    cases hcfg : dget? cfgs bn.node_type with
                    | none => rw [hcfg] at h; exact absurd h (by simp)
                    | some cfg =>
                        simp only [hcfg] at h
                        have hnewtype :
                            (SchedulingNode.from_node_config cfg
                              .TO_LAUNCH).node_type = bn.node_type :=
                          hname _ _ hcfg
                        have hrec := ih rem
                          (pool.eraseIdx j ++
                            [SchedulingNode.from_node_config cfg .TO_LAUNCH])
                          (target ++ [bn]) (dincr avail bn.node_type (-1) 0)
                          out h ?_ ?_ ?_
                        · rw [htarget t] at hrec
                          by_cases hbt : (bn.node_type == t)
                          · have hbt2 : bn.node_type = t := by simpa using hbt
                            rw [hbt2] at havailT
                            rw [if_pos hbt] at hrec
                            have hd : dgetD (dincr avail bn.node_type (-1) 0) t 0 =
                                dgetD avail t 0 + (-1) := by
                              rw [hbt2, dgetD_dincr_self]
                            rw [hd] at hrec
                            omega
                          · rw [if_neg hbt] at hrec
                            have hbt2 : bn.node_type ≠ t := by simpa using hbt
                            rw [dgetD_dincr_ne _ _ _ _ hbt2] at hrec
                            omega
                        · intro n hn
                          rcases List.mem_append.mp hn with hn | hn
                          · exact H0e n hn
                          · rw [List.mem_singleton.mp hn]; rfl
                        · intro u hu
                          by_cases hut : u = bn.node_type
                          · subst hut
                            omega
                          · have hcu : count_of_type (pool.eraseIdx j ++
                                [SchedulingNode.from_node_config cfg .TO_LAUNCH]) u =
                                count_of_type (pool.eraseIdx j) u := by
                              unfold count_of_type
                              rw [List.countP_append, List.countP_cons]
                              simp only [List.countP_nil, hnewtype]
                              rw [if_neg (by simpa using fun h2 => hut h2.symm)]
                              omega
                            rw [hcu] at hu
                            have : 1 ≤ count_of_type pool u := by
                              rw [hcount u]; omega
                            have := H1 u this
                            rw [dgetD_dincr_ne _ _ _ _ (fun h2 => hut h2.symm)]
                            exact this
                        · intro u
                          by_cases hut : u = bn.node_type
                          · have hcu : count_of_type (pool.eraseIdx j ++
                                [SchedulingNode.from_node_config cfg .TO_LAUNCH]) u =
                                count_of_type (pool.eraseIdx j) u + 1 := by
                              unfold count_of_type
                              rw [List.countP_append, List.countP_cons]
                              simp [hnewtype, hut]
                            rw [hcu]
                            have h3 := H2 u
                            rw [hcount u, hut] at h3
                            simp only [beq_self_eq_true, if_pos] at h3
                            rw [hut]
                            omega
                          · have hcu : count_of_type (pool.eraseIdx j ++
                                [SchedulingNode.from_node_config cfg .TO_LAUNCH]) u =
                                count_of_type (pool.eraseIdx j) u := by
                              unfold count_of_type
                              rw [List.countP_append, List.countP_cons]
                              simp only [List.countP_nil, hnewtype]
                              rw [if_neg (by simpa using fun h2 => hut h2.symm)]
                              omega
                            rw [hcu]
                            exact H2e u
                  · rw [if_neg hrefill] at h
                    have hrec := ih rem (pool.eraseIdx j) (target ++ [bn])
                      (dincr avail bn.node_type (-1) 0) out h H0e ?_ H2e
                    · rw [htarget t] at hrec
                      by_cases hbt : (bn.node_type == t)
                      · have hbt2 : bn.node_type = t := by simpa using hbt
                        rw [hbt2] at havailT
                        rw [if_pos hbt] at hrec
                        have hd : dgetD (dincr avail bn.node_type (-1) 0) t 0 =
                            dgetD avail t 0 + (-1) := by
                          rw [hbt2, dgetD_dincr_self]
                        rw [hd] at hrec
                        omega
                      · rw [if_neg hbt] at hrec
                        have hbt2 : bn.node_type ≠ t := by simpa using hbt
                        rw [dgetD_dincr_ne _ _ _ _ hbt2] at hrec
                        omega
                    · intro u hu
                      by_cases hut : u = bn.node_type
                      · have h3 := H2 u
                        rw [hcount u, hut] at h3
                        simp only [beq_self_eq_true, if_pos] at h3
                        rw [hut] at hu
                        omega
                      · have : 1 ≤ count_of_type pool u := by
                          rw [hcount u]; omega
                        have := H1 u this
                        rw [dgetD_dincr_ne _ _ _ _ (fun h2 => hut h2.symm)]
                        exact this

/-- The per-type pool built by `_try_schedule` holds one fresh `TO_LAUNCH`
node per (positively) available type, typed after its dictionary key. -/
theorem node_pools_spec (cfgs : List (String × NodeTypeConfig))
    (hname : ∀ k cfg, dget? cfgs k = some cfg → cfg.name = k) :
    ∀ (l : List (String × Int)) (pool : List SchedulingNode),
      l.mapM (fun p => (dget? cfgs p.1).map
        (fun cfg => SchedulingNode.from_node_config cfg .TO_LAUNCH)) = some pool →
      pool.map (·.node_type) = l.map (·.1) ∧
      ∀ n ∈ pool, n.status = SchedulingNodeStatus.TO_LAUNCH := by
  intro l
  induction l with
  | nil =>
      intro pool h
      simp only [List.mapM_nil, Option.pure_def, Option.some.injEq] at h
      subst h
      exact ⟨rfl, by simp⟩
  | cons p rest ih =>
      intro pool h
      rw [List.mapM_cons] at h
      cases hf : dget? cfgs p.1 with
      | none =>
          rw [hf] at h
          exact absurd h (by simp)
      | some cfg =>
          rw [hf] at h
          cases hrest : rest.mapM (fun p => (dget? cfgs p.1).map
              (fun cfg => SchedulingNode.from_node_config cfg .TO_LAUNCH)) with
          | none =>
              simp only [hrest, Option.map_some', Option.bind_eq_bind,
                Option.some_bind, Option.none_bind] at h
              exact absurd h (by simp)
          | some ys =>
          simp only [hrest, Option.map_some', Option.bind_eq_bind,
            Option.some_bind, Option.pure_def, Option.some.injEq] at h
          subst h
          obtain ⟨htypes, hstat⟩ := ih ys hrest
          refine ⟨?_, ?_⟩
          · simp only [List.map_cons, htypes]
            have hn : (SchedulingNode.from_node_config cfg
                SchedulingNodeStatus.TO_LAUNCH).node_type = p.1 := hname _ _ hf
            rw [hn]
          · intro n hn
            rcases List.mem_cons.mp hn with rfl | hn2
            · rfl
            · exact hstat n hn2

theorem countP_beq_le_one_of_nodup (u : String) :
    ∀ (keys : List String), keys.Nodup →
      keys.countP (fun s => s == u) ≤ 1 := by
  intro keys
  induction keys with
  | nil => intro _; simp
  | cons k rest ih =>
      intro hnd
      rw [List.countP_cons]
      rcases List.nodup_cons.mp hnd with ⟨hk, hrest⟩
      by_cases hku : k = u
      · subst hku
        have hz : rest.countP (fun s => s == k) = 0 := by
          rw [List.countP_eq_zero]
          intro s hs
          simp only [beq_iff_eq]
          exact fun hsk => hk (hsk ▸ hs)
        simp [hz]
      · rw [if_neg (by simp [hku])]
        have := ih hrest
        omega

theorem one_le_countP_beq_mem (u : String) (keys : List String)
    (h : 1 ≤ keys.countP (fun s => s == u)) : u ∈ keys := by
  by_contra hmem
  have hz : keys.countP (fun s => s == u) = 0 := by
    rw [List.countP_eq_zero]
    intro s hs
    simp only [beq_iff_eq]
    exact fun hsu => hmem (hsu ▸ hs)
  omega

/-- `_try_schedule` never pushes a configured type above
`node_type_available`: every launched node of type `t` consumes one unit of
the `max_worker_nodes(t) − existing(t)` budget. -/
theorem try_schedule_ctx_count_bound (ctx : ScheduleContext)
    (reqs : List ResourceRequest) (c : Bool)
    (target3 : List SchedulingNode) (reqs2 : List ResourceRequest)
    (hcoh : ctx.node_type_available =
      compute_available_node_types ctx.nodes ctx.node_type_configs)
    (hnodup : (ctx.node_type_configs.map (·.1)).Nodup)
    (hname : ∀ k cfg, dget? ctx.node_type_configs k = some cfg → cfg.name = k)
    (h : try_schedule_ctx ctx reqs c = some (target3, reqs2))
    (t : String) (cfg : NodeTypeConfig)
    (hcfg : dget? ctx.node_type_configs t = some cfg) :
    count_non_terminated target3 t ≤
      count_non_terminated ctx.nodes t +
        ((cfg.max_worker_nodes : Int) - count_of_type ctx.nodes t).toNat := by
  simp only [try_schedule_ctx, Option.pure_def] at h
  cases hse : sched_existing c (List.insertionSort request_order reqs).length
      (List.insertionSort request_order reqs) ctx.nodes [] with
  | none => rw [hse] at h; exact absurd h (by simp)
  | some x =>
  obtain ⟨reqs1, ex2, tgt1⟩ := x
  rw [hse] at h
  simp only [Option.bind_eq_bind, Option.some_bind] at h
  cases hpool : (ctx.node_type_available.filter (fun p => 0 < p.2)).mapM
      (fun p => (dget? ctx.node_type_configs p.1).map
        (fun cfg => SchedulingNode.from_node_config cfg .TO_LAUNCH)) with
  | none => simp only [hpool, Option.none_bind] at h; exact absurd h (by simp)
  | some node_pools =>
  simp only [hpool, Option.some_bind] at h
  cases hsn : sched_new ctx.node_type_configs ctx.max_num_nodes c reqs1.length
      reqs1 node_pools (tgt1 ++ ex2) ctx.node_type_available with
  | none => simp only [hsn, Option.none_bind] at h; exact absurd h (by simp)
  | some y =>
  obtain ⟨reqsf, targetf⟩ := y
  simp only [hsn, Option.some_bind, Option.some.injEq, Prod.mk.injEq] at h
  obtain ⟨rfl, rfl⟩ := h
  have hkeysnodup : ((ctx.node_type_available).map (·.1)).Nodup := by
    rw [hcoh]; exact compute_available_keys_nodup _ _
  have hfsub : ((ctx.node_type_available.filter (fun p => 0 < p.2)).map (·.1)).Sublist
      ((ctx.node_type_available).map (·.1)) :=
    List.Sublist.map _ (List.filter_sublist _)
  have hfkeys := List.Nodup.sublist hfsub hkeysnodup
  obtain ⟨htypes, hstat⟩ := node_pools_spec _ hname _ _ hpool
  have hcounttypes : ∀ u, count_of_type node_pools u =
      ((ctx.node_type_available.filter (fun p => 0 < p.2)).map (·.1)).countP
        (fun s => s == u) := by
    intro u
    unfold count_of_type
    calc node_pools.countP (fun n => n.node_type == u)
        = (node_pools.map (·.node_type)).countP (fun s => s == u) :=
          (List.countP_map (fun s => s == u)
            (fun n : SchedulingNode => n.node_type) node_pools).symm
      _ = _ := by rw [htypes]
  have hH1 : ∀ u, 1 ≤ count_of_type node_pools u →
      1 ≤ dgetD ctx.node_type_available u 0 := by
    intro u hu
    rw [hcounttypes u] at hu
    have hmem := one_le_countP_beq_mem u _ hu
    obtain ⟨pair, hpairmem, hpairkey⟩ := List.mem_map.mp hmem
    have hmem2 : pair ∈ ctx.node_type_available := List.mem_of_mem_filter hpairmem
    have hpos : 0 < pair.2 := by simpa using List.of_mem_filter hpairmem
    have hmem3 : (u, pair.2) ∈ ctx.node_type_available := by
      rw [← hpairkey, Prod.mk.eta]
      exact hmem2
    have hget : dget? ctx.node_type_available u = some pair.2 :=
      dget?_of_mem_nodup _ _ _ hkeysnodup hmem3
    have hgd : dgetD ctx.node_type_available u 0 = pair.2 := by
      unfold dgetD; rw [hget]; rfl
    omega
  have hH2 : ∀ u, count_of_type node_pools u ≤ 1 := by
    intro u
    rw [hcounttypes u]
    exact countP_beq_le_one_of_nodup u _ hfkeys
  have hb := sched_new_count_bound ctx.node_type_configs ctx.max_num_nodes c
    hname t reqs1.length reqs1 node_pools (tgt1 ++ ex2) ctx.node_type_available
    _ hsn hstat hH1 hH2
  have hpres := sched_existing_countP c
    (fun n => n.node_type == t && !(n.status == SchedulingNodeStatus.TO_TERMINATE))
    (shell_nonterm_pred t) _ _ _ _ _ _ _ hse
  have hpres2 : count_non_terminated (tgt1 ++ ex2) t =
      count_non_terminated ctx.nodes t := by
    unfold count_non_terminated
    rw [hpres]
    simp
  have hgd2 : dgetD ctx.node_type_available t 0 =
      (cfg.max_worker_nodes : Int) - count_of_type ctx.nodes t := by
    unfold dgetD
    rw [hcoh, dget?_compute_available ctx.nodes ctx.node_type_configs t cfg
      hnodup hcfg]
    rfl
  rw [hpres2] at hb
  rw [← hgd2]
  exact hb

theorem dappend_keys_contains {α : Type} (d : List (String × List α)) (k : String)
    (v : α) (h : dcontains d k) : (dappend d k v).map (·.1) = d.map (·.1) := by
  unfold dappend
  rw [if_pos h, List.map_map]
  refine List.map_congr_left (fun p _ => ?_)
  simp only [Function.comp_apply]
  split <;> rfl

theorem dappend_keys_not_contains {α : Type} (d : List (String × List α))
    (k : String) (v : α) (h : ¬ dcontains d k) :
    (dappend d k v).map (·.1) = d.map (·.1) ++ [k] := by
  unfold dappend
  rw [if_neg h, List.map_append]
  rfl

theorem dappend_keys_nodup {α : Type} (d : List (String × List α)) (k : String)
    (v : α) (h : (d.map (·.1)).Nodup) : ((dappend d k v).map (·.1)).Nodup := by
  by_cases hc : dcontains d k
  · rw [dappend_keys_contains d k v hc]; exact h
  · rw [dappend_keys_not_contains d k v hc]
    exact List.Nodup.append h (List.nodup_singleton k)
      (by simpa using not_contains_not_mem_keys d k hc)

theorem dappend_types (d : List (String × List SchedulingNode)) (k : String)
    (v : SchedulingNode) (hv : v.node_type = k)
    (hd : ∀ p ∈ d, ∀ n ∈ p.2, n.node_type = p.1) :
    ∀ p ∈ dappend d k v, ∀ n ∈ p.2, n.node_type = p.1 := by
  intro p hp n hn
  unfold dappend at hp
  by_cases hc : dcontains d k
  · rw [if_pos hc] at hp
    obtain ⟨q, hq, rfl⟩ := List.mem_map.mp hp
    by_cases hqk : (q.1 == k)
    · rw [if_pos hqk] at hn ⊢
      rcases List.mem_append.mp hn with hn2 | hn2
      · exact hd q hq n hn2
      · obtain rfl := List.mem_singleton.mp hn2
        have : q.1 = k := by simpa using hqk
        rw [hv, this]
    · rw [if_neg hqk] at hn ⊢
      exact hd q hq n hn
  · rw [if_neg hc] at hp
    rcases List.mem_append.mp hp with hp2 | hp2
    · exact hd p hp2 n hn
    · obtain rfl := List.mem_singleton.mp hp2
      obtain rfl := List.mem_singleton.mp hn
      exact hv

/-- Invariants of the grouping fold of `_enforce_max_workers_per_type`. -/
theorem max_partition_spec :
    ∀ (nodes : List SchedulingNode)
      (acc : List SchedulingNode × List (String × List SchedulingNode)),
      (∀ n ∈ acc.1, n.status = SchedulingNodeStatus.TO_TERMINATE) →
      (∀ p ∈ acc.2, ∀ n ∈ p.2, n.node_type = p.1) →
      ((acc.2.map (·.1)).Nodup) →
      (∀ n ∈ (nodes.foldl max_partition_step acc).1,
          n.status = SchedulingNodeStatus.TO_TERMINATE) ∧
      (∀ p ∈ (nodes.foldl max_partition_step acc).2, ∀ n ∈ p.2,
          n.node_type = p.1) ∧
      (((nodes.foldl max_partition_step acc).2.map (·.1)).Nodup) := by
  intro nodes
  induction nodes with
  | nil => intro acc h1 h2 h3; exact ⟨h1, h2, h3⟩
  | cons n rest ih =>
      intro acc h1 h2 h3
      rw [List.foldl_cons]
      by_cases hs : n.status = SchedulingNodeStatus.TO_TERMINATE
      · refine ih _ ?_ ?_ ?_ <;>
          simp only [max_partition_step, if_pos hs]
        · intro m hm
          rcases List.mem_append.mp hm with hm2 | hm2
          · exact h1 m hm2
          · obtain rfl := List.mem_singleton.mp hm2; exact hs
        · exact h2
        · exact h3
      · refine ih _ ?_ ?_ ?_ <;>
          simp only [max_partition_step, if_neg hs]
        · exact h1
        · exact dappend_types _ _ _ rfl h2
        · exact dappend_keys_nodup _ _ _ h3

/-- `_enforce_max_workers_per_type`'s per-group trim: terminated nodes are
marked, survivors come from the group, and the group is trimmed to its
cap. -/
theorem max_per_type_step_spec (now : Nat)
    (cfgs : List (String × NodeTypeConfig)) (k : String)
    (g : List SchedulingNode) (to_term remained : List SchedulingNode)
    (h : max_per_type_step now cfgs k g = some (to_term, remained)) :
    (∀ n ∈ to_term, n.status = SchedulingNodeStatus.TO_TERMINATE) ∧
    (∀ n ∈ remained, n ∈ g) ∧
    remained.length ≤ (match dget? cfgs k with
                       | some cfg => cfg.max_worker_nodes
                       | none => 0) := by
  simp only [max_per_type_step] at h
  by_cases hc : ((g.length : Int) -
      ((match dget? cfgs k with
        | some cfg => cfg.max_worker_nodes
        | none => 0 : Nat) : Int) ≤ 0)
  · rw [if_pos hc] at h
    simp only [Option.some.injEq, Prod.mk.injEq] at h
    obtain ⟨rfl, rfl⟩ := h.symm
    refine ⟨by simp, fun n hn => hn, ?_⟩
    omega
  · rw [if_neg hc] at h
    simp only [select_nodes_to_terminate, if_pos (Or.inr rfl),
      Option.some.injEq, Prod.mk.injEq] at h
    obtain ⟨rfl, rfl⟩ := h.symm
    refine ⟨?_, ?_, ?_⟩
    · intro n hn
      obtain ⟨m, _, rfl⟩ := List.mem_map.mp hn
      rfl
    · intro n hn
      exact (List.perm_insertionSort termination_le g).mem_iff.mp
        (List.mem_of_mem_drop hn)
    · rw [List.length_drop, List.length_insertionSort]
      omega

/-- Invariants of the trimming fold of `_enforce_max_workers_per_type`. -/
theorem max_fold_spec (now : Nat) (cfgs : List (String × NodeTypeConfig)) :
    ∀ (gs : List (String × List SchedulingNode))
      (acc out : List SchedulingNode × List (String × List SchedulingNode)),
      List.foldlM (max_fold_step now cfgs) acc gs = some out →
      (∀ n ∈ acc.1, n.status = SchedulingNodeStatus.TO_TERMINATE) →
      (∀ p ∈ gs, ∀ n ∈ p.2, n.node_type = p.1) →
      (∀ n ∈ out.1, n.status = SchedulingNodeStatus.TO_TERMINATE) ∧
      out.2.map (·.1) = acc.2.map (·.1) ++ gs.map (·.1) ∧
      (∀ p ∈ out.2, p ∈ acc.2 ∨
        ((∀ n ∈ p.2, n.node_type = p.1) ∧
          p.2.length ≤ (match dget? cfgs p.1 with
                        | some cfg => cfg.max_worker_nodes
                        | none => 0))) := by
  intro gs
  induction gs with
  | nil =>
      intro acc out h h1 _
      simp only [List.foldlM_nil, Option.pure_def, Option.some.injEq] at h
      subst h
      exact ⟨h1, by simp, fun p hp => Or.inl hp⟩
  | cons g rest ih =>
      intro acc out h h1 h2
      rw [List.foldlM_cons] at h
      cases hstep : max_fold_step now cfgs acc g with
      | none => rw [hstep] at h; exact absurd h (by simp)
      | some acc2 =>
          rw [hstep] at h
          simp only [Option.bind_eq_bind, Option.some_bind] at h
          simp only [max_fold_step] at hstep
          cases hmpt : max_per_type_step now cfgs g.1 g.2 with
          | none => rw [hmpt] at hstep; exact absurd hstep (by simp)
          | some pr =>
              obtain ⟨tt, rm⟩ := pr
              rw [hmpt] at hstep
              simp only [Option.bind_eq_bind, Option.some_bind,
                Option.pure_def, Option.some.injEq] at hstep
              subst hstep
              obtain ⟨hs1, hs2, hs3⟩ := max_per_type_step_spec _ _ _ _ _ _ hmpt
              obtain ⟨o1, o2, o3⟩ := ih _ out h
                (by
                  intro n hn
                  rcases List.mem_append.mp hn with hn2 | hn2
                  · exact h1 n hn2
                  · exact hs1 n hn2)
                (fun p hp => h2 p (List.mem_cons_of_mem g hp))
              refine ⟨o1, ?_, ?_⟩
              · rw [o2]
                simp [List.append_assoc]
              · intro p hp
                rcases o3 p hp with hin | hgood
                · rcases List.mem_append.mp hin with hin2 | hin2
                  · exact Or.inl hin2
                  · obtain rfl := List.mem_singleton.mp hin2
                    refine Or.inr ⟨?_, hs3⟩
                    intro n hn
                    exact h2 g (List.mem_cons_self g rest) n (hs2 n hn)
                · exact Or.inr hgood

theorem foldl_append_eq (gs : List (String × List SchedulingNode)) :
    ∀ init, gs.foldl (fun acc p => acc ++ p.2) init =
      init ++ gs.foldl (fun acc p => acc ++ p.2) [] := by
  induction gs with
  | nil => intro init; simp
  | cons g rest ih =>
      intro init
      rw [List.foldl_cons, List.foldl_cons, ih (init ++ g.2), ih ([] ++ g.2)]
      simp [List.append_assoc]

theorem flat_count_zero (t : String) :
    ∀ (gs : List (String × List SchedulingNode)),
      (∀ p ∈ gs, ∀ n ∈ p.2, n.node_type = p.1) →
      t ∉ gs.map (·.1) →
      List.countP (fun n => n.node_type == t)
        (gs.foldl (fun acc p => acc ++ p.2) []) = 0 := by
  intro gs
  induction gs with
  | nil => intro _ _; simp
  | cons g rest ih =>
      intro htypes hmem
      simp only [List.map_cons, List.mem_cons, not_or] at hmem
      obtain ⟨hne, hmem2⟩ := hmem
      rw [List.foldl_cons, foldl_append_eq]
      simp only [List.nil_append]
      rw [List.countP_append]
      have hg : List.countP (fun n => n.node_type == t) g.2 = 0 := by
        rw [List.countP_eq_zero]
        intro n hn
        simp only [beq_iff_eq]
        rw [htypes g (List.mem_cons_self g rest) n hn]
        exact fun hh => hne hh.symm
      rw [hg, ih (fun p hp => htypes p (List.mem_cons_of_mem g hp)) hmem2]

theorem flat_count_le (t : String) (M : Nat) :
    ∀ (gs : List (String × List SchedulingNode)),
      ((gs.map (·.1)).Nodup) →
      (∀ p ∈ gs, ∀ n ∈ p.2, n.node_type = p.1) →
      (∀ p ∈ gs, p.1 = t → p.2.length ≤ M) →
      List.countP (fun n => n.node_type == t)
        (gs.foldl (fun acc p => acc ++ p.2) []) ≤ M := by
  intro gs
  induction gs with
  | nil => intro _ _ _; simp
  | cons g rest ih =>
      intro hnd htypes hlen
      rw [List.foldl_cons, foldl_append_eq]
      simp only [List.nil_append]
      rw [List.countP_append]
      simp only [List.map_cons, List.nodup_cons] at hnd
      by_cases hgt : g.1 = t
      · have hz := flat_count_zero t rest
          (fun p hp => htypes p (List.mem_cons_of_mem g hp)) (hgt ▸ hnd.1)
        have hle : List.countP (fun n => n.node_type == t) g.2 ≤ M :=
          le_trans (List.countP_le_length _) (hlen g (List.mem_cons_self g rest) hgt)
        omega
      · have hz : List.countP (fun n => n.node_type == t) g.2 = 0 := by
          rw [List.countP_eq_zero]
          intro n hn
          simp only [beq_iff_eq]
          rw [htypes g (List.mem_cons_self g rest) n hn]
          exact hgt
        have := ih hnd.2 (fun p hp => htypes p (List.mem_cons_of_mem g hp))
          (fun p hp => hlen p (List.mem_cons_of_mem g hp))
        omega

/-- Phase 3 establishes the per-type maximum: after
`_enforce_max_workers_per_type`, every configured type has at most
`max_worker_nodes` non-terminating nodes; the context fields are the
input's with the nodes replaced. -/
theorem enforce_max_workers_per_type_bound (now : Nat) (ctx ctx2 : ScheduleContext)
    (h : enforce_max_workers_per_type now ctx = some ctx2) :
    ctx2.node_type_configs = ctx.node_type_configs ∧
    ctx2.max_num_nodes = ctx.max_num_nodes ∧
    ctx2.idle_timeout_s = ctx.idle_timeout_s ∧
    ctx2.node_type_available =
      compute_available_node_types ctx2.nodes ctx2.node_type_configs ∧
    ∀ t cfg, dget? ctx.node_type_configs t = some cfg →
      count_non_terminated ctx2.nodes t ≤ cfg.max_worker_nodes := by
  simp only [enforce_max_workers_per_type, Option.pure_def] at h
  cases hpr : ctx.nodes.foldl max_partition_step ([], []) with
  | mk term0 grouped0 =>
  rw [hpr] at h
  cases hfold : List.foldlM (max_fold_step now ctx.node_type_configs)
      (term0, []) grouped0 with
  | none =>
      simp only [hfold, Option.bind_eq_bind, Option.none_bind] at h
      exact absurd h (by simp)
  | some out =>
  obtain ⟨term1, grouped1⟩ := out
  simp only [hfold, Option.bind_eq_bind, Option.some_bind] at h
  by_cases hlen : ctx.nodes.length =
      (term1 ++ grouped1.foldl
        (fun (acc : List SchedulingNode) p => acc ++ p.2) []).length
  · rw [if_pos hlen] at h
    simp only [Option.some.injEq] at h
    obtain ⟨hp1, hp2, hp3⟩ := max_partition_spec ctx.nodes ([], [])
      (by simp) (by simp) (by simp)
    rw [hpr] at hp1 hp2 hp3
    obtain ⟨o1, o2, o3⟩ := max_fold_spec now ctx.node_type_configs grouped0
      (term0, []) (term1, grouped1) hfold hp1 hp2
    subst h
    refine ⟨rfl, rfl, rfl, rfl, ?_⟩
    intro t cfg hcfg
    show count_non_terminated
      (term1 ++ grouped1.foldl (fun acc p => acc ++ p.2) []) t ≤ _
    rw [count_non_terminated_append]
    have hterm : count_non_terminated term1 t = 0 := by
      unfold count_non_terminated
      rw [List.countP_eq_zero]
      intro n hn
      rw [o1 n hn]
      simp
    have hnd1 : ((grouped1.map (·.1)).Nodup) := by
      have : grouped1.map (·.1) = grouped0.map (·.1) := by simpa using o2
      rw [this]; exact hp3
    have hflat := flat_count_le t cfg.max_worker_nodes grouped1 hnd1
      (by
        intro p hp
        rcases o3 p hp with hin | hgood
        · exact absurd hin (by simp)
        · exact hgood.1)
      (by
        intro p hp hpt
        rcases o3 p hp with hin | hgood
        · exact absurd hin (by simp)
        · have := hgood.2
          rw [hpt, hcfg] at this
          exact this)
    have hle := count_non_terminated_le_count_of_type
      (grouped1.foldl (fun acc p => acc ++ p.2) []) t
    unfold count_of_type at hle
    omega
  · rw [if_neg hlen] at h
    exact absurd h (by simp)

/-- Phase 4 only marks nodes `TO_TERMINATE`: per-type non-terminating
counts never increase, and the context fields survive. -/
theorem enforce_max_workers_global_bound (now : Nat) (ctx ctx2 : ScheduleContext)
    (h : enforce_max_workers_global now ctx = some ctx2)
    (hcoh : ctx.node_type_available =
      compute_available_node_types ctx.nodes ctx.node_type_configs) :
    ctx2.node_type_configs = ctx.node_type_configs ∧
    ctx2.max_num_nodes = ctx.max_num_nodes ∧
    ctx2.idle_timeout_s = ctx.idle_timeout_s ∧
    ctx2.node_type_available =
      compute_available_node_types ctx2.nodes ctx2.node_type_configs ∧
    ∀ t, count_non_terminated ctx2.nodes t ≤ count_non_terminated ctx.nodes t := by
  simp only [enforce_max_workers_global, Option.pure_def] at h
  split at h
  · simp only [Option.some.injEq] at h
    subst h
    exact ⟨rfl, rfl, rfl, hcoh, fun t => le_refl _⟩
  · rw [select_nodes_to_terminate, if_pos (Or.inl rfl)] at h
    simp only [Option.bind_eq_bind, Option.some_bind] at h
    split at h
    · simp only [Option.some.injEq] at h
      subst h
      refine ⟨rfl, rfl, rfl, rfl, ?_⟩
      intro t
      simp only [ScheduleContext.update]
      rw [count_non_terminated_append, count_non_terminated_append]
      have hterm : count_non_terminated
          (ctx.nodes.filter (fun n => n.status = .TO_TERMINATE)) t = 0 := by
        unfold count_non_terminated
        rw [List.countP_eq_zero]
        intro n hn
        have := List.of_mem_filter hn
        simp only [decide_eq_true_eq] at this
        simp [this]
      have hmark : count_non_terminated
          ((((ctx.nodes.filter (fun n => ¬ n.status = .TO_TERMINATE)).insertionSort
              termination_le).take
            (match ctx.max_num_nodes with
             | some m => if m ≠ 0 then
                 (ctx.nodes.filter (fun n => ¬ n.status = .TO_TERMINATE)).length - m
               else 0
             | none => 0)).map
            (mark_to_terminate now .MAX_NUM_NODES ctx.max_num_nodes none)) t = 0 := by
        unfold count_non_terminated
        rw [List.countP_eq_zero]
        intro n hn
        obtain ⟨m, _, rfl⟩ := List.mem_map.mp hn
        simp [mark_to_terminate]
      have hdrop : count_non_terminated
          (((ctx.nodes.filter (fun n => ¬ n.status = .TO_TERMINATE)).insertionSort
              termination_le).drop
            (match ctx.max_num_nodes with
             | some m => if m ≠ 0 then
                 (ctx.nodes.filter (fun n => ¬ n.status = .TO_TERMINATE)).length - m
               else 0
             | none => 0)) t ≤ count_non_terminated ctx.nodes t := by
        unfold count_non_terminated
        refine le_trans (List.Sublist.countP_le _ (List.drop_sublist _ _)) ?_
        rw [List.Perm.countP_eq _ (List.perm_insertionSort termination_le _)]
        exact List.Sublist.countP_le _ (List.filter_sublist _)
      omega
    · exact absurd h (by simp)

/-- `_enforce_idle_termination` leaves each node alone or marks it
`TO_TERMINATE`. -/
theorem idle_step_cases (now : Nat) (s : Option Int) (n : SchedulingNode) :
    idle_step now s n = n ∨ idle_step now s n = mark_idle now n := by
  unfold idle_step
  by_cases h1 : n.status ≠ SchedulingNodeStatus.RUNNING
  · rw [if_pos h1]; exact Or.inl rfl
  · rw [if_neg h1]
    cases s with
    | none => exact Or.inl rfl
    | some tmo =>
        show (if (n.idle_duration_ms : Int) ≤ tmo * 1000 then n
              else if n.sched_constraints.length ≠ 0 then n
              else mark_idle now n) = n ∨
          (if (n.idle_duration_ms : Int) ≤ tmo * 1000 then n
           else if n.sched_constraints.length ≠ 0 then n
           else mark_idle now n) = mark_idle now n
        by_cases h2 : (n.idle_duration_ms : Int) ≤ tmo * 1000
        · rw [if_pos h2]; exact Or.inl rfl
        · rw [if_neg h2]
          by_cases h3 : n.sched_constraints.length ≠ 0
          · rw [if_pos h3]; exact Or.inl rfl
          · rw [if_neg h3]; exact Or.inr rfl

theorem countP_map_le_of_imp (f : SchedulingNode → SchedulingNode)
    (p q : SchedulingNode → Bool)
    (himp : ∀ n, p (f n) = true → q n = true) :
    ∀ l : List SchedulingNode, (l.map f).countP p ≤ l.countP q := by
  intro l
  induction l with
  | nil => simp
  | cons n rest ih =>
      rw [List.map_cons, List.countP_cons, List.countP_cons]
      by_cases hp : p (f n)
      · rw [if_pos hp, if_pos (himp n hp)]
        omega
      · rw [if_neg hp]
        split <;> omega

/-- Phase 8 only marks nodes `TO_TERMINATE`: per-type non-terminating
counts never increase, and the context fields survive. -/
theorem enforce_idle_termination_bound (now : Nat) (ctx : ScheduleContext) :
    (enforce_idle_termination now ctx).node_type_configs =
      ctx.node_type_configs ∧
    (enforce_idle_termination now ctx).max_num_nodes = ctx.max_num_nodes ∧
    ∀ t, count_non_terminated (enforce_idle_termination now ctx).nodes t ≤
      count_non_terminated ctx.nodes t := by
  refine ⟨rfl, rfl, ?_⟩
  intro t
  show count_non_terminated
    (ctx.nodes.map (idle_step now ctx.idle_timeout_s)) t ≤ _
  unfold count_non_terminated
  refine countP_map_le_of_imp _ _ _ ?_ ctx.nodes
  intro n hp
  rcases idle_step_cases now ctx.idle_timeout_s n with he | he
  · rw [he] at hp; exact hp
  · rw [he] at hp
    simp [mark_idle] at hp

/-- One scheduling pass plus `ScheduleContext.update` keeps a configured
type at or below its `max_worker_nodes`. -/
theorem try_schedule_update_bound (ctx : ScheduleContext)
    (reqs : List ResourceRequest) (c : Bool)
    (nodes2 : List SchedulingNode) (rem : List ResourceRequest)
    (hcoh : ctx.node_type_available =
      compute_available_node_types ctx.nodes ctx.node_type_configs)
    (hnodup : (ctx.node_type_configs.map (·.1)).Nodup)
    (hname : ∀ k cfg, dget? ctx.node_type_configs k = some cfg → cfg.name = k)
    (h : try_schedule_ctx ctx reqs c = some (nodes2, rem))
    (t : String) (cfg : NodeTypeConfig)
    (hcfg : dget? ctx.node_type_configs t = some cfg)
    (hle : count_non_terminated ctx.nodes t ≤ cfg.max_worker_nodes) :
    count_non_terminated nodes2 t ≤ cfg.max_worker_nodes := by
  have hb := try_schedule_ctx_count_bound ctx reqs c nodes2 rem hcoh hnodup
    hname h t cfg hcfg
  have hct := count_non_terminated_le_count_of_type ctx.nodes t
  omega

/-- Phase 5 (`_enforce_resource_constraints`) preserves the per-type
maximum invariant and the context fields. -/
theorem enforce_resource_constraints_bound (ctx ctx2 : ScheduleContext)
    (cs cs' : List ClusterResourceConstraint)
    (hcoh : ctx.node_type_available =
      compute_available_node_types ctx.nodes ctx.node_type_configs)
    (hnodup : (ctx.node_type_configs.map (·.1)).Nodup)
    (hname : ∀ k cfg, dget? ctx.node_type_configs k = some cfg → cfg.name = k)
    (h : enforce_resource_constraints ctx cs = some (ctx2, cs')) :
    ctx2.node_type_configs = ctx.node_type_configs ∧
    ctx2.max_num_nodes = ctx.max_num_nodes ∧
    ctx2.idle_timeout_s = ctx.idle_timeout_s ∧
    ctx2.node_type_available =
      compute_available_node_types ctx2.nodes ctx2.node_type_configs ∧
    ∀ t cfg, dget? ctx.node_type_configs t = some cfg →
      count_non_terminated ctx.nodes t ≤ cfg.max_worker_nodes →
      count_non_terminated ctx2.nodes t ≤ cfg.max_worker_nodes := by
  simp only [enforce_resource_constraints, Option.pure_def] at h
  split at h
  · split at h
    · simp only [Option.some.injEq, Prod.mk.injEq] at h
      obtain ⟨rfl, rfl⟩ := h.symm
      exact ⟨rfl, rfl, rfl, hcoh, fun t cfg _ hle => hle⟩
    · rename_i constraint ctail hlen
      cases hts : try_schedule_ctx ctx
          (ungroup_by_count constraint.min_bundles) true with
      | none => rw [hts] at h; exact absurd h (by simp)
      | some pr =>
          obtain ⟨nodes2, infeasible⟩ := pr
          rw [hts] at h
          simp only [Option.bind_eq_bind, Option.some_bind] at h
          split at h
          · simp only [Option.some.injEq, Prod.mk.injEq] at h
            obtain ⟨rfl, rfl⟩ := h.symm
            exact ⟨rfl, rfl, rfl, hcoh, fun t cfg _ hle => hle⟩
          · simp only [Option.some.injEq, Prod.mk.injEq] at h
            obtain ⟨rfl, rfl⟩ := h.symm
            refine ⟨rfl, rfl, rfl, rfl, ?_⟩
            intro t cfg hcfg hle
            exact try_schedule_update_bound ctx _ true nodes2 infeasible
              hcoh hnodup hname hts t cfg hcfg hle
  · exact absurd h (by simp)

/-- The gang fold of phase 6 preserves the per-type maximum invariant and
the context fields. -/
theorem gang_fold_bound (cfgs0 : List (String × NodeTypeConfig))
    (hnodup : (cfgs0.map (·.1)).Nodup)
    (hname : ∀ k cfg, dget? cfgs0 k = some cfg → cfg.name = k) :
    ∀ (gl : List GangResourceRequest)
      (st out : ScheduleContext × List GangResourceRequest),
      List.foldlM gang_step st gl = some out →
      st.1.node_type_configs = cfgs0 →
      st.1.node_type_available =
        compute_available_node_types st.1.nodes st.1.node_type_configs →
      (∀ t cfg, dget? cfgs0 t = some cfg →
        count_non_terminated st.1.nodes t ≤ cfg.max_worker_nodes) →
      out.1.node_type_configs = cfgs0 ∧
      out.1.max_num_nodes = st.1.max_num_nodes ∧
      out.1.idle_timeout_s = st.1.idle_timeout_s ∧
      out.1.node_type_available =
        compute_available_node_types out.1.nodes out.1.node_type_configs ∧
      (∀ t cfg, dget? cfgs0 t = some cfg →
        count_non_terminated out.1.nodes t ≤ cfg.max_worker_nodes) := by
  intro gl
  induction gl with
  | nil =>
      intro st out h hc hcoh hb
      simp only [List.foldlM_nil, Option.pure_def, Option.some.injEq] at h
      subst h
      exact ⟨hc, rfl, rfl, hcoh, hb⟩
  | cons g rest ih =>
      intro st out h hc hcoh hb
      rw [List.foldlM_cons] at h
      cases hstep : gang_step st g with
      | none => rw [hstep] at h; exact absurd h (by simp)
      | some st2 =>
          rw [hstep] at h
          simp only [Option.bind_eq_bind, Option.some_bind] at h
          simp only [gang_step, Option.pure_def] at hstep
          cases hts : try_schedule_ctx st.1
              (combine_requests_with_affinity g.requests) false with
          | none => rw [hts] at hstep; exact absurd hstep (by simp)
          | some pr =>
              obtain ⟨nodes2, infeasible⟩ := pr
              rw [hts] at hstep
              simp only [Option.bind_eq_bind, Option.some_bind] at hstep
              split at hstep
              · simp only [Option.some.injEq] at hstep
                subst hstep
                obtain ⟨o1, o2, o3, o4, o5⟩ := ih _ out h hc hcoh hb
                exact ⟨o1, o2, o3, o4, o5⟩
              · simp only [Option.some.injEq] at hstep
                subst hstep
                obtain ⟨o1, o2, o3, o4, o5⟩ := ih _ out h hc rfl
                  (by
                    intro t cfg hcfg
                    exact try_schedule_update_bound st.1 _ false nodes2
                      infeasible hcoh (hc ▸ hnodup) (hc ▸ hname) hts t cfg
                      (hc ▸ hcfg) (hb t cfg hcfg))
                exact ⟨o1, o2, o3, o4, o5⟩

/-- Phase 7 (`_sched_resource_requests`) preserves the per-type maximum
invariant and the context fields. -/
theorem sched_resource_requests_bound (ctx ctx2 : ScheduleContext)
    (rbc : List ResourceRequestByCount) (inf : List ResourceRequest)
    (hcoh : ctx.node_type_available =
      compute_available_node_types ctx.nodes ctx.node_type_configs)
    (hnodup : (ctx.node_type_configs.map (·.1)).Nodup)
    (hname : ∀ k cfg, dget? ctx.node_type_configs k = some cfg → cfg.name = k)
    (h : sched_resource_requests ctx rbc = some (ctx2, inf)) :
    ctx2.node_type_configs = ctx.node_type_configs ∧
    ctx2.max_num_nodes = ctx.max_num_nodes ∧
    ctx2.idle_timeout_s = ctx.idle_timeout_s ∧
    ctx2.node_type_available =
      compute_available_node_types ctx2.nodes ctx2.node_type_configs ∧
    ∀ t cfg, dget? ctx.node_type_configs t = some cfg →
      count_non_terminated ctx.nodes t ≤ cfg.max_worker_nodes →
      count_non_terminated ctx2.nodes t ≤ cfg.max_worker_nodes := by
  simp only [sched_resource_requests, Option.pure_def] at h
  cases hts : try_schedule_ctx ctx (ungroup_by_count rbc) false with
  | none => rw [hts] at h; exact absurd h (by simp)
  | some pr =>
      obtain ⟨nodes2, infeasible⟩ := pr
      rw [hts] at h
      simp only [Option.bind_eq_bind, Option.some_bind, Option.some.injEq,
        Prod.mk.injEq] at h
      obtain ⟨rfl, rfl⟩ := h.symm
      refine ⟨rfl, rfl, rfl, rfl, ?_⟩
      intro t cfg hcfg hle
      exact try_schedule_update_bound ctx _ false nodes2 infeasible hcoh
        hnodup hname hts t cfg hcfg hle

theorem map_orderedInsert {α : Type} (g : α → α) (r : α → α → Prop)
    [DecidableRel r] (hg : ∀ x y, r (g x) (g y) ↔ r x y) :
    ∀ (l : List α) (a : α),
      (l.orderedInsert r a).map g = (l.map g).orderedInsert r (g a) := by
  intro l
  induction l with
  | nil => intro a; rfl
  | cons b bs ih =>
      intro a
      simp only [List.orderedInsert, List.map_cons]
      by_cases h : r a b
      · rw [if_pos h, if_pos ((hg a b).mpr h)]
        rfl
      · rw [if_neg h, if_neg (fun hh => h ((hg a b).mp hh))]
        rw [List.map_cons, ih]

theorem map_insertionSort {α : Type} (g : α → α) (r : α → α → Prop)
    [DecidableRel r] (hg : ∀ x y, r (g x) (g y) ↔ r x y) :
    ∀ l : List α, (l.insertionSort r).map g = (l.map g).insertionSort r := by
  intro l
  induction l with
  | nil => rfl
  | cons a l ih =>
      simp only [List.insertionSort, List.map_cons]
      rw [map_orderedInsert g r hg, ih]

theorem map_eraseIdx {α β : Type} (f : α → β) :
    ∀ (l : List α) (i : Nat), (l.eraseIdx i).map f = (l.map f).eraseIdx i := by
  intro l
  induction l with
  | nil => intro i; rfl
  | cons a l ih =>
      intro i
      cases i with
      | zero => rfl
      | succ j =>
          simp only [List.eraseIdx, List.map_cons]
          rw [ih]

theorem best_results_erase (requests : List ResourceRequest) (c : Bool) :
    ∀ (ns : List SchedulingNode) (idx : Nat),
      best_results requests c idx (ns.map erase_clock_node) =
        (best_results requests c idx ns).map
          (List.map (fun sr =>
            { sr with node := erase_clock_node sr.node })) := by
  intro ns
  induction ns with
  | nil => intro idx; rfl
  | cons n rest ih =>
      intro idx
      rw [List.map_cons]
      simp only [best_results]
      rw [try_schedule_erase]
      cases hts : n.try_schedule requests c with
      | none => rfl
      | some t =>
          obtain ⟨n2, rem, score⟩ := t
          simp only [Option.map_some', Option.bind_eq_bind, Option.some_bind]
          rw [ih (idx + 1)]
          cases hbr : best_results requests c (idx + 1) rest with
          | none => rfl
          | some rs =>
              simp only [Option.map_some', Option.some_bind]
              by_cases hlen : rem.length = requests.length
              · rw [if_pos hlen, if_pos hlen]
                rfl
              · rw [if_neg hlen, if_neg hlen]
                simp

theorem sched_best_node_erase (requests : List ResourceRequest)
    (ns : List SchedulingNode) (c : Bool) :
    sched_best_node requests (ns.map erase_clock_node) c =
      (sched_best_node requests ns c).map
        (fun pr => (pr.1.map (fun q => (erase_clock_node q.1, q.2)),
                    pr.2.map erase_clock_node)) := by
  unfold sched_best_node
  rw [best_results_erase]
  cases hbr : best_results requests c 0 ns with
  | none => rfl
  | some rs =>
      simp only [Option.map_some', Option.bind_eq_bind, Option.some_bind]
      cases rs with
      | nil => rfl
      | cons r0 rs2 =>
          simp only [List.map_cons]
          have hsort := map_insertionSort
            (fun sr => { sr with node := erase_clock_node sr.node })
            result_order (fun x y => Iff.rfl) (r0 :: rs2)
          rw [List.map_cons] at hsort
          rw [← hsort]
          cases hs : (r0 :: rs2).insertionSort result_order with
          | nil => rfl
          | cons best rest =>
              simp only [List.map_cons]
              rw [← map_eraseIdx]
              rfl

theorem sched_existing_erase (c : Bool) :
    ∀ (fuel : Nat) (reqs : List ResourceRequest)
      (ex tg ex2 tg2 : List SchedulingNode),
      ex2 = ex.map erase_clock_node → tg2 = tg.map erase_clock_node →
      sched_existing c fuel reqs ex2 tg2 =
        (sched_existing c fuel reqs ex tg).map
          (fun t => (t.1, t.2.1.map erase_clock_node,
                     t.2.2.map erase_clock_node)) := by
  intro fuel
  induction fuel with
  | zero =>
      intro reqs ex tg ex2 tg2 hx ht
      subst hx; subst ht
      rfl
  | succ fuel ih =>
      intro reqs ex tg ex2 tg2 hx ht
      subst hx; subst ht
      simp only [sched_existing, List.length_map]
      by_cases hc1 : (reqs.length = 0 ∨ ex.length = 0)
      · rw [if_pos hc1, if_pos hc1]
        rfl
      · rw [if_neg hc1, if_neg hc1]
        rw [sched_best_node_erase]
        cases hbn : sched_best_node reqs ex c with
        | none => rfl
        | some pr =>
            obtain ⟨ob, ns⟩ := pr
            cases ob with
            | none => rfl
            | some br =>
                obtain ⟨bn, rem⟩ := br
                simp only [Option.map_some', List.map_cons]
                rw [ih rem ns (tg ++ [bn]) _ _ rfl (by rw [List.map_append]; rfl)]

theorem erase_from_node_config (cfg : NodeTypeConfig)
    (s : SchedulingNodeStatus) :
    erase_clock_node (SchedulingNode.from_node_config cfg s) =
      SchedulingNode.from_node_config cfg s := rfl

theorem sched_new_erase (cfgs : List (String × NodeTypeConfig))
    (mx : Option Nat) (c : Bool) :
    ∀ (fuel : Nat) (reqs : List ResourceRequest)
      (pool tgt pool2 tgt2 : List SchedulingNode) (avail : List (String × Int)),
      pool2 = pool.map erase_clock_node → tgt2 = tgt.map erase_clock_node →
      sched_new cfgs mx c fuel reqs pool2 tgt2 avail =
        (sched_new cfgs mx c fuel reqs pool tgt avail).map
          (fun t => (t.1, t.2.map erase_clock_node)) := by
  intro fuel
  induction fuel with
  | zero =>
      intro reqs pool tgt pool2 tgt2 avail hp ht
      subst hp; subst ht
      rfl
  | succ fuel ih =>
      intro reqs pool tgt pool2 tgt2 avail hp ht
      subst hp; subst ht
      simp only [sched_new, List.length_map]
      by_cases hc1 : (reqs.length = 0 ∨ pool.length = 0)
      · rw [if_pos hc1, if_pos hc1]
        rfl
      · rw [if_neg hc1, if_neg hc1]
        by_cases hc2 : sched_new_guard mx tgt.length = true
        · rw [if_pos hc2, if_pos hc2]
          rfl
        · rw [if_neg hc2, if_neg hc2]
          rw [sched_best_node_erase]
          cases hbn : sched_best_node reqs pool c with
          | none => rfl
          | some pr =>
              obtain ⟨ob, ns⟩ := pr
              cases ob with
              | none => rfl
              | some br =>
                  obtain ⟨bn, rem⟩ := br
                  simp only [Option.map_some', erase_node_type]
                  by_cases href :
                      0 < dgetD (dincr avail bn.node_type (-1) 0) bn.node_type 0
                  · rw [if_pos href, if_pos href]
                    cases hcfg : dget? cfgs bn.node_type with
                    | none => rfl
                    | some cfg =>
                        simp only []
                        rw [ih rem
                            (ns ++
                              [SchedulingNode.from_node_config cfg .TO_LAUNCH])
                            (tgt ++ [bn])
                            (ns.map erase_clock_node ++
                              [SchedulingNode.from_node_config cfg .TO_LAUNCH])
                            (tgt.map erase_clock_node ++ [erase_clock_node bn])
                            (dincr avail bn.node_type (-1) 0)
                            (by rw [List.map_append]
                                simp [erase_from_node_config])
                            (by rw [List.map_append]; rfl)]
                  · rw [if_neg href, if_neg href]
                    rw [ih rem ns (tgt ++ [bn]) (ns.map erase_clock_node)
                        (tgt.map erase_clock_node ++ [erase_clock_node bn])
                        (dincr avail bn.node_type (-1) 0) rfl
                        (by rw [List.map_append]; rfl)]

theorem erase_ctx_nodes (ctx : ScheduleContext) :
    (erase_clock_ctx ctx).nodes = ctx.nodes.map erase_clock_node := rfl

theorem erase_ctx_cfgs (ctx : ScheduleContext) :
    (erase_clock_ctx ctx).node_type_configs = ctx.node_type_configs := rfl

theorem erase_ctx_avail (ctx : ScheduleContext) :
    (erase_clock_ctx ctx).node_type_available = ctx.node_type_available := rfl

theorem erase_ctx_max (ctx : ScheduleContext) :
    (erase_clock_ctx ctx).max_num_nodes = ctx.max_num_nodes := rfl

theorem erase_ctx_idle (ctx : ScheduleContext) :
    (erase_clock_ctx ctx).idle_timeout_s = ctx.idle_timeout_s := rfl

theorem node_pools_erase (cfgs : List (String × NodeTypeConfig)) :
    ∀ (l : List (String × Int)) (pool : List SchedulingNode),
      l.mapM (fun p => (dget? cfgs p.1).map
        (fun cfg => SchedulingNode.from_node_config cfg .TO_LAUNCH)) = some pool →
      pool.map erase_clock_node = pool := by
  intro l
  induction l with
  | nil =>
      intro pool h
      simp only [List.mapM_nil, Option.pure_def, Option.some.injEq] at h
      subst h
      rfl
  | cons p rest ih =>
      intro pool h
      rw [List.mapM_cons] at h
      cases hf : dget? cfgs p.1 with
      | none => rw [hf] at h; exact absurd h (by simp)
      | some cfg =>
          rw [hf] at h
          cases hrest : rest.mapM (fun p => (dget? cfgs p.1).map
              (fun cfg => SchedulingNode.from_node_config cfg .TO_LAUNCH)) with
          | none =>
              simp only [hrest, Option.map_some', Option.bind_eq_bind,
                Option.some_bind, Option.none_bind] at h
              exact absurd h (by simp)
          | some ys =>
              simp only [hrest, Option.map_some', Option.bind_eq_bind,
                Option.some_bind, Option.pure_def, Option.some.injEq] at h
              subst h
              rw [List.map_cons, erase_from_node_config, ih ys hrest]

/-- `_try_schedule` commutes with clock-field erasure of the context. -/
theorem try_schedule_ctx_erase (ctx : ScheduleContext)
    (reqs : List ResourceRequest) (c : Bool) :
    try_schedule_ctx (erase_clock_ctx ctx) reqs c =
      (try_schedule_ctx ctx reqs c).map
        (fun pr => (pr.1.map erase_clock_node, pr.2)) := by
  unfold try_schedule_ctx
  simp only [erase_ctx_nodes, erase_ctx_cfgs, erase_ctx_avail, erase_ctx_max]
  rw [sched_existing_erase c (reqs.insertionSort request_order).length
      (reqs.insertionSort request_order) ctx.nodes []
      (ctx.nodes.map erase_clock_node) ([]) rfl rfl]
  cases hse : sched_existing c (reqs.insertionSort request_order).length
      (reqs.insertionSort request_order) ctx.nodes [] with
  | none => rfl
  | some st =>
      obtain ⟨reqs1, ex2, tgt1⟩ := st
      simp only [Option.map_some', Option.bind_eq_bind, Option.some_bind]
      cases hpool : (ctx.node_type_available.filter (fun p => 0 < p.2)).mapM
          (fun p => (dget? ctx.node_type_configs p.1).map
            (fun cfg => SchedulingNode.from_node_config cfg .TO_LAUNCH)) with
      | none => rfl
      | some node_pools =>
          simp only [Option.some_bind]
          rw [sched_new_erase ctx.node_type_configs ctx.max_num_nodes c
              reqs1.length reqs1 node_pools (tgt1 ++ ex2) node_pools
              (tgt1.map erase_clock_node ++ ex2.map erase_clock_node)
              ctx.node_type_available
              (node_pools_erase _ _ _ hpool).symm
              (by rw [List.map_append])]
          cases hsn : sched_new ctx.node_type_configs ctx.max_num_nodes c
              reqs1.length reqs1 node_pools (tgt1 ++ ex2)
              ctx.node_type_available with
          | none => rfl
          | some t => simp

theorem erase_idem (n : SchedulingNode) :
    erase_clock_node (erase_clock_node n) = erase_clock_node n := by
  unfold erase_clock_node
  cases h : n.termination_request with
  | none => rfl
  | some tr => rfl

theorem map_erase_idem (l : List SchedulingNode) :
    (l.map erase_clock_node).map erase_clock_node = l.map erase_clock_node := by
  rw [List.map_map]
  exact List.map_congr_left (fun a _ => erase_idem a)

theorem en_status_eq {a b : SchedulingNode}
    (h : erase_clock_node a = erase_clock_node b) : a.status = b.status := by
  have h2 := congrArg SchedulingNode.status h
  exact h2

theorem en_type_eq {a b : SchedulingNode}
    (h : erase_clock_node a = erase_clock_node b) : a.node_type = b.node_type := by
  have h2 := congrArg SchedulingNode.node_type h
  exact h2

theorem en_idle_eq {a b : SchedulingNode}
    (h : erase_clock_node a = erase_clock_node b) :
    a.idle_duration_ms = b.idle_duration_ms := by
  have h2 := congrArg SchedulingNode.idle_duration_ms h
  exact h2

theorem en_total_eq {a b : SchedulingNode}
    (h : erase_clock_node a = erase_clock_node b) :
    a.total_resources = b.total_resources := by
  have h2 := congrArg SchedulingNode.total_resources h
  exact h2

theorem en_avail_eq {a b : SchedulingNode}
    (h : erase_clock_node a = erase_clock_node b) :
    a.available_resources = b.available_resources := by
  have h2 := congrArg SchedulingNode.available_resources h
  exact h2

theorem en_tr_eq {a b : SchedulingNode}
    (h : erase_clock_node a = erase_clock_node b) :
    a.termination_request.map erase_clock_tr =
      b.termination_request.map erase_clock_tr := by
  have h2 := congrArg SchedulingNode.termination_request h
  exact h2

theorem rel_cfgs {a b : ScheduleContext}
    (h : erase_clock_ctx a = erase_clock_ctx b) :
    a.node_type_configs = b.node_type_configs := by
  have h2 := congrArg ScheduleContext.node_type_configs h
  exact h2

theorem rel_max {a b : ScheduleContext}
    (h : erase_clock_ctx a = erase_clock_ctx b) :
    a.max_num_nodes = b.max_num_nodes := by
  have h2 := congrArg ScheduleContext.max_num_nodes h
  exact h2

theorem rel_idle {a b : ScheduleContext}
    (h : erase_clock_ctx a = erase_clock_ctx b) :
    a.idle_timeout_s = b.idle_timeout_s := by
  have h2 := congrArg ScheduleContext.idle_timeout_s h
  exact h2

theorem rel_avail {a b : ScheduleContext}
    (h : erase_clock_ctx a = erase_clock_ctx b) :
    a.node_type_available = b.node_type_available := by
  have h2 := congrArg ScheduleContext.node_type_available h
  exact h2

theorem rel_nodes {a b : ScheduleContext}
    (h : erase_clock_ctx a = erase_clock_ctx b) :
    a.nodes.map erase_clock_node = b.nodes.map erase_clock_node := by
  have h2 := congrArg ScheduleContext.nodes h
  exact h2

theorem map_rel_congr (f g : SchedulingNode → SchedulingNode)
    (hfg : ∀ a b, erase_clock_node a = erase_clock_node b →
      erase_clock_node (f a) = erase_clock_node (g b)) :
    ∀ (l1 l2 : List SchedulingNode),
      l1.map erase_clock_node = l2.map erase_clock_node →
      (l1.map f).map erase_clock_node = (l2.map g).map erase_clock_node := by
  intro l1
  induction l1 with
  | nil =>
      intro l2 h
      cases l2 with
      | nil => rfl
      | cons b l2 => simp at h
  | cons a l1 ih =>
      intro l2 h
      cases l2 with
      | nil => simp at h
      | cons b l2 =>
          simp only [List.map_cons, List.cons.injEq] at h ⊢
          exact ⟨hfg a b h.1, ih l2 h.2⟩

theorem foldl_rel_congr {β : Type} (f : β → SchedulingNode → β)
    (hf : ∀ d a b, erase_clock_node a = erase_clock_node b → f d a = f d b) :
    ∀ (l1 l2 : List SchedulingNode) (init : β),
      l1.map erase_clock_node = l2.map erase_clock_node →
      l1.foldl f init = l2.foldl f init := by
  intro l1
  induction l1 with
  | nil =>
      intro l2 init h
      cases l2 with
      | nil => rfl
      | cons b l2 => simp at h
  | cons a l1 ih =>
      intro l2 init h
      cases l2 with
      | nil => simp at h
      | cons b l2 =>
          simp only [List.map_cons, List.cons.injEq] at h
          rw [List.foldl_cons, List.foldl_cons, hf init a b h.1]
          exact ih l2 _ h.2

theorem compute_available_erase (ns : List SchedulingNode)
    (cfgs : List (String × NodeTypeConfig)) :
    compute_available_node_types (ns.map erase_clock_node) cfgs =
      compute_available_node_types ns cfgs := by
  unfold compute_available_node_types
  rw [List.foldl_map]
  rfl

theorem update_rel {ctx1 ctx2 : ScheduleContext}
    (hR : erase_clock_ctx ctx1 = erase_clock_ctx ctx2)
    (ns1 ns2 : List SchedulingNode)
    (hns : ns1.map erase_clock_node = ns2.map erase_clock_node) :
    erase_clock_ctx (ctx1.update ns1) = erase_clock_ctx (ctx2.update ns2) := by
  simp only [erase_clock_ctx, ScheduleContext.update]
  rw [rel_cfgs hR, rel_max hR, rel_idle hR, hns, ← compute_available_erase ns1,
    hns, compute_available_erase]

theorem outdated_erase (cfgs : List (String × NodeTypeConfig))
    (n : SchedulingNode) :
    outdated cfgs (erase_clock_node n) = outdated cfgs n := rfl

theorem mark_outdated_erase (now : Nat) (n : SchedulingNode) :
    erase_clock_node (mark_outdated now n) =
      erase_clock_node (mark_outdated 0 (erase_clock_node n)) := rfl

theorem outdated_step_erase (now : Nat) (cfgs : List (String × NodeTypeConfig))
    (n : SchedulingNode) :
    erase_clock_node (outdated_step now cfgs n) =
      erase_clock_node (outdated_step 0 cfgs (erase_clock_node n)) := by
  unfold outdated_step
  have hcond : ((erase_clock_node n).status = SchedulingNodeStatus.RUNNING ∧
      outdated cfgs (erase_clock_node n) = true) ↔
      (n.status = SchedulingNodeStatus.RUNNING ∧ outdated cfgs n = true) :=
    Iff.rfl
  by_cases h : (n.status = SchedulingNodeStatus.RUNNING ∧
      outdated cfgs n = true)
  · rw [if_pos h, if_pos (hcond.mpr h)]
    exact mark_outdated_erase now n
  · rw [if_neg h, if_neg (fun hh => h (hcond.mp hh))]
    exact (erase_idem n).symm

theorem mark_idle_erase (now : Nat) (n : SchedulingNode) :
    erase_clock_node (mark_idle now n) =
      erase_clock_node (mark_idle 0 (erase_clock_node n)) := rfl

theorem idle_step_erase (now : Nat) (s : Option Int) (n : SchedulingNode) :
    erase_clock_node (idle_step now s n) =
      erase_clock_node (idle_step 0 s (erase_clock_node n)) := by
  unfold idle_step
  by_cases h1 : n.status ≠ SchedulingNodeStatus.RUNNING
  · rw [if_pos h1, if_pos (show (erase_clock_node n).status ≠
        SchedulingNodeStatus.RUNNING from h1)]
    exact (erase_idem n).symm
  · rw [if_neg h1, if_neg (show ¬ (erase_clock_node n).status ≠
        SchedulingNodeStatus.RUNNING from h1)]
    cases s with
    | none => exact (erase_idem n).symm
    | some tmo =>
        show erase_clock_node
            (if (n.idle_duration_ms : Int) ≤ tmo * 1000 then n
             else if n.sched_constraints.length ≠ 0 then n
             else mark_idle now n) =
          erase_clock_node
            (if ((erase_clock_node n).idle_duration_ms : Int) ≤ tmo * 1000 then
               erase_clock_node n
             else if (erase_clock_node n).sched_constraints.length ≠ 0 then
               erase_clock_node n
             else mark_idle 0 (erase_clock_node n))
        by_cases h2 : (n.idle_duration_ms : Int) ≤ tmo * 1000
        · rw [if_pos h2, if_pos (show ((erase_clock_node n).idle_duration_ms :
              Int) ≤ tmo * 1000 from h2)]
          exact (erase_idem n).symm
        · rw [if_neg h2, if_neg (show ¬ ((erase_clock_node n).idle_duration_ms :
              Int) ≤ tmo * 1000 from h2)]
          by_cases h3 : n.sched_constraints.length ≠ 0
          · rw [if_pos h3, if_pos (show
                (erase_clock_node n).sched_constraints.length ≠ 0 from h3)]
            exact (erase_idem n).symm
          · rw [if_neg h3, if_neg (show
                ¬ (erase_clock_node n).sched_constraints.length ≠ 0 from h3)]
            exact mark_idle_erase now n

/-- Phase 1 is clock-blind up to the erased ids. -/
theorem terminate_outdated_rel (now1 now2 : Nat) {ctx1 ctx2 : ScheduleContext}
    (hR : erase_clock_ctx ctx1 = erase_clock_ctx ctx2) :
    erase_clock_ctx (terminate_outdated_nodes now1 ctx1) =
      erase_clock_ctx (terminate_outdated_nodes now2 ctx2) := by
  unfold terminate_outdated_nodes
  apply update_rel hR
  rw [rel_cfgs hR]
  exact map_rel_congr _ _
    (fun a b hab => by
      rw [outdated_step_erase now1, outdated_step_erase now2, hab])
    _ _ (rel_nodes hR)

/-- Phase 8 is clock-blind up to the erased ids. -/
theorem enforce_idle_rel (now1 now2 : Nat) {ctx1 ctx2 : ScheduleContext}
    (hR : erase_clock_ctx ctx1 = erase_clock_ctx ctx2) :
    erase_clock_ctx (enforce_idle_termination now1 ctx1) =
      erase_clock_ctx (enforce_idle_termination now2 ctx2) := by
  unfold enforce_idle_termination
  apply update_rel hR
  rw [rel_idle hR]
  exact map_rel_congr _ _
    (fun a b hab => by
      rw [idle_step_erase now1, idle_step_erase now2, hab])
    _ _ (rel_nodes hR)

/-- Phase 2 is clock-blind up to the erased ids. -/
theorem enforce_min_workers_rel {ctx1 ctx2 : ScheduleContext}
    (hR : erase_clock_ctx ctx1 = erase_clock_ctx ctx2) :
    erase_clock_ctx (enforce_min_workers_per_type ctx1) =
      erase_clock_ctx (enforce_min_workers_per_type ctx2) := by
  unfold enforce_min_workers_per_type
  have hshape : ctx1.get_cluster_shape = ctx2.get_cluster_shape := by
    unfold ScheduleContext.get_cluster_shape
    exact foldl_rel_congr _
      (fun d a b hab => by rw [en_status_eq hab, en_type_eq hab])
      _ _ [] (rel_nodes hR)
  apply update_rel hR
  rw [hshape, rel_cfgs hR, List.map_append, List.map_append, rel_nodes hR]

theorem map_map_rel {α β γ : Type} (e : α → β) (F G : α → γ)
    (hFG : ∀ a b, e a = e b → F a = G b) :
    ∀ l1 l2 : List α, l1.map e = l2.map e → l1.map F = l2.map G := by
  intro l1
  induction l1 with
  | nil =>
      intro l2 h
      cases l2 with
      | nil => rfl
      | cons b l2 => simp at h
  | cons a l1 ih =>
      intro l2 h
      cases l2 with
      | nil => simp at h
      | cons b l2 =>
          simp only [List.map_cons, List.cons.injEq] at h ⊢
          exact ⟨hFG a b h.1, ih l2 h.2⟩

theorem filter_rel_congr (p : SchedulingNode → Bool)
    (hp : ∀ a b, erase_clock_node a = erase_clock_node b → p a = p b) :
    ∀ l1 l2 : List SchedulingNode,
      l1.map erase_clock_node = l2.map erase_clock_node →
      (l1.filter p).map erase_clock_node = (l2.filter p).map erase_clock_node := by
  intro l1
  induction l1 with
  | nil =>
      intro l2 h
      cases l2 with
      | nil => rfl
      | cons b l2 => simp at h
  | cons a l1 ih =>
      intro l2 h
      cases l2 with
      | nil => simp at h
      | cons b l2 =>
          simp only [List.map_cons, List.cons.injEq] at h
          rw [List.filter_cons, List.filter_cons, hp a b h.1]
          by_cases hb : p b
          · rw [if_pos hb, if_pos hb]
            simp only [List.map_cons, List.cons.injEq]
            exact ⟨h.1, ih l2 h.2⟩
          · rw [if_neg hb, if_neg hb]
            exact ih l2 h.2

theorem mark_to_terminate_erase (now : Nat) (cause : TerminationCause)
    (m1 m2 : Option Nat) (n : SchedulingNode) :
    erase_clock_node (mark_to_terminate now cause m1 m2 n) =
      erase_clock_node (mark_to_terminate 0 cause m1 m2 (erase_clock_node n)) :=
  rfl

theorem termination_le_erase (a b : SchedulingNode) :
    termination_le (erase_clock_node a) (erase_clock_node b) ↔
      termination_le a b := Iff.rfl

/-- `_select_nodes_to_terminate` is clock-blind up to the erased ids. -/
theorem select_rel (now1 now2 : Nat) (nodes1 nodes2 : List SchedulingNode)
    (K : Nat) (cause : TerminationCause) (m1 m2 : Option Nat)
    (h : nodes1.map erase_clock_node = nodes2.map erase_clock_node) :
    (select_nodes_to_terminate now1 nodes1 K cause m1 m2).map
        (fun pr => (pr.1.map erase_clock_node, pr.2.map erase_clock_node)) =
      (select_nodes_to_terminate now2 nodes2 K cause m1 m2).map
        (fun pr => (pr.1.map erase_clock_node, pr.2.map erase_clock_node)) := by
  unfold select_nodes_to_terminate
  by_cases hc : (cause = TerminationCause.MAX_NUM_NODES ∨
      cause = TerminationCause.MAX_NUM_NODE_PER_TYPE)
  · rw [if_pos hc, if_pos hc]
    have hsorted : (nodes1.insertionSort termination_le).map erase_clock_node =
        (nodes2.insertionSort termination_le).map erase_clock_node := by
      rw [map_insertionSort erase_clock_node termination_le termination_le_erase,
        map_insertionSort erase_clock_node termination_le termination_le_erase,
        h]
    have htake : ((nodes1.insertionSort termination_le).take K).map
        erase_clock_node =
        ((nodes2.insertionSort termination_le).take K).map erase_clock_node := by
      rw [List.map_take, List.map_take, hsorted]
    have hdrop : ((nodes1.insertionSort termination_le).drop K).map
        erase_clock_node =
        ((nodes2.insertionSort termination_le).drop K).map erase_clock_node := by
      rw [List.map_drop, List.map_drop, hsorted]
    have hmark : (((nodes1.insertionSort termination_le).take K).map
        (mark_to_terminate now1 cause m1 m2)).map erase_clock_node =
        (((nodes2.insertionSort termination_le).take K).map
          (mark_to_terminate now2 cause m1 m2)).map erase_clock_node := by
      rw [List.map_map, List.map_map]
      exact map_map_rel erase_clock_node _ _
        (fun a b hab => by
          show erase_clock_node (mark_to_terminate now1 cause m1 m2 a) =
            erase_clock_node (mark_to_terminate now2 cause m1 m2 b)
          rw [mark_to_terminate_erase now1, mark_to_terminate_erase now2, hab])
        _ _ htake
    simp only [Option.map_some']
    rw [hmark, hdrop]
  · rw [if_neg hc, if_neg hc]

/-- Phase 4 is clock-blind up to the erased ids. -/
theorem enforce_max_global_rel (now1 now2 : Nat) {ctx1 ctx2 : ScheduleContext}
    (hR : erase_clock_ctx ctx1 = erase_clock_ctx ctx2) :
    (enforce_max_workers_global now1 ctx1).map erase_clock_ctx =
      (enforce_max_workers_global now2 ctx2).map erase_clock_ctx := by
  simp only [enforce_max_workers_global, Option.pure_def]
  have hterm := filter_rel_congr
    (fun n => n.status = SchedulingNodeStatus.TO_TERMINATE)
    (fun a b hab => by simp only [en_status_eq hab]) _ _ (rel_nodes hR)
  have hnont := filter_rel_congr
    (fun n => ¬ n.status = SchedulingNodeStatus.TO_TERMINATE)
    (fun a b hab => by simp only [en_status_eq hab]) _ _ (rel_nodes hR)
  have hlen_all : ctx1.nodes.length = ctx2.nodes.length := by
    have h2 := congrArg List.length (rel_nodes hR)
    simpa using h2
  have hlen_nont : (ctx1.nodes.filter
      (fun n => ¬ n.status = SchedulingNodeStatus.TO_TERMINATE)).length =
      (ctx2.nodes.filter
        (fun n => ¬ n.status = SchedulingNodeStatus.TO_TERMINATE)).length := by
    have h2 := congrArg List.length hnont
    simpa using h2
  rw [rel_max hR, hlen_nont]
  split
  · simp only [Option.pure_def, Option.map_some']
    rw [hR]
  · have hsel := select_rel now1 now2 _ _
      (match ctx2.max_num_nodes with
       | some m => if m ≠ 0 then
           (ctx2.nodes.filter
             (fun n => ¬ n.status = SchedulingNodeStatus.TO_TERMINATE)).length - m
         else 0
       | none => 0)
      TerminationCause.MAX_NUM_NODES ctx2.max_num_nodes none hnont
    cases hs1 : select_nodes_to_terminate now1
        (ctx1.nodes.filter
          (fun n => ¬ n.status = SchedulingNodeStatus.TO_TERMINATE))
        (match ctx2.max_num_nodes with
         | some m => if m ≠ 0 then
             (ctx2.nodes.filter
               (fun n => ¬ n.status = SchedulingNodeStatus.TO_TERMINATE)).length
               - m
           else 0
         | none => 0)
        TerminationCause.MAX_NUM_NODES ctx2.max_num_nodes none with
    | none =>
        rw [hs1] at hsel
        cases hs2 : select_nodes_to_terminate now2
            (ctx2.nodes.filter
              (fun n => ¬ n.status = SchedulingNodeStatus.TO_TERMINATE))
            (match ctx2.max_num_nodes with
             | some m => if m ≠ 0 then
                 (ctx2.nodes.filter
                   (fun n => ¬ n.status =
                     SchedulingNodeStatus.TO_TERMINATE)).length - m
               else 0
             | none => 0)
            TerminationCause.MAX_NUM_NODES ctx2.max_num_nodes none with
        | none => rfl
        | some pr2 => rw [hs2] at hsel; exact absurd hsel (by simp)
    | some pr1 =>
        rw [hs1] at hsel
        cases hs2 : select_nodes_to_terminate now2
            (ctx2.nodes.filter
              (fun n => ¬ n.status = SchedulingNodeStatus.TO_TERMINATE))
            (match ctx2.max_num_nodes with
             | some m => if m ≠ 0 then
                 (ctx2.nodes.filter
                   (fun n => ¬ n.status =
                     SchedulingNodeStatus.TO_TERMINATE)).length - m
               else 0
             | none => 0)
            TerminationCause.MAX_NUM_NODES ctx2.max_num_nodes none with
        | none => rw [hs2] at hsel; exact absurd hsel (by simp)
        | some pr2 =>
            obtain ⟨pr1a, pr1b⟩ := pr1
            obtain ⟨pr2a, pr2b⟩ := pr2
            rw [hs2] at hsel
            simp only [Option.map_some', Option.some.injEq] at hsel
            have hsa : pr1a.map erase_clock_node =
                pr2a.map erase_clock_node := by
              have h3 := congrArg Prod.fst hsel
              exact h3
            have hsb : pr1b.map erase_clock_node =
                pr2b.map erase_clock_node := by
              have h3 := congrArg Prod.snd hsel
              exact h3
            simp only [Option.bind_eq_bind, Option.some_bind]
            have hlen_pick : (ctx1.nodes.filter
                (fun n => n.status = SchedulingNodeStatus.TO_TERMINATE) ++
                  pr1a ++ pr1b).length =
                (ctx2.nodes.filter
                  (fun n => n.status = SchedulingNodeStatus.TO_TERMINATE) ++
                    pr2a ++ pr2b).length := by
              simp only [List.length_append]
              rw [← List.length_map _ erase_clock_node, hterm, List.length_map,
                ← List.length_map pr1a erase_clock_node, hsa, List.length_map,
                ← List.length_map pr1b erase_clock_node, hsb, List.length_map]
            by_cases hl1 : ctx1.nodes.length =
                (ctx1.nodes.filter
                  (fun n => n.status = SchedulingNodeStatus.TO_TERMINATE) ++
                    pr1a ++ pr1b).length
            · rw [if_pos hl1, if_pos (by rw [← hlen_all, ← hlen_pick]; exact hl1)]
              simp only [Option.pure_def, Option.map_some']
              refine congrArg some ?_
              apply update_rel hR
              simp only [List.map_append]
              rw [hterm, hsa, hsb]
            · rw [if_neg hl1,
                if_neg (by rw [← hlen_all, ← hlen_pick]; exact hl1)]

theorem dcontains_keys {α : Type} (d : List (String × α)) (k : String) :
    dcontains d k = (d.map (·.1)).any (fun s => s == k) := by
  unfold dcontains
  induction d with
  | nil => rfl
  | cons p rest ih => simp [List.any_cons, ih]

theorem dappend_rel (d1 d2 : List (String × List SchedulingNode)) (k : String)
    (v1 v2 : SchedulingNode)
    (hd : d1.map (fun p => (p.1, p.2.map erase_clock_node)) =
          d2.map (fun p => (p.1, p.2.map erase_clock_node)))
    (hv : erase_clock_node v1 = erase_clock_node v2) :
    (dappend d1 k v1).map (fun p => (p.1, p.2.map erase_clock_node)) =
      (dappend d2 k v2).map (fun p => (p.1, p.2.map erase_clock_node)) := by
  have hkeys : d1.map (·.1) = d2.map (·.1) := by
    have h2 := congrArg
      (List.map (fun q : String × List SchedulingNode => q.1)) hd
    rw [List.map_map, List.map_map] at h2
    exact h2
  have hcont : dcontains d1 k = dcontains d2 k := by
    rw [dcontains_keys, dcontains_keys, hkeys]
  by_cases hc : dcontains d1 k
  · unfold dappend
    rw [if_pos hc, if_pos (hcont ▸ hc), List.map_map, List.map_map]
    refine map_map_rel
      (fun p : String × List SchedulingNode =>
        (p.1, p.2.map erase_clock_node)) _ _ ?_ _ _ hd
    intro p q hpq
    have h1 : p.1 = q.1 := by
      have h3 := congrArg Prod.fst hpq
      exact h3
    have h2 : p.2.map erase_clock_node = q.2.map erase_clock_node := by
      have h3 := congrArg Prod.snd hpq
      exact h3
    simp only [Function.comp_apply]
    by_cases hpk : (p.1 == k)
    · rw [if_pos hpk, if_pos (h1 ▸ hpk)]
      simp only [List.map_append]
      rw [h1, h2]
      simp [hv]
    · rw [if_neg hpk, if_neg (fun hh => hpk (h1 ▸ hh))]
      exact hpq
  · unfold dappend
    rw [if_neg hc, if_neg (fun hh => hc (by rw [hcont]; exact hh)),
      List.map_append, List.map_append, hd]
    simp [hv]

theorem max_partition_fold_rel :
    ∀ (l1 l2 : List SchedulingNode)
      (acc1 acc2 : List SchedulingNode × List (String × List SchedulingNode)),
      l1.map erase_clock_node = l2.map erase_clock_node →
      acc1.1.map erase_clock_node = acc2.1.map erase_clock_node →
      acc1.2.map (fun p => (p.1, p.2.map erase_clock_node)) =
        acc2.2.map (fun p => (p.1, p.2.map erase_clock_node)) →
      (l1.foldl max_partition_step acc1).1.map erase_clock_node =
        (l2.foldl max_partition_step acc2).1.map erase_clock_node ∧
      (l1.foldl max_partition_step acc1).2.map
          (fun p => (p.1, p.2.map erase_clock_node)) =
        (l2.foldl max_partition_step acc2).2.map
          (fun p => (p.1, p.2.map erase_clock_node)) := by
  intro l1
  induction l1 with
  | nil =>
      intro l2 acc1 acc2 h h1 h2
      cases l2 with
      | nil => exact ⟨h1, h2⟩
      | cons b l2 => simp at h
  | cons a l1 ih =>
      intro l2 acc1 acc2 h h1 h2
      cases l2 with
      | nil => simp at h
      | cons b l2 =>
          simp only [List.map_cons, List.cons.injEq] at h
          rw [List.foldl_cons, List.foldl_cons]
          refine ih _ _ _ h.2 ?_ ?_ <;>
            unfold max_partition_step <;>
            rw [en_status_eq h.1] <;>
            by_cases hs : b.status = SchedulingNodeStatus.TO_TERMINATE
          · rw [if_pos hs, if_pos hs]
            simp only [List.map_append, h1]
            simp [h.1]
          · rw [if_neg hs, if_neg hs]
            exact h1
          · rw [if_pos hs, if_pos hs]
            exact h2
          · rw [if_neg hs, if_neg hs]
            simp only []
            rw [en_type_eq h.1]
            exact dappend_rel _ _ _ _ _ h2 h.1

theorem max_per_type_step_rel (now1 now2 : Nat)
    (cfgs : List (String × NodeTypeConfig)) (k : String)
    (g1 g2 : List SchedulingNode)
    (hg : g1.map erase_clock_node = g2.map erase_clock_node) :
    (max_per_type_step now1 cfgs k g1).map
        (fun pr => (pr.1.map erase_clock_node, pr.2.map erase_clock_node)) =
      (max_per_type_step now2 cfgs k g2).map
        (fun pr => (pr.1.map erase_clock_node, pr.2.map erase_clock_node)) := by
  simp only [max_per_type_step]
  have hlen : g1.length = g2.length := by
    have h2 := congrArg List.length hg
    simpa using h2
  rw [hlen]
  split
  · simp only [Option.map_some']
    rw [hg]
  · exact select_rel now1 now2 g1 g2 _ _ _ _ hg

theorem max_fold_rel (now1 now2 : Nat) (cfgs : List (String × NodeTypeConfig)) :
    ∀ (gs1 gs2 : List (String × List SchedulingNode))
      (acc1 acc2 : List SchedulingNode × List (String × List SchedulingNode)),
      gs1.map (fun p => (p.1, p.2.map erase_clock_node)) =
        gs2.map (fun p => (p.1, p.2.map erase_clock_node)) →
      acc1.1.map erase_clock_node = acc2.1.map erase_clock_node →
      acc1.2.map (fun p => (p.1, p.2.map erase_clock_node)) =
        acc2.2.map (fun p => (p.1, p.2.map erase_clock_node)) →
      (List.foldlM (max_fold_step now1 cfgs) acc1 gs1).map
          (fun st => (st.1.map erase_clock_node,
            st.2.map (fun p => (p.1, p.2.map erase_clock_node)))) =
        (List.foldlM (max_fold_step now2 cfgs) acc2 gs2).map
          (fun st => (st.1.map erase_clock_node,
            st.2.map (fun p => (p.1, p.2.map erase_clock_node)))) := by
  intro gs1
  induction gs1 with
  | nil =>
      intro gs2 acc1 acc2 h h1 h2
      cases gs2 with
      | nil =>
          simp only [List.foldlM_nil, Option.pure_def, Option.map_some']
          rw [show (acc1.1.map erase_clock_node,
              acc1.2.map (fun p => (p.1, p.2.map erase_clock_node))) =
              (acc2.1.map erase_clock_node,
                acc2.2.map (fun p => (p.1, p.2.map erase_clock_node)))
            from by rw [h1, h2]]
      | cons b gs2 => simp at h
  | cons g1 gs1 ih =>
      intro gs2 acc1 acc2 h h1 h2
      cases gs2 with
      | nil => simp at h
      | cons g2 gs2 =>
          simp only [List.map_cons, List.cons.injEq] at h
          have hk : g1.1 = g2.1 := by
            have h3 := congrArg Prod.fst h.1
            exact h3
          have hgv : g1.2.map erase_clock_node = g2.2.map erase_clock_node := by
            have h3 := congrArg Prod.snd h.1
            exact h3
          rw [List.foldlM_cons, List.foldlM_cons]
          have hstep := max_per_type_step_rel now1 now2 cfgs g1.1 g1.2 g2.2 hgv
          simp only [max_fold_step]
          cases hm1 : max_per_type_step now1 cfgs g1.1 g1.2 with
          | none =>
              rw [hm1] at hstep
              cases hm2 : max_per_type_step now2 cfgs g2.1 g2.2 with
              | none => rfl
              | some pr2 =>
                  have hm2b := hm2
                  rw [← hk] at hm2b
                  rw [hm2b] at hstep
                  exact absurd hstep (by simp)
          | some pr1 =>
              obtain ⟨tt1, rm1⟩ := pr1
              rw [hm1] at hstep
              cases hm2 : max_per_type_step now2 cfgs g2.1 g2.2 with
              | none =>
                  have hm2b := hm2
                  rw [← hk] at hm2b
                  rw [hm2b] at hstep
                  exact absurd hstep (by simp)
              | some pr2 =>
                  obtain ⟨tt2, rm2⟩ := pr2
                  have hm2b := hm2
                  rw [← hk] at hm2b
                  rw [hm2b] at hstep
                  simp only [Option.map_some', Option.some.injEq] at hstep
                  have htt : tt1.map erase_clock_node =
                      tt2.map erase_clock_node := by
                    have h3 := congrArg Prod.fst hstep
                    exact h3
                  have hrm : rm1.map erase_clock_node =
                      rm2.map erase_clock_node := by
                    have h3 := congrArg Prod.snd hstep
                    exact h3
                  simp only [Option.bind_eq_bind, Option.some_bind,
                    Option.pure_def]
                  refine ih gs2 _ _ h.2 ?_ ?_
                  · simp only [List.map_append]
                    rw [h1, htt]
                  · simp only [List.map_append, List.map_cons, List.map_nil]
                    rw [h2, hk, hrm]

theorem flatten_rel :
    ∀ (gs1 gs2 : List (String × List SchedulingNode)),
      gs1.map (fun p => (p.1, p.2.map erase_clock_node)) =
        gs2.map (fun p => (p.1, p.2.map erase_clock_node)) →
      (gs1.foldl (fun acc p => acc ++ p.2) []).map erase_clock_node =
        (gs2.foldl (fun acc p => acc ++ p.2) []).map erase_clock_node := by
  intro gs1
  induction gs1 with
  | nil =>
      intro gs2 h
      cases gs2 with
      | nil => rfl
      | cons b gs2 => simp at h
  | cons g1 gs1 ih =>
      intro gs2 h
      cases gs2 with
      | nil => simp at h
      | cons g2 gs2 =>
          simp only [List.map_cons, List.cons.injEq] at h
          have hgv : g1.2.map erase_clock_node = g2.2.map erase_clock_node := by
            have h3 := congrArg Prod.snd h.1
            exact h3
          rw [List.foldl_cons, List.foldl_cons, foldl_append_eq gs1 ([] ++ g1.2),
            foldl_append_eq gs2 ([] ++ g2.2)]
          simp only [List.nil_append, List.map_append]
          rw [hgv, ih gs2 h.2]

/-- Phase 3 is clock-blind up to the erased ids. -/
theorem enforce_max_per_type_rel (now1 now2 : Nat) {ctx1 ctx2 : ScheduleContext}
    (hR : erase_clock_ctx ctx1 = erase_clock_ctx ctx2) :
    (enforce_max_workers_per_type now1 ctx1).map erase_clock_ctx =
      (enforce_max_workers_per_type now2 ctx2).map erase_clock_ctx := by
  simp only [enforce_max_workers_per_type, Option.pure_def]
  obtain ⟨hpa, hpb⟩ := max_partition_fold_rel ctx1.nodes ctx2.nodes
    ([], []) ([], []) (rel_nodes hR) rfl rfl
  cases hp1 : ctx1.nodes.foldl max_partition_step ([], []) with
  | mk t1 g1 =>
  cases hp2 : ctx2.nodes.foldl max_partition_step ([], []) with
  | mk t2 g2 =>
  simp only [hp1, hp2] at hpa hpb
  simp only [rel_cfgs hR]
  have hfold := max_fold_rel now1 now2 ctx2.node_type_configs g1 g2
    (t1, []) (t2, []) hpb hpa rfl
  cases hf1 : List.foldlM (max_fold_step now1 ctx2.node_type_configs)
      (t1, []) g1 with
  | none =>
      rw [hf1] at hfold
      cases hf2 : List.foldlM (max_fold_step now2 ctx2.node_type_configs)
          (t2, []) g2 with
      | none =>
          simp only [hf2, Option.bind_eq_bind, Option.none_bind,
            Option.map_none']
      | some out2 => rw [hf2] at hfold; exact absurd hfold (by simp)
  | some out1 =>
      obtain ⟨term1, grouped1⟩ := out1
      rw [hf1] at hfold
      cases hf2 : List.foldlM (max_fold_step now2 ctx2.node_type_configs)
          (t2, []) g2 with
      | none => rw [hf2] at hfold; exact absurd hfold (by simp)
      | some out2 =>
          obtain ⟨term2, grouped2⟩ := out2
          rw [hf2] at hfold
          simp only [Option.map_some', Option.some.injEq] at hfold
          have hterm : term1.map erase_clock_node =
              term2.map erase_clock_node := by
            have h3 := congrArg Prod.fst hfold
            exact h3
          have hgrp : grouped1.map (fun p => (p.1, p.2.map erase_clock_node)) =
              grouped2.map (fun p => (p.1, p.2.map erase_clock_node)) := by
            have h3 := congrArg Prod.snd hfold
            exact h3
          simp only [Option.bind_eq_bind, Option.some_bind]
          have hflat := flatten_rel grouped1 grouped2 hgrp
          have hlen_all : ctx1.nodes.length = ctx2.nodes.length := by
            have h2 := congrArg List.length (rel_nodes hR)
            simpa using h2
          have hlen_pick : (term1 ++ grouped1.foldl
              (fun (acc : List SchedulingNode) p => acc ++ p.2) []).length =
              (term2 ++ grouped2.foldl
                (fun (acc : List SchedulingNode) p => acc ++ p.2) []).length := by
            simp only [List.length_append]
            have e1 := congrArg List.length hterm
            have e2 := congrArg List.length hflat
            simp only [List.length_map] at e1 e2
            omega
          by_cases hl1 : ctx1.nodes.length = (term1 ++ grouped1.foldl
              (fun (acc : List SchedulingNode) p => acc ++ p.2) []).length
          · rw [if_pos hl1, if_pos (by rw [← hlen_all, ← hlen_pick]; exact hl1)]
            simp only [Option.map_some']
            refine congrArg some ?_
            apply update_rel hR
            simp only [List.map_append]
            rw [hterm, hflat]
          · rw [if_neg hl1,
              if_neg (by rw [← hlen_all, ← hlen_pick]; exact hl1)]

theorem try_schedule_ctx_rel {ctx1 ctx2 : ScheduleContext}
    (hR : erase_clock_ctx ctx1 = erase_clock_ctx ctx2)
    (reqs : List ResourceRequest) (c : Bool) :
    (try_schedule_ctx ctx1 reqs c).map
        (fun pr => (pr.1.map erase_clock_node, pr.2)) =
      (try_schedule_ctx ctx2 reqs c).map
        (fun pr => (pr.1.map erase_clock_node, pr.2)) := by
  rw [← try_schedule_ctx_erase ctx1 reqs c, ← try_schedule_ctx_erase ctx2 reqs c,
    hR]

/-- Phase 5 is clock-blind up to the erased ids. -/
theorem enforce_constraints_rel {ctx1 ctx2 : ScheduleContext}
    (hR : erase_clock_ctx ctx1 = erase_clock_ctx ctx2)
    (cs : List ClusterResourceConstraint) :
    (enforce_resource_constraints ctx1 cs).map
        (fun pr => (erase_clock_ctx pr.1, pr.2)) =
      (enforce_resource_constraints ctx2 cs).map
        (fun pr => (erase_clock_ctx pr.1, pr.2)) := by
  simp only [enforce_resource_constraints, Option.pure_def]
  split
  · split
    · simp only [Option.map_some']
      rw [hR]
    · rename_i constraint ctail hlen
      have hts := try_schedule_ctx_rel hR
        (ungroup_by_count constraint.min_bundles) true
      cases h1 : try_schedule_ctx ctx1
          (ungroup_by_count constraint.min_bundles) true with
      | none =>
          rw [h1] at hts
          cases h2 : try_schedule_ctx ctx2
              (ungroup_by_count constraint.min_bundles) true with
          | none => rfl
          | some pr2 => rw [h2] at hts; exact absurd hts (by simp)
      | some pr1 =>
          obtain ⟨nodes1, inf1⟩ := pr1
          rw [h1] at hts
          cases h2 : try_schedule_ctx ctx2
              (ungroup_by_count constraint.min_bundles) true with
          | none => rw [h2] at hts; exact absurd hts (by simp)
          | some pr2 =>
              obtain ⟨nodes2, inf2⟩ := pr2
              rw [h2] at hts
              simp only [Option.map_some', Option.some.injEq] at hts
              have hn : nodes1.map erase_clock_node =
                  nodes2.map erase_clock_node := by
                have h3 := congrArg Prod.fst hts
                exact h3
              have hi : inf1 = inf2 := by
                have h3 := congrArg Prod.snd hts
                exact h3
              simp only [Option.bind_eq_bind, Option.some_bind]
              rw [hi]
              by_cases hz : inf2.length ≠ 0
              · rw [if_pos hz, if_pos hz]
                simp only [Option.map_some']
                rw [hR]
              · rw [if_neg hz, if_neg hz]
                simp only [Option.map_some']
                refine congrArg some ?_
                refine congrArg (fun x => (x, [])) ?_
                exact update_rel hR _ _ hn
  · rfl

theorem gang_fold_rel :
    ∀ (gl : List GangResourceRequest)
      (st1 st2 : ScheduleContext × List GangResourceRequest),
      erase_clock_ctx st1.1 = erase_clock_ctx st2.1 → st1.2 = st2.2 →
      (List.foldlM gang_step st1 gl).map
          (fun st => (erase_clock_ctx st.1, st.2)) =
        (List.foldlM gang_step st2 gl).map
          (fun st => (erase_clock_ctx st.1, st.2)) := by
  intro gl
  induction gl with
  | nil =>
      intro st1 st2 h1 h2
      simp only [List.foldlM_nil, Option.pure_def, Option.map_some']
      rw [h1, h2]
  | cons g gl ih =>
      intro st1 st2 h1 h2
      rw [List.foldlM_cons, List.foldlM_cons]
      simp only [gang_step, Option.pure_def]
      have hts := try_schedule_ctx_rel h1
        (combine_requests_with_affinity g.requests) false
      cases ht1 : try_schedule_ctx st1.1
          (combine_requests_with_affinity g.requests) false with
      | none =>
          rw [ht1] at hts
          cases ht2 : try_schedule_ctx st2.1
              (combine_requests_with_affinity g.requests) false with
          | none => rfl
          | some pr2 => rw [ht2] at hts; exact absurd hts (by simp)
      | some pr1 =>
          obtain ⟨nodes1, inf1⟩ := pr1
          rw [ht1] at hts
          cases ht2 : try_schedule_ctx st2.1
              (combine_requests_with_affinity g.requests) false with
          | none => rw [ht2] at hts; exact absurd hts (by simp)
          | some pr2 =>
              obtain ⟨nodes2, inf2⟩ := pr2
              rw [ht2] at hts
              simp only [Option.map_some', Option.some.injEq] at hts
              have hn : nodes1.map erase_clock_node =
                  nodes2.map erase_clock_node := by
                have h3 := congrArg Prod.fst hts
                exact h3
              have hi : inf1 = inf2 := by
                have h3 := congrArg Prod.snd hts
                exact h3
              simp only [Option.bind_eq_bind, Option.some_bind]
              rw [hi]
              by_cases hz : inf2.length ≠ 0
              · rw [if_pos hz, if_pos hz]
                exact ih _ _ h1 (by rw [h2])
              · rw [if_neg hz, if_neg hz]
                exact ih _ _ (update_rel h1 _ _ hn) h2

/-- Phase 6 is clock-blind up to the erased ids. -/
theorem sched_gang_rel {ctx1 ctx2 : ScheduleContext}
    (hR : erase_clock_ctx ctx1 = erase_clock_ctx ctx2)
    (gs : List GangResourceRequest) :
    (sched_gang_resource_requests ctx1 gs).map
        (fun st => (erase_clock_ctx st.1, st.2)) =
      (sched_gang_resource_requests ctx2 gs).map
        (fun st => (erase_clock_ctx st.1, st.2)) := by
  unfold sched_gang_resource_requests
  exact gang_fold_rel _ (ctx1, []) (ctx2, []) hR rfl

/-- Phase 7 is clock-blind up to the erased ids. -/
theorem sched_resource_requests_rel {ctx1 ctx2 : ScheduleContext}
    (hR : erase_clock_ctx ctx1 = erase_clock_ctx ctx2)
    (rbc : List ResourceRequestByCount) :
    (sched_resource_requests ctx1 rbc).map
        (fun st => (erase_clock_ctx st.1, st.2)) =
      (sched_resource_requests ctx2 rbc).map
        (fun st => (erase_clock_ctx st.1, st.2)) := by
  simp only [sched_resource_requests, Option.pure_def]
  have hts := try_schedule_ctx_rel hR (ungroup_by_count rbc) false
  cases h1 : try_schedule_ctx ctx1 (ungroup_by_count rbc) false with
  | none =>
      rw [h1] at hts
      cases h2 : try_schedule_ctx ctx2 (ungroup_by_count rbc) false with
      | none => rfl
      | some pr2 => rw [h2] at hts; exact absurd hts (by simp)
  | some pr1 =>
      obtain ⟨nodes1, inf1⟩ := pr1
      rw [h1] at hts
      cases h2 : try_schedule_ctx ctx2 (ungroup_by_count rbc) false with
      | none => rw [h2] at hts; exact absurd hts (by simp)
      | some pr2 =>
          obtain ⟨nodes2, inf2⟩ := pr2
          rw [h2] at hts
          simp only [Option.map_some', Option.some.injEq] at hts
          have hn : nodes1.map erase_clock_node =
              nodes2.map erase_clock_node := by
            have h3 := congrArg Prod.fst hts
            exact h3
          have hi : inf1 = inf2 := by
            have h3 := congrArg Prod.snd hts
            exact h3
          simp only [Option.bind_eq_bind, Option.some_bind, Option.map_some']
          rw [hi]
          refine congrArg some ?_
          refine congrArg (fun x => (x, inf2)) ?_
          exact update_rel hR _ _ hn

theorem filterMap_tr_rel :
    ∀ l1 l2 : List SchedulingNode,
      l1.map erase_clock_node = l2.map erase_clock_node →
      (l1.filterMap (·.termination_request)).map erase_clock_tr =
        (l2.filterMap (·.termination_request)).map erase_clock_tr := by
  intro l1
  induction l1 with
  | nil =>
      intro l2 h
      cases l2 with
      | nil => rfl
      | cons b l2 => simp at h
  | cons a l1 ih =>
      intro l2 h
      cases l2 with
      | nil => simp at h
      | cons b l2 =>
          simp only [List.map_cons, List.cons.injEq] at h
          have htr := en_tr_eq h.1
          rw [List.filterMap_cons, List.filterMap_cons]
          cases ha : a.termination_request with
          | none =>
              rw [ha] at htr
              cases hb : b.termination_request with
              | none => exact ih l2 h.2
              | some trb => rw [hb] at htr; exact absurd htr (by simp)
          | some tra =>
              rw [ha] at htr
              cases hb : b.termination_request with
              | none => rw [hb] at htr; exact absurd htr (by simp)
              | some trb =>
                  rw [hb] at htr
                  simp only [Option.map_some', Option.some.injEq] at htr
                  simp only [List.map_cons, List.cons.injEq]
                  exact ⟨htr, ih l2 h.2⟩

theorem get_terminate_requests_rel {ctx1 ctx2 : ScheduleContext}
    (hR : erase_clock_ctx ctx1 = erase_clock_ctx ctx2) :
    ctx1.get_terminate_requests.map erase_clock_tr =
      ctx2.get_terminate_requests.map erase_clock_tr := by
  unfold ScheduleContext.get_terminate_requests
  exact filterMap_tr_rel _ _ (rel_nodes hR)

theorem get_launch_requests_rel {ctx1 ctx2 : ScheduleContext}
    (hR : erase_clock_ctx ctx1 = erase_clock_ctx ctx2) (now1 now2 : Nat) :
    (ctx1.get_launch_requests now1).map erase_clock_launch =
      (ctx2.get_launch_requests now2).map erase_clock_launch := by
  unfold ScheduleContext.get_launch_requests
  have hby := foldl_rel_congr
    (fun (d : List (String × Int)) n =>
      if n.status = SchedulingNodeStatus.TO_LAUNCH then
        dincr d n.node_type 1 0
      else d)
    (fun d a b hab => by
      simp only [en_status_eq hab, en_type_eq hab])
    _ _ [] (rel_nodes hR)
  rw [hby, List.map_map, List.map_map]
  refine List.map_congr_left (fun p _ => ?_)
  rfl

/-- The whole phase pipeline is clock-blind up to the erased ids: two runs
with different clock readings produce the same final context and
infeasibility lists once the clock stamps are zeroed. -/
theorem schedule_impl_rel (now1 now2 : Nat) (request : SchedulingRequest) :
    (schedule_impl now1 request).map erase_clock_out =
      (schedule_impl now2 request).map erase_clock_out := by
  simp only [schedule_impl, Option.pure_def]
  have hR2 : erase_clock_ctx (enforce_min_workers_per_type
      (terminate_outdated_nodes now1 (from_schedule_request request))) =
      erase_clock_ctx (enforce_min_workers_per_type
        (terminate_outdated_nodes now2 (from_schedule_request request))) :=
    enforce_min_workers_rel (terminate_outdated_rel now1 now2 rfl)
  have h3 := enforce_max_per_type_rel now1 now2 hR2
  cases ha1 : enforce_max_workers_per_type now1
      (enforce_min_workers_per_type
        (terminate_outdated_nodes now1 (from_schedule_request request))) with
  | none =>
      rw [ha1] at h3
      cases ha2 : enforce_max_workers_per_type now2
          (enforce_min_workers_per_type
            (terminate_outdated_nodes now2 (from_schedule_request request))) with
      | none => rfl
      | some ctxA2 => rw [ha2] at h3; exact absurd h3 (by simp)
  | some ctxA1 =>
  rw [ha1] at h3
  cases ha2 : enforce_max_workers_per_type now2
      (enforce_min_workers_per_type
        (terminate_outdated_nodes now2 (from_schedule_request request))) with
  | none => rw [ha2] at h3; exact absurd h3 (by simp)
  | some ctxA2 =>
  rw [ha2] at h3
  simp only [Option.map_some', Option.some.injEq] at h3
  simp only [Option.bind_eq_bind, Option.some_bind]
  have h4 := enforce_max_global_rel now1 now2 h3
  cases hb1 : enforce_max_workers_global now1 ctxA1 with
  | none =>
      rw [hb1] at h4
      cases hb2 : enforce_max_workers_global now2 ctxA2 with
      | none => rfl
      | some ctxB2 => rw [hb2] at h4; exact absurd h4 (by simp)
  | some ctxB1 =>
  rw [hb1] at h4
  cases hb2 : enforce_max_workers_global now2 ctxA2 with
  | none => rw [hb2] at h4; exact absurd h4 (by simp)
  | some ctxB2 =>
  rw [hb2] at h4
  simp only [Option.map_some', Option.some.injEq] at h4
  simp only [Option.some_bind]
  have h5 := enforce_constraints_rel h4 request.cluster_resource_constraints
  cases hc1 : enforce_resource_constraints ctxB1
      request.cluster_resource_constraints with
  | none =>
      rw [hc1] at h5
      cases hc2 : enforce_resource_constraints ctxB2
          request.cluster_resource_constraints with
      | none => rfl
      | some pr2 => rw [hc2] at h5; exact absurd h5 (by simp)
  | some pr1 =>
  obtain ⟨ctxC1, infc1⟩ := pr1
  rw [hc1] at h5
  cases hc2 : enforce_resource_constraints ctxB2
      request.cluster_resource_constraints with
  | none => rw [hc2] at h5; exact absurd h5 (by simp)
  | some pr2 =>
  obtain ⟨ctxC2, infc2⟩ := pr2
  rw [hc2] at h5
  simp only [Option.map_some', Option.some.injEq] at h5
  have hRC : erase_clock_ctx ctxC1 = erase_clock_ctx ctxC2 := by
    have h6 := congrArg Prod.fst h5
    exact h6
  have hinfc : infc1 = infc2 := by
    have h6 := congrArg Prod.snd h5
    exact h6
  simp only [Option.some_bind]
  have h6 := sched_gang_rel hRC request.gang_resource_requests
  cases hd1 : sched_gang_resource_requests ctxC1
      request.gang_resource_requests with
  | none =>
      rw [hd1] at h6
      cases hd2 : sched_gang_resource_requests ctxC2
          request.gang_resource_requests with
      | none => rfl
      | some pr2 => rw [hd2] at h6; exact absurd h6 (by simp)
  | some pr1 =>
  obtain ⟨ctxD1, infg1⟩ := pr1
  rw [hd1] at h6
  cases hd2 : sched_gang_resource_requests ctxC2
      request.gang_resource_requests with
  | none => rw [hd2] at h6; exact absurd h6 (by simp)
  | some pr2 =>
  obtain ⟨ctxD2, infg2⟩ := pr2
  rw [hd2] at h6
  simp only [Option.map_some', Option.some.injEq] at h6
  have hRD : erase_clock_ctx ctxD1 = erase_clock_ctx ctxD2 := by
    have h7 := congrArg Prod.fst h6
    exact h7
  have hinfg : infg1 = infg2 := by
    have h7 := congrArg Prod.snd h6
    exact h7
  simp only [Option.some_bind]
  have h7 := sched_resource_requests_rel hRD request.resource_requests
  cases he1 : sched_resource_requests ctxD1 request.resource_requests with
  | none =>
      rw [he1] at h7
      cases he2 : sched_resource_requests ctxD2 request.resource_requests with
      | none => rfl
      | some pr2 => rw [he2] at h7; exact absurd h7 (by simp)
  | some pr1 =>
  obtain ⟨ctxE1, infr1⟩ := pr1
  rw [he1] at h7
  cases he2 : sched_resource_requests ctxD2 request.resource_requests with
  | none => rw [he2] at h7; exact absurd h7 (by simp)
  | some pr2 =>
  obtain ⟨ctxE2, infr2⟩ := pr2
  rw [he2] at h7
  simp only [Option.map_some', Option.some.injEq] at h7
  have hRE : erase_clock_ctx ctxE1 = erase_clock_ctx ctxE2 := by
    have h8 := congrArg Prod.fst h7
    exact h8
  have hinfr : infr1 = infr2 := by
    have h8 := congrArg Prod.snd h7
    exact h8
  simp only [Option.some_bind, Option.map_some', Option.some.injEq,
    erase_clock_out]
  rw [enforce_idle_rel now1 now2 hRE, hinfc, hinfg, hinfr]

theorem sched_best_node_rem_lt (requests : List ResourceRequest)
    (nodes : List SchedulingNode) (c : Bool) (bn : SchedulingNode)
    (rem : List ResourceRequest) (ns : List SchedulingNode)
    (h : sched_best_node requests nodes c = some (some (bn, rem), ns)) :
    rem.length < requests.length :=
  (sched_best_node_some requests nodes c bn rem ns h).1

end Sched

/-! ## Claim theorems -/

namespace Sched

/-! ## Claim C10 — missing node type config is treated as outdatedness -/

/-- C10: in the outdated-termination phase (phase 1 of `schedule`), a
`RUNNING` node whose node type has no entry in `node_type_configs` is
marked `TO_TERMINATE` with cause `OUTDATED` — by exactly the same marking
(`mark_outdated`) applied to a node whose `launch_config_hash` differs
from a config-declared hash; and the phase applies this per-node step to
every node of the context. -/
theorem outdated_missing_config_terminated (now : Nat)
    (cfgs : List (String × NodeTypeConfig)) (n : SchedulingNode)
    (hrun : n.status = .RUNNING) (hnone : dget? cfgs n.node_type = none) :
    outdated_step now cfgs n = mark_outdated now n ∧
    (outdated_step now cfgs n).status = .TO_TERMINATE ∧
    (outdated_step now cfgs n).termination_request =
      some { id := now, instance_id := n.im_instance_id,
             ray_node_id := n.ray_node_id, cause := .OUTDATED } ∧
    (∀ (cfgs2 : List (String × NodeTypeConfig)) (m : SchedulingNode)
        (cfg : NodeTypeConfig), m.status = .RUNNING →
        dget? cfgs2 m.node_type = some cfg →
        hash_truthy cfg.launch_config_hash →
        cfg.launch_config_hash ≠ m.launch_config_hash →
        outdated_step now cfgs2 m = mark_outdated now m) ∧
    (∀ ctx : ScheduleContext, (terminate_outdated_nodes now ctx).nodes =
        ctx.nodes.map (outdated_step now ctx.node_type_configs)) := by
  have hstep : outdated_step now cfgs n = mark_outdated now n := by
    unfold outdated_step outdated
    rw [hnone, hrun]
    simp
  refine ⟨hstep, ?_, ?_, ?_, ?_⟩
  · rw [hstep]; rfl
  · rw [hstep]; rfl
  · intro cfgs2 m cfg hrun2 hsome htruthy hne
    unfold outdated_step outdated
    rw [hsome, hrun2]
    simp [htruthy, hne]
  · intro ctx; rfl

/-- Witness for C10 at a concrete input. -/
theorem outdated_missing_config_terminated_witness :
    outdated_step 3 [] { node_type := "a", status := .RUNNING } =
      mark_outdated 3 { node_type := "a", status := .RUNNING } :=
  (outdated_missing_config_terminated 3 [] { node_type := "a", status := .RUNNING }
    rfl rfl).1

/-! ## Claim C6 — idle termination fires iff strictly over the timeout
and no committed constraints -/

/-- C6: in the idle-termination phase (phase 8 of `schedule`), a `RUNNING`
node is marked `TO_TERMINATE` with cause `IDLE` iff an idle timeout is
configured, `idle_duration_ms` is strictly greater than
`idle_timeout_s * 1000`, and the node has no committed
`sched_constraints`; in particular equality does not trigger, and a node
holding any cluster-constraint bundle is never idle-terminated. The phase
applies this per-node step to every node of the context. -/
theorem idle_termination_iff (now : Nat) (tOpt : Option Int) (n : SchedulingNode)
    (hrun : n.status = .RUNNING) :
    (((idle_step now tOpt n).status = .TO_TERMINATE ∧
      ((idle_step now tOpt n).termination_request.map (·.cause)) = some .IDLE) ↔
      (∃ t, tOpt = some t ∧ t * 1000 < (n.idle_duration_ms : Int) ∧
        n.sched_constraints = [])) ∧
    (∀ ctx : ScheduleContext, (enforce_idle_termination now ctx).nodes =
        ctx.nodes.map (idle_step now ctx.idle_timeout_s)) := by
  have hnone : idle_step now none n = n := by
    unfold idle_step
    rw [if_neg (by simp [hrun])]
  have hsome : ∀ t : Int, idle_step now (some t) n =
      (if (n.idle_duration_ms : Int) ≤ t * 1000 then n
       else if n.sched_constraints.length ≠ 0 then n
       else mark_idle now n) := by
    intro t
    unfold idle_step
    rw [if_neg (by simp [hrun])]
  constructor
  · constructor
    · intro h
      cases tOpt with
      | none => rw [hnone] at h; exact absurd h.1 (by simp [hrun])
      | some t =>
          rw [hsome t] at h
          refine ⟨t, rfl, ?_, ?_⟩
          · by_contra hle
            push_neg at hle
            rw [if_pos hle] at h
            exact absurd h.1 (by simp [hrun])
          · by_cases hle : (n.idle_duration_ms : Int) ≤ t * 1000
            · rw [if_pos hle] at h
              exact absurd h.1 (by simp [hrun])
            · rw [if_neg hle] at h
              by_contra hcon
              rw [if_pos (by simpa using hcon)] at h
              exact absurd h.1 (by simp [hrun])
    · rintro ⟨t, rfl, hlt, hempty⟩
      rw [hsome t, if_neg (by omega), if_neg (by simp [hempty])]
      exact ⟨rfl, rfl⟩
  · intro ctx; rfl

/-- Witness for C6 at a concrete input: timeout 1s, idle 1001ms, no
constraints — the node is idle-terminated. -/
theorem idle_termination_iff_witness :
    ((idle_step 3 (some 1) idle_witness_node).status = .TO_TERMINATE ∧
      ((idle_step 3 (some 1) idle_witness_node).termination_request.map
        (·.cause)) = some .IDLE) :=
  (idle_termination_iff 3 (some 1) idle_witness_node rfl).1.mpr
    ⟨1, rfl, by norm_num [idle_witness_node], rfl⟩

/-! ## Claim C9 — termination candidates are selected in sorted order -/

/-- C9: whenever the scheduler selects `K` of `M` candidates to terminate
(`_select_nodes_to_terminate`, used by both the per-type and the global
max-enforcement phases), the candidates are stably sorted ascending by the
key `(running_ray, −idle_duration_ms, avg_utilization)` and exactly the
first `K` of the sorted order are marked terminated, the rest remaining. -/
theorem select_nodes_sorted (now : Nat) (nodes : List SchedulingNode)
    (k : Nat) (cause : TerminationCause) (mn mpt : Option Nat)
    (hcause : cause = .MAX_NUM_NODES ∨ cause = .MAX_NUM_NODE_PER_TYPE) :
    ∃ sorted : List SchedulingNode,
      List.Perm sorted nodes ∧
      List.Sorted termination_le sorted ∧
      select_nodes_to_terminate now nodes k cause mn mpt =
        some ((sorted.take k).map (mark_to_terminate now cause mn mpt),
              sorted.drop k) ∧
      ∀ n, (mark_to_terminate now cause mn mpt n).status = .TO_TERMINATE ∧
        (mark_to_terminate now cause mn mpt n).termination_request =
          some { id := now, instance_id := n.im_instance_id,
                 ray_node_id := n.ray_node_id, cause := cause,
                 max_num_nodes := if cause = .MAX_NUM_NODES then mn else none,
                 max_num_nodes_per_type :=
                   if cause = .MAX_NUM_NODE_PER_TYPE then mpt else none } := by
  refine ⟨nodes.insertionSort termination_le,
    List.perm_insertionSort termination_le nodes,
    List.sorted_insertionSort termination_le nodes, ?_, ?_⟩
  · unfold select_nodes_to_terminate
    rw [if_pos hcause]
  · intro n; exact ⟨rfl, rfl⟩

/-- Witness for C9 at a concrete input. -/
theorem select_nodes_sorted_witness :
    ∃ sorted : List SchedulingNode,
      List.Perm sorted [select_witness_node] ∧
      List.Sorted termination_le sorted ∧
      select_nodes_to_terminate 3 [select_witness_node] 1
          .MAX_NUM_NODES (some 0) none =
        some ((sorted.take 1).map (mark_to_terminate 3 .MAX_NUM_NODES (some 0) none),
              sorted.drop 1) ∧
      ∀ n, (mark_to_terminate 3 .MAX_NUM_NODES (some 0) none n).status =
          .TO_TERMINATE ∧
        (mark_to_terminate 3 .MAX_NUM_NODES (some 0) none n).termination_request =
          some { id := 3, instance_id := n.im_instance_id,
                 ray_node_id := n.ray_node_id, cause := .MAX_NUM_NODES,
                 max_num_nodes := some 0, max_num_nodes_per_type := none } :=
  select_nodes_sorted 3 [select_witness_node] 1
    .MAX_NUM_NODES (some 0) none (Or.inl rfl)

end Sched

/-! ## Claim C2 — the cloud-termination pass is a stub in the source -/

namespace Recon

/-- C2 (failing input): `c2_inst` is bound to cloud instance `"c-1"`,
which is absent from `non_terminated_cloud_instances` (the map is empty) —
per the spec it must transition to TERMINATED. Because
`Reconciler._handle_cloud_instance_terminated` is a `pass` stub,
`sync_from` emits no update at all and the instance stays `ALLOCATED`. -/
theorem cloud_terminated_pass_is_stub :
    sync_from c2_state [] [] [] [] 5 = some (c2_state, []) ∧
    c2_inst.cloud_instance_id = "c-1" ∧
    c2_inst.status = .ALLOCATED ∧
    c2_inst.status ≠ .TERMINATED := by
  refine ⟨by decide, rfl, rfl, by decide⟩

/-! ## Claim C8 — FIFO allocation pass and its three cases -/

/-- C8: the allocation pass of `sync_from` processes the IM instances that
carry a `launch_request_id` in ascending order of their REQUESTED
transition times (a stable sort of the filtered list), folding
`try_or_fail_allocation` over them; and for each instance:
if an unassigned cloud instance of the same `instance_type` exists, one is
popped and the instance transitions to ALLOCATED bound to its
`cloud_instance_id`; otherwise, if a `LaunchNodeError` keyed by the
instance's `launch_request_id` exists and its `node_type` matches, the
instance transitions to ALLOCATION_FAILED with the error's details;
otherwise it is left unchanged. -/
theorem alloc_pass_fifo_and_cases (instances : List IMInstance)
    (non_terminated_cloud_instances : List (String × CloudInstance))
    (cloud_provider_errors : List CloudInstanceProviderError) :
    (∃ sorted : List IMInstance,
      List.Perm sorted (instances.filter (fun i => i.launch_request_id ≠ "")) ∧
      List.Sorted alloc_order sorted ∧
      alloc_pass_events instances non_terminated_cloud_instances
          cloud_provider_errors =
        (sorted.foldl (alloc_fold_step (launch_errors_of cloud_provider_errors))
          ([], unassigned_of instances non_terminated_cloud_instances)).1) ∧
    (∀ (im : IMInstance) (pool : List (String × List CloudInstance))
        (errs : List (String × LaunchNodeError)) (l : List CloudInstance)
        (c : CloudInstance),
        dgetD pool im.instance_type [] = l ++ [c] →
        try_or_fail_allocation im pool errs =
          (some { instance_id := im.instance_id, new_instance_status := .ALLOCATED,
                  cloud_instance_id := c.cloud_instance_id },
           dset pool im.instance_type l)) ∧
    (∀ (im : IMInstance) (pool : List (String × List CloudInstance))
        (errs : List (String × LaunchNodeError)) (err : LaunchNodeError),
        dgetD pool im.instance_type [] = [] →
        dget? errs im.launch_request_id = some err →
        err.node_type = im.instance_type →
        try_or_fail_allocation im pool errs =
          (some { instance_id := im.instance_id,
                  new_instance_status := .ALLOCATION_FAILED,
                  details := err.details }, pool)) ∧
    (∀ (im : IMInstance) (pool : List (String × List CloudInstance))
        (errs : List (String × LaunchNodeError)),
        dgetD pool im.instance_type [] = [] →
        (∀ err, dget? errs im.launch_request_id = some err →
          err.node_type ≠ im.instance_type) →
        try_or_fail_allocation im pool errs = (none, pool)) := by
  refine ⟨⟨(instances.filter (fun i => i.launch_request_id ≠ "")).insertionSort
      alloc_order,
    List.perm_insertionSort _ _, List.sorted_insertionSort _ _,
    by unfold alloc_pass_events; rfl⟩, ?_, ?_, ?_⟩
  · intro im pool errs l c hpool
    unfold try_or_fail_allocation
    simp only [hpool, List.getLast?_concat, List.dropLast_concat]
  · intro im pool errs err hpool herr htype
    unfold try_or_fail_allocation
    simp only [hpool, List.getLast?_nil, herr]
    rw [if_pos htype]
  · intro im pool errs hpool herr
    unfold try_or_fail_allocation
    simp only [hpool, List.getLast?_nil]
    cases hget : dget? errs im.launch_request_id with
    | none => rfl
    | some err => simp [herr err hget]

/-- Witness for C8: with one unassigned cloud instance of the matching
type, the step allocates it. -/
theorem alloc_pass_fifo_and_cases_witness :
    try_or_fail_allocation c8_im c8_pool [] =
      (some { instance_id := c8_im.instance_id, new_instance_status := .ALLOCATED,
              cloud_instance_id := "c1" },
       dset c8_pool c8_im.instance_type []) :=
  (alloc_pass_fifo_and_cases [] [] []).2.1 c8_im c8_pool [] []
    { cloud_instance_id := "c1", node_type := "t" } (by decide)

/-! ## Claim C5 — `sync_from` is not idempotent -/

/-- C5 (failing input): after one `sync_from` has bound the instance
(state `c5_state1`), a second `sync_from` with the same observations is
not a no-op: the allocation pass — which filters on `launch_request_id`
only, never on status — emits a fresh ALLOCATED update rebinding the
already-allocated instance to the remaining unassigned cloud instance
`"c1"`, and the batch is then rejected as an illegal
ALLOCATED → ALLOCATED transition (`none`: the reconciler's assert trips). -/
theorem sync_from_not_idempotent :
    sync_from c5_state [] c5_cloud [] [] 10 =
      some (c5_state1,
        [{ instance_id := "i-1", new_instance_status := .ALLOCATED,
           cloud_instance_id := "c2" }]) ∧
    alloc_pass_events c5_state1.instances c5_cloud [] =
      [{ instance_id := "i-1", new_instance_status := .ALLOCATED,
         cloud_instance_id := "c1" }] ∧
    sync_from c5_state1 [] c5_cloud [] [] 11 = none := by
  refine ⟨by decide, by decide, by decide⟩

end Recon

/-! ## Claim C7 — idle termination ignores `min_worker_nodes` -/

namespace Sched

/-- C7 (failing input): `t1` has `min_worker_nodes = 1` and exactly one
(non-terminating) node, which is idle beyond the timeout. The
idle-termination phase never consults `min_worker_nodes`: after
`schedule`, the only `t1` node is marked `TO_TERMINATE` with cause `IDLE`
and zero non-terminating `t1` nodes remain — strictly below the minimum,
with no replacement launched. -/
theorem idle_termination_ignores_min_workers :
    c7_config.min_worker_nodes = 1 ∧
    (schedule_impl 0 c7_request).map
      (fun r => count_non_terminated r.1.nodes "t1") = some 0 ∧
    (schedule 0 c7_request).map
      (fun reply => (reply.to_terminate.map (·.cause), reply.to_launch)) =
      some ([.IDLE], []) := by
  refine ⟨rfl, by decide, by decide⟩

end Sched

namespace Sched

/-- C1: after a scheduler tick (`schedule_impl`, the phase pipeline of
`ResourceDemandScheduler.schedule`, whose final context the reply is
packaged from), every configured node type holds at most
`max_worker_nodes` scheduling nodes not marked `TO_TERMINATE` — existing
nodes plus newly added `TO_LAUNCH` nodes. The two hypotheses are the
Python dict laws of `node_type_configs`: keys are unique, and each
config's `name` equals its dictionary key. -/
theorem schedule_max_workers_per_type (now : Nat) (request : SchedulingRequest)
    (out : ScheduleContext × List ClusterResourceConstraint ×
           List GangResourceRequest × List ResourceRequest)
    (hnodup : (request.node_type_configs.map (·.1)).Nodup)
    (hname : ∀ p ∈ request.node_type_configs, p.2.name = p.1)
    (h : schedule_impl now request = some out)
    (t : String) (cfg : NodeTypeConfig)
    (hcfg : dget? request.node_type_configs t = some cfg) :
    count_non_terminated out.1.nodes t ≤ cfg.max_worker_nodes := by
  have hname' : ∀ k c2, dget? request.node_type_configs k = some c2 →
      c2.name = k :=
    fun k c2 hk => hname (k, c2) (dget?_mem _ _ _ hk)
  simp only [schedule_impl, Option.pure_def] at h
  cases h3 : enforce_max_workers_per_type now
      (enforce_min_workers_per_type
        (terminate_outdated_nodes now (from_schedule_request request))) with
  | none => rw [h3] at h; exact absurd h (by simp)
  | some ctxA =>
  rw [h3] at h
  simp only [Option.bind_eq_bind, Option.some_bind] at h
  cases h4 : enforce_max_workers_global now ctxA with
  | none => rw [h4] at h; exact absurd h (by simp)
  | some ctxB =>
  rw [h4] at h
  simp only [Option.some_bind] at h
  cases h5 : enforce_resource_constraints ctxB
      request.cluster_resource_constraints with
  | none => rw [h5] at h; exact absurd h (by simp)
  | some pr5 =>
  obtain ⟨ctxC, infc⟩ := pr5
  rw [h5] at h
  simp only [Option.some_bind] at h
  cases h6 : sched_gang_resource_requests ctxC request.gang_resource_requests with
  | none => rw [h6] at h; exact absurd h (by simp)
  | some pr6 =>
  obtain ⟨ctxD, infg⟩ := pr6
  rw [h6] at h
  simp only [Option.some_bind] at h
  cases h7 : sched_resource_requests ctxD request.resource_requests with
  | none => rw [h7] at h; exact absurd h (by simp)
  | some pr7 =>
  obtain ⟨ctxE, infr⟩ := pr7
  rw [h7] at h
  simp only [Option.some_bind, Option.some.injEq] at h
  subst h
  obtain ⟨a1, _, _, a4, a5⟩ := enforce_max_workers_per_type_bound now _ ctxA h3
  have ha1 : ctxA.node_type_configs = request.node_type_configs := a1
  obtain ⟨b1, _, _, b4, b5⟩ := enforce_max_workers_global_bound now ctxA ctxB h4 a4
  have hb1 : ctxB.node_type_configs = request.node_type_configs := by
    rw [b1, ha1]
  obtain ⟨c1, _, _, c4, c5⟩ := enforce_resource_constraints_bound ctxB ctxC _ _
    b4 (by rw [hb1]; exact hnodup) (by rw [hb1]; exact hname') h5
  have hc1 : ctxC.node_type_configs = request.node_type_configs := by
    rw [c1, hb1]
  have h6' : List.foldlM gang_step (ctxC, ([] : List GangResourceRequest))
      (request.gang_resource_requests.insertionSort gang_order) =
      some (ctxD, infg) := h6
  have hboundC : ∀ u c2, dget? request.node_type_configs u = some c2 →
      count_non_terminated ctxC.nodes u ≤ c2.max_worker_nodes := by
    intro u c2 hu
    exact c5 u c2 (by rw [hb1]; exact hu) (le_trans (b5 u) (a5 u c2 hu))
  obtain ⟨d1, _, _, d4, d5⟩ := gang_fold_bound request.node_type_configs hnodup
    hname' _ (ctxC, []) (ctxD, infg) h6' hc1 c4 hboundC
  obtain ⟨e1, _, _, e4, e5⟩ := sched_resource_requests_bound ctxD ctxE _ _
    d4 (by rw [d1]; exact hnodup) (by rw [d1]; exact hname') h7
  obtain ⟨_, _, f5⟩ := enforce_idle_termination_bound now ctxE
  have hcfgD : dget? ctxD.node_type_configs t = some cfg := by
    rw [d1]; exact hcfg
  have hE : count_non_terminated ctxE.nodes t ≤ cfg.max_worker_nodes :=
    e5 t cfg hcfgD (d5 t cfg hcfg)
  exact le_trans (f5 t) hE

/-- C1 witness: the single-type request of the idle scenario satisfies the
dict laws, schedules successfully, and respects `max_worker_nodes`. -/
theorem schedule_max_workers_per_type_witness :
    ∃ out, schedule_impl 3 c7_request = some out ∧
      count_non_terminated out.1.nodes "t1" ≤ c7_config.max_worker_nodes := by
  cases hout : schedule_impl 3 c7_request with
  | none => exact absurd hout (by decide)
  | some out =>
      exact ⟨out, rfl, schedule_max_workers_per_type 3 c7_request out
        (by decide) (by decide) hout "t1" c7_config (by decide)⟩

/-! ## Totality helpers: the dictionary subtraction (`d[k] -= v`) -/

theorem dget?_none_of_not_contains {α : Type} (d : List (String × α)) (k : String)
    (h : dcontains d k = false) : dget? d k = none := by
  rw [dcontains_eq_isSome] at h
  cases hg : dget? d k with
  | none => rfl
  | some v => rw [hg] at h; simp at h

theorem dcontains_some {α : Type} (d : List (String × α)) (k : String)
    (h : dcontains d k = true) : ∃ v, dget? d k = some v := by
  rw [dcontains_eq_isSome] at h
  cases hg : dget? d k with
  | none => rw [hg] at h; simp at h
  | some v => exact ⟨v, rfl⟩

theorem dcontains_of_mem {α : Type} (d : List (String × α)) (p : String × α)
    (h : p ∈ d) : dcontains d p.1 = true := by
  unfold dcontains
  rw [List.any_eq_true]
  exact ⟨p, h, by simp⟩

theorem not_contains_of_not_mem_keys {α : Type} (d : List (String × α))
    (k : String) (h : k ∉ d.map (·.1)) : dcontains d k = false := by
  cases hc : dcontains d k with
  | false => rfl
  | true =>
      obtain ⟨v, hv⟩ := dcontains_some d k hc
      exact absurd (List.mem_map.mpr ⟨(k, v), dget?_mem d k v hv, rfl⟩) h

theorem dget?_map_sub (k t : String) (v : ℚ) :
    ∀ d : List (String × ℚ),
      dget? (d.map (fun p => if p.1 == k then (p.1, p.2 - v) else p)) t =
        (dget? d t).map (fun x => if k == t then x - v else x) := by
  intro d
  induction d with
  | nil => simp [dget?]
  | cons p rest ih =>
      obtain ⟨k1, v1⟩ := p
      by_cases h1 : k1 = k
      · subst h1
        simp only [List.map_cons, if_pos (by simp : ((k1, v1).1 == k1) = true)]
        rw [dget?_cons, dget?_cons]
        by_cases h2 : k1 = t
        · subst h2
          rw [if_pos (by simp), if_pos (by simp)]
          simp
        · rw [if_neg (by simpa using h2), if_neg (by simpa using h2)]
          exact ih
      · simp only [List.map_cons,
          if_neg (by simpa using h1 : ¬ ((k1, v1).1 == k) = true)]
        rw [dget?_cons, dget?_cons]
        by_cases h2 : k1 = t
        · subst h2
          rw [if_pos (by simp), if_pos (by simp)]
          have hkt : (k == k1) = false := by
            simp only [beq_eq_false_iff_ne, ne_eq]
            exact fun he => h1 he.symm
          simp [hkt]
        · rw [if_neg (by simpa using h2), if_neg (by simpa using h2)]
          exact ih

theorem dsub_eq (d : List (String × ℚ)) (k : String) (v : ℚ)
    (h : dcontains d k = true) :
    dsub d k v =
      some (d.map (fun p => if p.1 == k then (p.1, p.2 - v) else p)) := by
  unfold dsub
  rw [if_pos h]

theorem dsub_contains (d d2 : List (String × ℚ)) (k : String) (v : ℚ)
    (h : dsub d k v = some d2) (t : String) :
    dcontains d2 t = dcontains d t := by
  unfold dsub at h
  split at h
  · simp only [Option.some.injEq] at h
    subst h
    rw [dcontains_eq_isSome, dcontains_eq_isSome, dget?_map_sub]
    cases dget? d t <;> simp
  · exact absurd h (by simp)

theorem dsub_getD_self (d d2 : List (String × ℚ)) (k : String) (v : ℚ)
    (h : dsub d k v = some d2) : dgetD d2 k 0 = dgetD d k 0 - v := by
  unfold dsub at h
  split at h
  · rename_i hc
    simp only [Option.some.injEq] at h
    subst h
    obtain ⟨x, hx⟩ := dcontains_some d k hc
    rw [dgetD, dgetD, dget?_map_sub, hx]
    simp
  · exact absurd h (by simp)

theorem dsub_getD_ne (d d2 : List (String × ℚ)) (k : String) (v : ℚ)
    (h : dsub d k v = some d2) (t : String) (hne : t ≠ k) :
    dgetD d2 t 0 = dgetD d t 0 := by
  unfold dsub at h
  split at h
  · simp only [Option.some.injEq] at h
    subst h
    have hkt : (k == t) = false := by
      simp only [beq_eq_false_iff_ne, ne_eq]
      exact fun he => hne he.symm
    rw [dgetD, dgetD, dget?_map_sub, hkt]
    cases dget? d t <;> simp
  · exact absurd h (by simp)

theorem sub_fold_total :
    ∀ (l pool : List (String × ℚ)),
      (∀ p ∈ l, dcontains pool p.1 = true) →
      ∃ pool2, l.foldlM (fun d p => dsub d p.1 p.2) pool = some pool2 ∧
        ∀ t, dcontains pool2 t = dcontains pool t := by
  intro l
  induction l with
  | nil =>
      intro pool _
      exact ⟨pool, rfl, fun t => rfl⟩
  | cons p rest ih =>
      intro pool h
      have hc := h p (List.mem_cons_self p rest)
      obtain ⟨pool1, h1⟩ : ∃ d2, dsub pool p.1 p.2 = some d2 :=
        ⟨_, dsub_eq pool p.1 p.2 hc⟩
      have hct := fun t => dsub_contains pool pool1 p.1 p.2 h1 t
      obtain ⟨pool2, h2, hct2⟩ := ih pool1
        (fun q hq => by rw [hct]; exact h q (List.mem_cons_of_mem p hq))
      refine ⟨pool2, ?_, fun t => by rw [hct2, hct]⟩
      rw [List.foldlM_cons, h1]
      simpa using h2

theorem sub_fold_getD :
    ∀ (l pool pool2 : List (String × ℚ)),
      (l.map (·.1)).Nodup →
      l.foldlM (fun d p => dsub d p.1 p.2) pool = some pool2 →
      ∀ t, dgetD pool2 t 0 = dgetD pool t 0 - dgetD l t 0 := by
  intro l
  induction l with
  | nil =>
      intro pool pool2 _ h t
      simp only [List.foldlM_nil, Option.pure_def, Option.some.injEq] at h
      subst h
      simp [dgetD, dget?]
  | cons p rest ih =>
      intro pool pool2 hnd h t
      simp only [List.map_cons, List.nodup_cons] at hnd
      rw [List.foldlM_cons] at h
      cases hs : dsub pool p.1 p.2 with
      | none => rw [hs] at h; exact absurd h (by simp)
      | some pool1 =>
          rw [hs] at h
          simp only [Option.bind_eq_bind, Option.some_bind] at h
          have hih := ih pool1 pool2 hnd.2 h t
          obtain ⟨k1, v1⟩ := p
          by_cases ht : t = k1
          · subst ht
            have hrest : dgetD rest t 0 = 0 := by
              rw [dgetD, dget?_none_of_not_contains rest t
                (not_contains_of_not_mem_keys rest t hnd.1)]
              rfl
            have hhead : dgetD ((t, v1) :: rest) t 0 = v1 := by
              rw [dgetD, dget?_cons, if_pos (by simp)]
              rfl
            rw [hih, hrest, dsub_getD_self pool pool1 t v1 hs, hhead]
            ring
          · have hne := dsub_getD_ne pool pool1 k1 v1 hs t ht
            have hhead : dgetD ((k1, v1) :: rest) t 0 = dgetD rest t 0 := by
              rw [dgetD, dget?_cons,
                if_neg (by simpa using fun he => ht he.symm)]
              rfl
            rw [hih, hne, hhead]

theorem bundle_fits_le (pool : List (String × ℚ)) (r : ResourceRequest)
    (h : SchedulingNode.bundle_fits pool r = true) :
    ∀ p ∈ r.resources_bundle, p.2 ≤ dgetD pool p.1 0 := by
  intro p hp
  unfold SchedulingNode.bundle_fits at h
  rw [List.all_eq_true] at h
  simpa using h p hp

theorem bundle_keys_contained (pool : List (String × ℚ)) (r : ResourceRequest)
    (hfits : SchedulingNode.bundle_fits pool r = true)
    (hpos : ∀ p ∈ r.resources_bundle, 0 < p.2) :
    ∀ p ∈ r.resources_bundle, dcontains pool p.1 = true := by
  intro p hp
  have h1 := bundle_fits_le pool r hfits p hp
  have h2 := hpos p hp
  cases hcc : dcontains pool p.1 with
  | true => rfl
  | false =>
      rw [dgetD, dget?_none_of_not_contains pool p.1 hcc] at h1
      simp only [Option.getD_none] at h1
      exact absurd h2 (not_lt.mpr h1)

theorem bundle_sub_total (pool : List (String × ℚ)) (r : ResourceRequest)
    (hfits : SchedulingNode.bundle_fits pool r = true)
    (hpos : ∀ p ∈ r.resources_bundle, 0 < p.2) :
    ∃ pool2, SchedulingNode.bundle_sub pool r = some pool2 ∧
      ∀ t, dcontains pool2 t = dcontains pool t :=
  sub_fold_total r.resources_bundle pool (bundle_keys_contained pool r hfits hpos)

/-- After a successful bundle subtraction, the pool still lies between `0`
and the totals, key by key. -/
theorem bundle_sub_good (pool pool2 total : List (String × ℚ)) (r : ResourceRequest)
    (hfits : SchedulingNode.bundle_fits pool r = true)
    (hnd : (r.resources_bundle.map (·.1)).Nodup)
    (hpos : ∀ p ∈ r.resources_bundle, 0 < p.2)
    (hsub : SchedulingNode.bundle_sub pool r = some pool2)
    (hgood : ∀ k, dcontains pool k = true →
      0 ≤ dgetD pool k 0 ∧ dgetD pool k 0 ≤ dgetD total k 0)
    (k : String) (hk : dcontains pool2 k = true) :
    0 ≤ dgetD pool2 k 0 ∧ dgetD pool2 k 0 ≤ dgetD total k 0 := by
  obtain ⟨pool2', hsub', hct⟩ := bundle_sub_total pool r hfits hpos
  rw [hsub'] at hsub
  have heq : pool2' = pool2 := by simpa using hsub
  rw [heq] at hsub' hct
  rw [hct k] at hk
  have hold := hgood k hk
  have hgd := sub_fold_getD r.resources_bundle pool pool2 hnd hsub' k
  cases hcb : dcontains r.resources_bundle k with
  | false =>
      have : dgetD r.resources_bundle k 0 = 0 := by
        rw [dgetD, dget?_none_of_not_contains _ k hcb]
        rfl
      rw [hgd, this]
      constructor
      · linarith [hold.1]
      · linarith [hold.2]
  | true =>
      obtain ⟨amt, hamt⟩ := dcontains_some _ k hcb
      have hmem := dget?_mem _ k amt hamt
      have hle := bundle_fits_le pool r hfits (k, amt) hmem
      have hgt := hpos (k, amt) hmem
      have : dgetD r.resources_bundle k 0 = amt := by rw [dgetD, hamt]; rfl
      rw [hgd, this]
      constructor
      · linarith
      · linarith [hold.2]

theorem good_node_bound (n : SchedulingNode) (hn : good_node n) (k : String)
    (hc : dcontains n.available_resources k = true) :
    0 ≤ dgetD n.available_resources k 0 ∧
      dgetD n.available_resources k 0 ≤ dgetD n.total_resources k 0 := by
  obtain ⟨v, hv⟩ := dcontains_some _ k hc
  exact hn.2.2 (k, v) (dget?_mem _ k v hv)

/-! ## Totality helpers: one scheduling attempt on one node -/

theorem imprint_labels_nil (n : SchedulingNode) (r : ResourceRequest)
    (h : r.placement_constraints = []) :
    SchedulingNode.imprint_labels n r = some n := by
  unfold SchedulingNode.imprint_labels
  rw [h]
  rfl

theorem try_schedule_one_total (n : SchedulingNode) (r : ResourceRequest) (c : Bool)
    (hn : good_node n) (hr : good_req r) :
    ∃ pr, n.try_schedule_one r c = some pr ∧ good_node pr.1 ∧
      pr.1.node_type = n.node_type := by
  obtain ⟨hpc, hnd, hpos⟩ := hr
  have hva : SchedulingNode.violates_anti_affinity n r = false := by
    unfold SchedulingNode.violates_anti_affinity
    rw [hpc]
    rfl
  simp only [SchedulingNode.try_schedule_one, hva]
  rw [if_neg Bool.false_ne_true]
  cases c with
  | true =>
      rw [if_pos rfl]
      by_cases hf : SchedulingNode.bundle_fits
          n.available_resources_for_constraints r = true
      · rw [if_pos hf]
        obtain ⟨pool2, hsub, _⟩ := bundle_sub_total _ r hf hpos
        rw [hsub]
        simp only [Option.bind_eq_bind, Option.some_bind]
        rw [imprint_labels_nil _ r hpc]
        simp only [Option.some_bind]
        exact ⟨_, rfl, ⟨hn.1, hn.2.1, hn.2.2⟩, rfl⟩
      · rw [if_neg hf]
        exact ⟨(n, false), rfl, hn, rfl⟩
  | false =>
      rw [if_neg Bool.false_ne_true]
      by_cases hf : SchedulingNode.bundle_fits n.available_resources r = true
      · rw [if_pos hf]
        obtain ⟨pool2, hsub, hct⟩ := bundle_sub_total _ r hf hpos
        rw [hsub]
        simp only [Option.bind_eq_bind, Option.some_bind]
        rw [imprint_labels_nil _ r hpc]
        simp only [Option.some_bind]
        refine ⟨_, rfl, ⟨hn.1, hn.2.1, ?_⟩, rfl⟩
        intro p hp
        exact bundle_sub_good n.available_resources pool2 n.total_resources r
          hf hnd hpos hsub (fun k hk => good_node_bound n hn k hk) p.1
          (dcontains_of_mem pool2 p hp)
      · rw [if_neg hf]
        exact ⟨(n, false), rfl, hn, rfl⟩

theorem score_fold_total (n : SchedulingNode) (hn : good_node n) :
    ∀ (l : List (String × ℚ)) (acc : List ℚ),
      (∀ p ∈ l, p ∈ n.total_resources) →
      ∃ out, l.foldlM
        (fun (acc : List ℚ) p =>
          if p.2 = 0 then some acc
          else if dcontains n.available_resources p.1 then
            let util := (p.2 - dgetD n.available_resources p.1 0) / p.2
            if 0 ≤ util ∧ util ≤ 1 then some (acc ++ [util]) else none
          else some acc)
        acc = some out := by
  intro l
  induction l with
  | nil => intro acc _; exact ⟨acc, rfl⟩
  | cons p rest ih =>
      intro acc hmem
      have hp := hmem p (List.mem_cons_self p rest)
      rw [List.foldlM_cons]
      by_cases h0 : p.2 = 0
      · rw [if_pos h0]
        obtain ⟨out, hout⟩ := ih acc (fun q hq => hmem q (List.mem_cons_of_mem p hq))
        refine ⟨out, ?_⟩
        simp only [Option.bind_eq_bind, Option.some_bind]
        exact hout
      · rw [if_neg h0]
        cases hc : dcontains n.available_resources p.1 with
        | false =>
            rw [if_neg (by simp [hc])]
            obtain ⟨out, hout⟩ := ih acc
              (fun q hq => hmem q (List.mem_cons_of_mem p hq))
            refine ⟨out, ?_⟩
            simp only [Option.bind_eq_bind, Option.some_bind]
            exact hout
        | true =>
            rw [if_pos (by simp [hc])]
            have hb := good_node_bound n hn p.1 hc
            have htv : dgetD n.total_resources p.1 0 = p.2 := by
              rw [dgetD, dget?_of_mem_nodup n.total_resources p.1 p.2 hn.1
                (by simpa using hp)]
              rfl
            have hppos : 0 < p.2 := lt_of_le_of_ne (hn.2.1 p hp) (Ne.symm h0)
            have hu : 0 ≤ (p.2 - dgetD n.available_resources p.1 0) / p.2 ∧
                (p.2 - dgetD n.available_resources p.1 0) / p.2 ≤ 1 := by
              constructor
              · apply div_nonneg _ (le_of_lt hppos)
                rw [htv] at hb
                linarith [hb.2]
              · rw [div_le_one hppos]
                linarith [hb.1]
            rw [if_pos hu]
            obtain ⟨out, hout⟩ := ih (acc ++ [(p.2 - dgetD n.available_resources p.1 0) / p.2])
              (fun q hq => hmem q (List.mem_cons_of_mem p hq))
            refine ⟨out, ?_⟩
            simp only [Option.bind_eq_bind, Option.some_bind]
            exact hout

theorem compute_score_total (n : SchedulingNode) (hn : good_node n) :
    ∃ s, n.compute_score = some s := by
  simp only [SchedulingNode.compute_score, Option.pure_def, Option.bind_eq_bind]
  obtain ⟨out, hout⟩ := score_fold_total n hn n.total_resources [] (fun p hp => hp)
  rw [hout]
  simp only [Option.some_bind]
  exact ⟨_, rfl⟩

theorem try_fold_total (c : Bool) :
    ∀ (l : List ResourceRequest) (st : SchedulingNode × List ResourceRequest),
      good_node st.1 → (∀ r ∈ l, good_req r) →
      ∃ st2, l.foldlM (SchedulingNode.try_step c) st = some st2 ∧ good_node st2.1 ∧
        st2.1.node_type = st.1.node_type ∧
        ∀ x ∈ st2.2, x ∈ st.2 ∨ x ∈ l := by
  intro l
  induction l with
  | nil =>
      intro st hst _
      exact ⟨st, rfl, hst, rfl, fun x hx => Or.inl hx⟩
  | cons r rest ih =>
      intro st hst hl
      obtain ⟨pr, hone, hg, hnt⟩ := try_schedule_one_total st.1 r c hst
        (hl r (List.mem_cons_self r rest))
      rw [List.foldlM_cons]
      have hstep : SchedulingNode.try_step c st r =
          some (pr.1, if pr.2 then st.2 else st.2 ++ [r]) := by
        unfold SchedulingNode.try_step
        rw [hone]
        rfl
      rw [hstep]
      simp only [Option.bind_eq_bind, Option.some_bind]
      obtain ⟨st2, hfold, hg2, hnt2, hmem2⟩ := ih
        (pr.1, if pr.2 then st.2 else st.2 ++ [r]) hg
        (fun q hq => hl q (List.mem_cons_of_mem r hq))
      refine ⟨st2, hfold, hg2, by rw [hnt2]; exact hnt, ?_⟩
      intro x hx
      rcases hmem2 x hx with h1 | h1
      · cases hp2 : pr.2 with
        | true =>
            rw [hp2] at h1
            simp only [if_pos rfl] at h1
            exact Or.inl h1
        | false =>
            rw [hp2] at h1
            simp only [Bool.false_eq_true, if_false] at h1
            rcases List.mem_append.mp h1 with h2 | h2
            · exact Or.inl h2
            · simp only [List.mem_singleton] at h2
              subst h2
              exact Or.inr (List.mem_cons_self x rest)
      · exact Or.inr (List.mem_cons_of_mem r h1)

theorem try_schedule_total (n : SchedulingNode) (reqs : List ResourceRequest)
    (c : Bool) (hn : good_node n) (hreqs : ∀ r ∈ reqs, good_req r) :
    ∃ out, n.try_schedule reqs c = some out ∧ good_node out.1 ∧
      out.1.node_type = n.node_type ∧ ∀ x ∈ out.2.1, x ∈ reqs := by
  simp only [SchedulingNode.try_schedule, Option.pure_def, Option.bind_eq_bind]
  obtain ⟨st2, hfold, hg, hnt, hmem⟩ := try_fold_total c reqs (n, []) hn hreqs
  obtain ⟨n2, un⟩ := st2
  rw [hfold]
  simp only [Option.some_bind]
  obtain ⟨s, hs⟩ := compute_score_total n2 hg
  rw [hs]
  simp only [Option.some_bind]
  refine ⟨(n2, un, s), rfl, hg, hnt, ?_⟩
  intro x hx
  rcases hmem x hx with h1 | h1
  · simp at h1
  · exact h1

/-! ## Totality helpers: the greedy bin-packer -/

theorem best_results_total (reqs : List ResourceRequest) (c : Bool)
    (hreqs : ∀ r ∈ reqs, good_req r) :
    ∀ (nodes : List SchedulingNode) (idx : Nat), (∀ n ∈ nodes, good_node n) →
      ∃ results, best_results reqs c idx nodes = some results ∧
        ∀ res ∈ results, good_node res.node ∧
          (∃ m ∈ nodes, res.node.node_type = m.node_type) ∧
          ∀ x ∈ res.infeasible_requests, x ∈ reqs := by
  intro nodes
  induction nodes with
  | nil => intro idx _; exact ⟨[], rfl, by simp⟩
  | cons n ns ih =>
      intro idx hg
      obtain ⟨out, hts, hgo, hnt, hmem⟩ := try_schedule_total n reqs c
        (hg n (List.mem_cons_self n ns)) hreqs
      obtain ⟨n2, rem, score⟩ := out
      obtain ⟨results, hrest, hprops⟩ := ih (idx + 1)
        (fun m hm => hg m (List.mem_cons_of_mem n hm))
      simp only [best_results, Option.pure_def, Option.bind_eq_bind]
      rw [hts]
      simp only [Option.some_bind]
      rw [hrest]
      simp only [Option.some_bind]
      by_cases hlen : rem.length = reqs.length
      · rw [if_pos hlen]
        refine ⟨results, rfl, fun res hres => ?_⟩
        obtain ⟨h1, ⟨m, hm, h2⟩, h3⟩ := hprops res hres
        exact ⟨h1, ⟨m, List.mem_cons_of_mem n hm, h2⟩, h3⟩
      · rw [if_neg hlen]
        refine ⟨⟨n2, rem, idx, score⟩ :: results, rfl, fun res hres => ?_⟩
        rcases List.mem_cons.mp hres with h1 | h1
        · subst h1
          exact ⟨hgo, ⟨n, List.mem_cons_self n ns, hnt⟩, hmem⟩
        · obtain ⟨h2, ⟨m, hm, h3⟩, h4⟩ := hprops res h1
          exact ⟨h2, ⟨m, List.mem_cons_of_mem n hm, h3⟩, h4⟩

theorem sched_best_node_total (reqs : List ResourceRequest)
    (nodes : List SchedulingNode) (c : Bool)
    (hreqs : ∀ r ∈ reqs, good_req r) (hg : ∀ n ∈ nodes, good_node n) :
    ∃ out, sched_best_node reqs nodes c = some out ∧
      (∀ bn rem, out.1 = some (bn, rem) →
        good_node bn ∧ (∃ m ∈ nodes, bn.node_type = m.node_type) ∧
        ∀ x ∈ rem, x ∈ reqs) ∧
      ∀ n ∈ out.2, n ∈ nodes := by
  obtain ⟨results, hbr, hprops⟩ := best_results_total reqs c hreqs nodes 0 hg
  simp only [sched_best_node, Option.pure_def, Option.bind_eq_bind]
  rw [hbr]
  simp only [Option.some_bind]
  cases results with
  | nil => exact ⟨(none, nodes), rfl, by simp, fun n hn => hn⟩
  | cons r rs =>
      cases hsort : (r :: rs).insertionSort result_order with
      | nil => exact ⟨(none, nodes), rfl, by simp, fun n hn => hn⟩
      | cons best rest =>
          refine ⟨(some (best.node, best.infeasible_requests),
            nodes.eraseIdx best.idx), rfl, ?_, ?_⟩
          · intro bn rem h
            simp only [Option.some.injEq, Prod.mk.injEq] at h
            have hbm : best ∈ r :: rs := by
              have hms : best ∈ (r :: rs).insertionSort result_order := by
                rw [hsort]
                exact List.mem_cons_self best rest
              exact (List.perm_insertionSort result_order (r :: rs)).mem_iff.mp hms
            obtain ⟨hgb, hmb, hrb⟩ := hprops best hbm
            refine ⟨by rw [← h.1]; exact hgb, ?_, ?_⟩
            · obtain ⟨m, hm, he⟩ := hmb
              exact ⟨m, hm, by rw [← h.1]; exact he⟩
            · intro x hx
              rw [← h.2] at hx
              exact hrb x hx
          · intro n hn
            exact List.Sublist.subset (List.eraseIdx_sublist nodes best.idx) hn

theorem sched_existing_total (c : Bool) :
    ∀ (fuel : Nat) (reqs : List ResourceRequest) (ex tg : List SchedulingNode),
      (∀ r ∈ reqs, good_req r) → (∀ n ∈ ex, good_node n) →
      (∀ n ∈ tg, good_node n) →
      ∃ out, sched_existing c fuel reqs ex tg = some out ∧
        (∀ r ∈ out.1, r ∈ reqs) ∧ (∀ n ∈ out.2.1, n ∈ ex) ∧
        ∀ n ∈ out.2.2, good_node n := by
  intro fuel
  induction fuel with
  | zero =>
      intro reqs ex tg _ _ htg
      exact ⟨(reqs, ex, tg), rfl, fun r hr => hr, fun n hn => hn, htg⟩
  | succ fuel ih =>
      intro reqs ex tg hreqs hex htg
      rw [sched_existing]
      by_cases hcond : reqs.length = 0 ∨ ex.length = 0
      · rw [if_pos hcond]
        exact ⟨(reqs, ex, tg), rfl, fun r hr => hr, fun n hn => hn, htg⟩
      · rw [if_neg hcond]
        obtain ⟨bout, hsb, hsome, hsub⟩ := sched_best_node_total reqs ex c hreqs hex
        obtain ⟨o, ns⟩ := bout
        rw [hsb]
        cases o with
        | none =>
            exact ⟨(reqs, ns, tg), rfl, fun r hr => hr,
              fun n hn => hsub n hn, htg⟩
        | some pr =>
            obtain ⟨bn, rem⟩ := pr
            obtain ⟨hgb, _, hrem⟩ := hsome bn rem rfl
            obtain ⟨out, hrec, hm1, hm2, hm3⟩ := ih rem ns (tg ++ [bn])
              (fun r hr => hreqs r (hrem r hr))
              (fun n hn => hex n (hsub n hn))
              (fun n hn => by
                rcases List.mem_append.mp hn with h | h
                · exact htg n h
                · simp only [List.mem_singleton] at h
                  subst h
                  exact hgb)
            exact ⟨out, hrec, fun r hr => hrem r (hm1 r hr),
              fun n hn => hsub n (hm2 n hn), hm3⟩

theorem from_node_config_good (cfg : NodeTypeConfig) (st : SchedulingNodeStatus)
    (oid : Option String) (h : good_cfg cfg) :
    good_node (SchedulingNode.from_node_config cfg st oid) := by
  refine ⟨h.1, h.2, ?_⟩
  intro p hp
  have hc := dcontains_of_mem cfg.resources p hp
  obtain ⟨v, hv⟩ := dcontains_some _ p.1 hc
  have hvnn := h.2 (p.1, v) (dget?_mem _ p.1 v hv)
  constructor
  · show 0 ≤ dgetD cfg.resources p.1 0
    rw [dgetD, hv]
    exact hvnn
  · exact le_refl _

theorem mem_dset {α : Type} (d : List (String × α)) (k : String) (v : α)
    (q : String × α) (h : q ∈ dset d k v) : q ∈ d ∨ q.1 = k := by
  unfold dset at h
  split at h
  · obtain ⟨p, hp, he⟩ := List.mem_map.mp h
    by_cases hk : (p.1 == k) = true
    · rw [if_pos hk] at he
      right
      rw [← he]
      simpa using hk
    · rw [if_neg hk] at he
      left
      rw [← he]
      exact hp
  · rcases List.mem_append.mp h with h1 | h1
    · exact Or.inl h1
    · simp only [List.mem_singleton] at h1
      right
      rw [h1]

theorem mem_foldl_dset {β γ : Type} (g : String × β → γ) :
    ∀ (l : List (String × β)) (d : List (String × γ)) (q : String × γ),
      q ∈ l.foldl (fun acc p => dset acc p.1 (g p)) d →
      q ∈ d ∨ ∃ p ∈ l, q.1 = p.1 := by
  intro l
  induction l with
  | nil => intro d q h; exact Or.inl h
  | cons p rest ih =>
      intro d q h
      rw [List.foldl_cons] at h
      rcases ih (dset d p.1 (g p)) q h with h1 | h1
      · rcases mem_dset d p.1 (g p) q h1 with h2 | h2
        · exact Or.inl h2
        · exact Or.inr ⟨p, List.mem_cons_self p rest, h2⟩
      · obtain ⟨p2, hp2, he⟩ := h1
        exact Or.inr ⟨p2, List.mem_cons_of_mem p hp2, he⟩

theorem compute_available_mem (nodes : List SchedulingNode)
    (cfgs : List (String × NodeTypeConfig)) (q : String × Int)
    (h : q ∈ compute_available_node_types nodes cfgs) :
    dcontains cfgs q.1 = true := by
  simp only [compute_available_node_types] at h
  rcases mem_foldl_dset _ cfgs [] q h with h1 | h1
  · simp at h1
  · obtain ⟨p, hp, he⟩ := h1
    rw [he]
    exact dcontains_of_mem cfgs p hp

theorem node_pools_total (cfgs : List (String × NodeTypeConfig))
    (hcfgs : ∀ p ∈ cfgs, good_cfg p.2)
    (hname : ∀ k cfg, dget? cfgs k = some cfg → cfg.name = k) :
    ∀ l : List (String × Int),
      (∀ p ∈ l, dcontains cfgs p.1 = true) →
      ∃ pool, l.mapM (fun p => (dget? cfgs p.1).map
          (fun cfg => SchedulingNode.from_node_config cfg .TO_LAUNCH)) =
            some pool ∧
        ∀ n ∈ pool, good_node n ∧ dcontains cfgs n.node_type = true := by
  intro l
  induction l with
  | nil => exact fun _ => ⟨[], rfl, by simp⟩
  | cons p rest ih =>
      intro h
      obtain ⟨cfg, hcfg⟩ := dcontains_some cfgs p.1 (h p (List.mem_cons_self p rest))
      obtain ⟨pool, hpool, hprops⟩ := ih (fun q hq => h q (List.mem_cons_of_mem p hq))
      rw [List.mapM_cons, hcfg, hpool]
      refine ⟨SchedulingNode.from_node_config cfg .TO_LAUNCH :: pool, ?_, ?_⟩
      · simp only [Option.map_some', Option.bind_eq_bind, Option.some_bind,
          Option.pure_def]
      · intro n hn
        rcases List.mem_cons.mp hn with h1 | h1
        · subst h1
          refine ⟨from_node_config_good cfg _ _
            (hcfgs (p.1, cfg) (dget?_mem _ p.1 cfg hcfg)), ?_⟩
          show dcontains cfgs cfg.name = true
          rw [hname p.1 cfg hcfg]
          exact h p (List.mem_cons_self p rest)
        · exact hprops n h1

theorem sched_new_total (cfgs : List (String × NodeTypeConfig))
    (mx : Option Nat) (c : Bool)
    (hcfgs : ∀ p ∈ cfgs, good_cfg p.2)
    (hname : ∀ k cfg, dget? cfgs k = some cfg → cfg.name = k) :
    ∀ (fuel : Nat) (reqs : List ResourceRequest)
      (pool tg : List SchedulingNode) (avail : List (String × Int)),
      (∀ r ∈ reqs, good_req r) →
      (∀ n ∈ pool, good_node n ∧ dcontains cfgs n.node_type = true) →
      (∀ n ∈ tg, good_node n) →
      ∃ out, sched_new cfgs mx c fuel reqs pool tg avail = some out ∧
        ∀ n ∈ out.2, good_node n := by
  intro fuel
  induction fuel with
  | zero =>
      intro reqs pool tg avail _ _ htg
      exact ⟨(reqs, tg), rfl, htg⟩
  | succ fuel ih =>
      intro reqs pool tg avail hreqs hpool htg
      rw [sched_new]
      by_cases h1 : reqs.length = 0 ∨ pool.length = 0
      · rw [if_pos h1]
        exact ⟨(reqs, tg), rfl, htg⟩
      · rw [if_neg h1]
        by_cases h2 : sched_new_guard mx tg.length = true
        · rw [if_pos h2]
          exact ⟨(reqs, tg), rfl, htg⟩
        · rw [if_neg h2]
          obtain ⟨bout, hsb, hsome, hsub⟩ := sched_best_node_total reqs pool c
            hreqs (fun n hn => (hpool n hn).1)
          obtain ⟨o, pool2⟩ := bout
          cases o with
          | none =>
              simp only [hsb]
              exact ⟨(reqs, tg), rfl, htg⟩
          | some pr =>
              obtain ⟨bn, rem⟩ := pr
              simp only [hsb]
              obtain ⟨hgb, hm, hrem⟩ := hsome bn rem rfl
              obtain ⟨m, hmmem, hmtype⟩ := hm
              have hcont : dcontains cfgs bn.node_type = true := by
                rw [hmtype]
                exact (hpool m hmmem).2
              obtain ⟨cfg2, hcfg2⟩ := dcontains_some cfgs bn.node_type hcont
              have htg2 : ∀ n ∈ tg ++ [bn], good_node n := fun n hn => by
                rcases List.mem_append.mp hn with h | h
                · exact htg n h
                · simp only [List.mem_singleton] at h
                  subst h
                  exact hgb
              have hreqs2 : ∀ r ∈ rem, good_req r :=
                fun r hr => hreqs r (hrem r hr)
              have hpool2 : ∀ n ∈ pool2,
                  good_node n ∧ dcontains cfgs n.node_type = true :=
                fun n hn => hpool n (hsub n hn)
              by_cases h3 : 0 < dgetD (dincr avail bn.node_type (-1) 0) bn.node_type 0
              · rw [if_pos h3]
                simp only [hcfg2]
                refine ih rem
                  (pool2 ++ [SchedulingNode.from_node_config cfg2 .TO_LAUNCH])
                  (tg ++ [bn]) (dincr avail bn.node_type (-1) 0) hreqs2
                  (fun n hn => ?_) htg2
                rcases List.mem_append.mp hn with h | h
                · exact hpool2 n h
                · simp only [List.mem_singleton] at h
                  subst h
                  refine ⟨from_node_config_good cfg2 _ _
                    (hcfgs (bn.node_type, cfg2) (dget?_mem _ _ _ hcfg2)), ?_⟩
                  show dcontains cfgs cfg2.name = true
                  rw [hname bn.node_type cfg2 hcfg2]
                  exact hcont
              · rw [if_neg h3]
                exact ih rem pool2 (tg ++ [bn])
                  (dincr avail bn.node_type (-1) 0) hreqs2 hpool2 htg2

theorem try_schedule_ctx_total (ctx : ScheduleContext)
    (reqs : List ResourceRequest) (c : Bool)
    (hcoh : ctx.node_type_available =
      compute_available_node_types ctx.nodes ctx.node_type_configs)
    (hcfgs : ∀ p ∈ ctx.node_type_configs, good_cfg p.2)
    (hname : ∀ k cfg, dget? ctx.node_type_configs k = some cfg → cfg.name = k)
    (hnodes : ∀ n ∈ ctx.nodes, good_node n)
    (hreqs : ∀ r ∈ reqs, good_req r) :
    ∃ out, try_schedule_ctx ctx reqs c = some out ∧
      ∀ n ∈ out.1, good_node n := by
  simp only [try_schedule_ctx, Option.pure_def, Option.bind_eq_bind]
  have hsorted : ∀ r ∈ reqs.insertionSort request_order, good_req r :=
    fun r hr => hreqs r
      ((List.perm_insertionSort request_order reqs).mem_iff.mp hr)
  obtain ⟨out1, hse, hm1, hm2, hm3⟩ := sched_existing_total c
    (reqs.insertionSort request_order).length (reqs.insertionSort request_order)
    ctx.nodes [] hsorted hnodes (by simp)
  obtain ⟨reqs1, ex2, tgt1⟩ := out1
  rw [hse]
  simp only [Option.some_bind]
  obtain ⟨pool, hpool, hpprops⟩ := node_pools_total ctx.node_type_configs
    hcfgs hname (ctx.node_type_available.filter (fun p => 0 < p.2))
    (fun p hp => by
      have hmem := List.mem_of_mem_filter hp
      rw [hcoh] at hmem
      exact compute_available_mem ctx.nodes ctx.node_type_configs p hmem)
  rw [hpool]
  simp only [Option.some_bind]
  have htg2 : ∀ n ∈ tgt1 ++ ex2, good_node n := fun n hn => by
    rcases List.mem_append.mp hn with h | h
    · exact hm3 n h
    · exact hnodes n (hm2 n h)
  obtain ⟨out2, hsn, hout2⟩ := sched_new_total ctx.node_type_configs
    ctx.max_num_nodes c hcfgs hname reqs1.length reqs1 pool (tgt1 ++ ex2)
    ctx.node_type_available (fun r hr => hsorted r (hm1 r hr)) hpprops htg2
  obtain ⟨reqs2, target3⟩ := out2
  rw [hsn]
  simp only [Option.some_bind]
  exact ⟨(target3, reqs2), rfl, hout2⟩

/-! ## Totality helpers: goodness through the pure phases -/

theorem good_mark_to_terminate (now : Nat) (cause : TerminationCause)
    (a b : Option Nat) (n : SchedulingNode) (hn : good_node n) :
    good_node (mark_to_terminate now cause a b n) := hn

theorem good_mark_outdated (now : Nat) (n : SchedulingNode)
    (hn : good_node n) : good_node (mark_outdated now n) := hn

theorem good_mark_idle (now : Nat) (n : SchedulingNode)
    (hn : good_node n) : good_node (mark_idle now n) := hn

theorem foldl_good_inv {β : Type} (l0 : List β)
    (f : List SchedulingNode → β → List SchedulingNode)
    (hf : ∀ acc b, b ∈ l0 → (∀ n ∈ acc, good_node n) →
      ∀ n ∈ f acc b, good_node n) :
    ∀ l : List β, (∀ b ∈ l, b ∈ l0) →
      ∀ acc : List SchedulingNode, (∀ n ∈ acc, good_node n) →
      ∀ n ∈ l.foldl f acc, good_node n := by
  intro l
  induction l with
  | nil => intro _ acc h; exact h
  | cons b rest ih =>
      intro hl acc h
      rw [List.foldl_cons]
      exact ih (fun x hx => hl x (List.mem_cons_of_mem b hx)) (f acc b)
        (hf acc b (hl b (List.mem_cons_self b rest)) h)

theorem from_schedule_request_good (req : SchedulingRequest)
    (hcfgs : ∀ p ∈ req.node_type_configs, good_cfg p.2)
    (hrays : ∀ inst ∈ req.current_instances, ∀ rn,
      inst.ray_node = some rn → good_ray rn) :
    ∀ n ∈ (from_schedule_request req).nodes, good_node n := by
  intro n hn
  refine foldl_good_inv req.current_instances _ ?_ req.current_instances
    (fun b hb => hb) [] (by simp) n hn
  intro acc inst hmem hacc m hm
  cases hray : inst.ray_node with
  | some rn =>
      rw [hray] at hm
      rcases List.mem_append.mp hm with h1 | h1
      · exact hacc m h1
      · simp only [List.mem_singleton] at h1
        subst h1
        have hg := hrays inst hmem rn hray
        exact ⟨hg.1, hg.2.1, hg.2.2⟩
  | none =>
      rw [hray] at hm
      cases him : inst.im_instance with
      | none => rw [him] at hm; exact hacc m hm
      | some im =>
          simp only [him] at hm
          cases hreach : is_ray_running_reachable im.status with
          | false =>
              rw [hreach] at hm
              rw [if_neg Bool.false_ne_true] at hm
              exact hacc m hm
          | true =>
              rw [hreach] at hm
              rw [if_pos rfl] at hm
              cases hget : dget? req.node_type_configs im.instance_type with
              | none => rw [hget] at hm; exact hacc m hm
              | some node_config =>
                  rw [hget] at hm
                  rcases List.mem_append.mp hm with h1 | h1
                  · exact hacc m h1
                  · simp only [List.mem_singleton] at h1
                    subst h1
                    exact from_node_config_good node_config _ _
                      (hcfgs (im.instance_type, node_config)
                        (dget?_mem _ _ _ hget))

theorem terminate_outdated_good (now : Nat) (ctx : ScheduleContext)
    (h : ∀ n ∈ ctx.nodes, good_node n) :
    ∀ n ∈ (terminate_outdated_nodes now ctx).nodes, good_node n := by
  intro n hn
  obtain ⟨m, hm, he⟩ := List.mem_map.mp hn
  rw [← he]
  unfold outdated_step
  split
  · exact good_mark_outdated now m (h m hm)
  · exact h m hm

theorem enforce_min_good (ctx : ScheduleContext)
    (hcfgs : ∀ p ∈ ctx.node_type_configs, good_cfg p.2)
    (h : ∀ n ∈ ctx.nodes, good_node n) :
    ∀ n ∈ (enforce_min_workers_per_type ctx).nodes, good_node n := by
  intro n hn
  rcases List.mem_append.mp hn with h1 | h1
  · refine foldl_good_inv ctx.node_type_configs _ ?_ ctx.node_type_configs
      (fun b hb => hb) [] (by simp) n h1
    intro acc p hp hacc m hm
    simp only at hm
    split at hm
    · rcases List.mem_append.mp hm with h2 | h2
      · exact hacc m h2
      · have := List.eq_of_mem_replicate h2
        subst this
        exact from_node_config_good p.2 _ _ (hcfgs p hp)
    · exact hacc m hm
  · exact h n h1

theorem enforce_idle_good (now : Nat) (ctx : ScheduleContext)
    (h : ∀ n ∈ ctx.nodes, good_node n) :
    ∀ n ∈ (enforce_idle_termination now ctx).nodes, good_node n := by
  intro n hn
  obtain ⟨m, hm, he⟩ := List.mem_map.mp hn
  rw [← he]
  unfold idle_step
  split
  · exact h m hm
  · split
    · exact h m hm
    · split
      · exact h m hm
      · split
        · exact h m hm
        · exact good_mark_idle now m (h m hm)

/-! ## Totality helpers: node-count conservation in phases 3 and 4 -/

theorem select_total (now : Nat) (ns : List SchedulingNode) (k : Nat)
    (cause : TerminationCause) (a b : Option Nat)
    (hc : cause = .MAX_NUM_NODES ∨ cause = .MAX_NUM_NODE_PER_TYPE) :
    ∃ pr, select_nodes_to_terminate now ns k cause a b = some pr ∧
      pr.1.length + pr.2.length = ns.length ∧
      ((∀ n ∈ ns, good_node n) →
        (∀ n ∈ pr.1, good_node n) ∧ ∀ n ∈ pr.2, good_node n) := by
  simp only [select_nodes_to_terminate]
  rw [if_pos hc]
  have hsl : (ns.insertionSort termination_le).length = ns.length :=
    (List.perm_insertionSort termination_le ns).length_eq
  refine ⟨_, rfl, ?_, ?_⟩
  · show (((ns.insertionSort termination_le).take k).map
        (mark_to_terminate now cause a b)).length +
      ((ns.insertionSort termination_le).drop k).length = ns.length
    have h2 := congrArg List.length
      (List.take_append_drop k (ns.insertionSort termination_le))
    rw [List.length_append] at h2
    rw [List.length_map]
    omega
  · intro h
    have hsorted : ∀ n ∈ ns.insertionSort termination_le, good_node n :=
      fun n hn => h n
        ((List.perm_insertionSort termination_le ns).mem_iff.mp hn)
    constructor
    · intro n hn
      obtain ⟨m, hm, he⟩ := List.mem_map.mp hn
      rw [← he]
      exact good_mark_to_terminate now cause a b m
        (hsorted m (List.take_subset k _ hm))
    · intro n hn
      exact hsorted n (List.drop_subset k _ hn)

theorem filter_length_partition {α : Type} (p q : α → Bool)
    (hpq : ∀ x, q x = !(p x)) :
    ∀ l : List α, (l.filter p).length + (l.filter q).length = l.length := by
  intro l
  induction l with
  | nil => rfl
  | cons x t ih =>
      have hq := hpq x
      cases hp : p x with
      | true =>
          rw [hp] at hq
          simp only [List.filter_cons, hp, hq, Bool.not_true, if_true,
            Bool.false_eq_true, if_false, List.length_cons]
          omega
      | false =>
          rw [hp] at hq
          simp only [List.filter_cons, hp, hq, Bool.not_false, if_true,
            Bool.false_eq_true, if_false, List.length_cons]
          omega

theorem flatten_len {α β : Type} (g : List (β × List α)) :
    ∀ init : List α, (g.foldl (fun acc p => acc ++ p.2) init).length =
      init.length + ((g.map (fun p => p.2.length)).sum) := by
  induction g with
  | nil => intro init; simp
  | cons p rest ih =>
      intro init
      rw [List.foldl_cons, ih (init ++ p.2)]
      simp only [List.length_append, List.map_cons, List.sum_cons]
      omega

theorem flatten_mem {α β : Type} (g : List (β × List α)) :
    ∀ (init : List α) (x : α), x ∈ g.foldl (fun acc p => acc ++ p.2) init →
      x ∈ init ∨ ∃ p ∈ g, x ∈ p.2 := by
  induction g with
  | nil => intro init x h; exact Or.inl h
  | cons p rest ih =>
      intro init x h
      rw [List.foldl_cons] at h
      rcases ih (init ++ p.2) x h with h1 | h1
      · rcases List.mem_append.mp h1 with h2 | h2
        · exact Or.inl h2
        · exact Or.inr ⟨p, List.mem_cons_self p rest, h2⟩
      · obtain ⟨q, hq, hx⟩ := h1
        exact Or.inr ⟨q, List.mem_cons_of_mem p hq, hx⟩

theorem dcontains_cons {α : Type} (p : String × α) (d : List (String × α))
    (k : String) : dcontains (p :: d) k = ((p.1 == k) || dcontains d k) := by
  simp [dcontains]

theorem map_key_noop {α : Type} (k : String) (f : String × α → String × α) :
    ∀ d : List (String × α), dcontains d k = false →
      d.map (fun p => if p.1 == k then f p else p) = d := by
  intro d
  induction d with
  | nil => intro _; rfl
  | cons p rest ih =>
      intro h
      rw [dcontains_cons] at h
      simp only [Bool.or_eq_false_iff] at h
      rw [List.map_cons, if_neg (by simp [h.1]), ih h.2]

theorem dappend_sum_len {α : Type} (k : String) (v : α) :
    ∀ d : List (String × List α), (d.map (·.1)).Nodup →
      ((dappend d k v).map (fun p => p.2.length)).sum =
        ((d.map (fun p => p.2.length)).sum) + 1 := by
  intro d
  induction d with
  | nil =>
      intro _
      simp [dappend, dcontains]
  | cons p rest ih =>
      intro hnd
      simp only [List.map_cons, List.nodup_cons] at hnd
      unfold dappend
      rw [dcontains_cons]
      cases hpk : (p.1 == k) with
      | true =>
          simp only [Bool.true_or, if_true, List.map_cons, if_pos hpk]
          have hkr : dcontains rest k = false := by
            have : k ∉ rest.map (·.1) := by
              have hek : p.1 = k := by simpa using hpk
              rw [← hek]
              exact hnd.1
            exact not_contains_of_not_mem_keys rest k this
          rw [map_key_noop k _ rest hkr]
          simp only [List.map_cons, List.sum_cons, List.length_append,
            List.length_singleton]
          omega
      | false =>
          cases hcr : dcontains rest k with
          | true =>
              simp only [Bool.false_or, hcr, if_true, List.map_cons,
                if_neg (by simp [hpk] : ¬ (p.1 == k) = true)]
              have hres := ih hnd.2
              unfold dappend at hres
              rw [if_pos hcr] at hres
              simp only [List.map_cons, List.sum_cons]
              omega
          | false =>
              simp only [Bool.false_or, hcr, Bool.false_eq_true, if_false]
              simp only [List.map_append, List.sum_append, List.map_cons,
                List.sum_cons, List.map_nil, List.sum_nil,
                List.length_singleton]
              omega

theorem dappend_values_mem {α : Type} (d : List (String × List α)) (k : String)
    (v x : α) (g : String × List α) (hg : g ∈ dappend d k v) (hx : x ∈ g.2) :
    (∃ g2 ∈ d, x ∈ g2.2) ∨ x = v := by
  unfold dappend at hg
  split at hg
  · obtain ⟨p, hp, he⟩ := List.mem_map.mp hg
    by_cases hk : (p.1 == k) = true
    · rw [if_pos hk] at he
      rw [← he] at hx
      rcases List.mem_append.mp hx with h1 | h1
      · exact Or.inl ⟨p, hp, h1⟩
      · simp only [List.mem_singleton] at h1
        exact Or.inr h1
    · rw [if_neg hk] at he
      rw [← he] at hx
      exact Or.inl ⟨p, hp, hx⟩
  · rcases List.mem_append.mp hg with h1 | h1
    · exact Or.inl ⟨g, h1, hx⟩
    · simp only [List.mem_singleton] at h1
      rw [h1] at hx
      exact Or.inr (by simpa using hx)

theorem prod_fst_mk {α β : Type} (a : α) (b : β) : (a, b).1 = a := rfl

theorem prod_snd_mk {α β : Type} (a : α) (b : β) : (a, b).2 = b := rfl

theorem max_partition_facts :
    ∀ (nodes : List SchedulingNode)
      (st : List SchedulingNode × List (String × List SchedulingNode)),
      ((st.2.map (·.1)).Nodup) →
      (((nodes.foldl max_partition_step st).2.map (·.1)).Nodup) ∧
      ((nodes.foldl max_partition_step st).1.length +
        (((nodes.foldl max_partition_step st).2.map
          (fun p => p.2.length)).sum) =
        st.1.length + ((st.2.map (fun p => p.2.length)).sum) + nodes.length) ∧
      (∀ n ∈ (nodes.foldl max_partition_step st).1, n ∈ st.1 ∨ n ∈ nodes) ∧
      (∀ g ∈ (nodes.foldl max_partition_step st).2, ∀ n ∈ g.2,
        (∃ g2 ∈ st.2, n ∈ g2.2) ∨ n ∈ nodes) := by
  intro nodes
  induction nodes with
  | nil =>
      intro st h
      exact ⟨h, by simp, fun n hn => Or.inl hn,
        fun g hg n hn => Or.inl ⟨g, hg, hn⟩⟩
  | cons m rest ih =>
      intro st hnd
      rw [List.foldl_cons]
      by_cases hs : m.status = .TO_TERMINATE
      · have hstep : max_partition_step st m = (st.1 ++ [m], st.2) := by
          unfold max_partition_step
          rw [if_pos hs]
        rw [hstep]
        obtain ⟨f1, f2, f3, f4⟩ := ih (st.1 ++ [m], st.2) hnd
        refine ⟨f1, ?_, ?_, ?_⟩
        · have f2' : (List.foldl max_partition_step (st.1 ++ [m], st.2)
              rest).1.length +
              ((List.foldl max_partition_step (st.1 ++ [m], st.2) rest).2.map
                (fun p => p.2.length)).sum =
              (st.1 ++ [m]).length +
                ((st.2.map (fun p => p.2.length)).sum) + rest.length := f2
          rw [f2', List.length_append, List.length_singleton, List.length_cons]
          omega
        · intro n hn
          rcases f3 n hn with h1 | h1
          · rcases List.mem_append.mp h1 with h2 | h2
            · exact Or.inl h2
            · simp only [List.mem_singleton] at h2
              subst h2
              exact Or.inr (List.mem_cons_self n rest)
          · exact Or.inr (List.mem_cons_of_mem m h1)
        · intro g hg n hn
          rcases f4 g hg n hn with h1 | h1
          · exact Or.inl h1
          · exact Or.inr (List.mem_cons_of_mem m h1)
      · have hstep : max_partition_step st m =
            (st.1, dappend st.2 m.node_type m) := by
          unfold max_partition_step
          rw [if_neg hs]
        rw [hstep]
        have hnd2 : (((dappend st.2 m.node_type m).map (·.1)).Nodup) :=
          dappend_keys_nodup st.2 m.node_type m hnd
        obtain ⟨f1, f2, f3, f4⟩ := ih (st.1, dappend st.2 m.node_type m) hnd2
        refine ⟨f1, ?_, ?_, ?_⟩
        · have f2' : (List.foldl max_partition_step
              (st.1, dappend st.2 m.node_type m) rest).1.length +
              ((List.foldl max_partition_step
                (st.1, dappend st.2 m.node_type m) rest).2.map
                (fun p => p.2.length)).sum =
              st.1.length +
                (((dappend st.2 m.node_type m).map
                  (fun p => p.2.length)).sum) + rest.length := f2
          rw [f2', dappend_sum_len m.node_type m st.2 hnd, List.length_cons]
          omega
        · intro n hn
          rcases f3 n hn with h1 | h1
          · exact Or.inl h1
          · exact Or.inr (List.mem_cons_of_mem m h1)
        · intro g hg n hn
          rcases f4 g hg n hn with h1 | h1
          · obtain ⟨g2, hg2, hng⟩ := h1
            rcases dappend_values_mem st.2 m.node_type m n g2 hg2 hng with h2 | h2
            · exact Or.inl h2
            · subst h2
              exact Or.inr (List.mem_cons_self n rest)
          · exact Or.inr (List.mem_cons_of_mem m h1)

theorem max_per_type_step_total (now : Nat)
    (cfgs : List (String × NodeTypeConfig)) (ty : String)
    (ns : List SchedulingNode) :
    ∃ pr, max_per_type_step now cfgs ty ns = some pr ∧
      pr.1.length + pr.2.length = ns.length ∧
      ((∀ n ∈ ns, good_node n) →
        (∀ n ∈ pr.1, good_node n) ∧ ∀ n ∈ pr.2, good_node n) := by
  simp only [max_per_type_step]
  split
  · exact ⟨([], ns), rfl, by simp, fun h => ⟨by simp, h⟩⟩
  · exact select_total now ns _ .MAX_NUM_NODE_PER_TYPE none _ (Or.inr rfl)

theorem max_fold_total (now : Nat) (cfgs : List (String × NodeTypeConfig)) :
    ∀ (gl : List (String × List SchedulingNode))
      (st : List SchedulingNode × List (String × List SchedulingNode)),
      ∃ out, List.foldlM (max_fold_step now cfgs) st gl = some out ∧
        out.1.length + ((out.2.map (fun p => p.2.length)).sum) =
          st.1.length + ((st.2.map (fun p => p.2.length)).sum) +
            ((gl.map (fun p => p.2.length)).sum) ∧
        (((∀ n ∈ st.1, good_node n) ∧
          (∀ g ∈ st.2, ∀ n ∈ g.2, good_node n) ∧
          (∀ g ∈ gl, ∀ n ∈ g.2, good_node n)) →
          (∀ n ∈ out.1, good_node n) ∧
          ∀ g ∈ out.2, ∀ n ∈ g.2, good_node n) := by
  intro gl
  induction gl with
  | nil =>
      intro st
      exact ⟨st, rfl, by simp, fun h => ⟨h.1, h.2.1⟩⟩
  | cons g rest ih =>
      intro st
      obtain ⟨pr, hstep, hlen, hgood⟩ := max_per_type_step_total now cfgs g.1 g.2
      obtain ⟨t2, r2⟩ := pr
      rw [List.foldlM_cons]
      have hm : max_fold_step now cfgs st g =
          some (st.1 ++ t2, st.2 ++ [(g.1, r2)]) := by
        unfold max_fold_step
        rw [hstep]
        rfl
      rw [hm]
      simp only [Option.bind_eq_bind, Option.some_bind]
      obtain ⟨out, hfold, hl2, hg2⟩ := ih (st.1 ++ t2, st.2 ++ [(g.1, r2)])
      refine ⟨out, hfold, ?_, ?_⟩
      · have hlen' : t2.length + r2.length = g.2.length := hlen
        have hl2' : out.1.length +
            ((out.2.map (fun p => p.2.length)).sum) =
            (st.1 ++ t2).length +
              (((st.2 ++ [(g.1, r2)]).map (fun p => p.2.length)).sum) +
              ((rest.map (fun p => p.2.length)).sum) := hl2
        rw [hl2']
        simp only [List.length_append, List.map_append, List.sum_append,
          List.map_cons, List.sum_cons, List.map_nil, List.sum_nil]
        omega
      · intro hin
        obtain ⟨ha, hb, hc⟩ := hin
        have hgg := hgood (hc g (List.mem_cons_self g rest))
        apply hg2
        refine ⟨?_, ?_, fun g2 hg2m => hc g2 (List.mem_cons_of_mem g hg2m)⟩
        · intro n hn
          rcases List.mem_append.mp hn with h1 | h1
          · exact ha n h1
          · exact hgg.1 n h1
        · intro g2 hg2m n hn
          rcases List.mem_append.mp hg2m with h1 | h1
          · exact hb g2 h1 n hn
          · simp only [List.mem_singleton] at h1
            subst h1
            exact hgg.2 n hn

theorem enforce_max_per_type_total (now : Nat) (ctx : ScheduleContext)
    (hg : ∀ n ∈ ctx.nodes, good_node n) :
    ∃ ctx2, enforce_max_workers_per_type now ctx = some ctx2 ∧
      ∀ n ∈ ctx2.nodes, good_node n := by
  simp only [enforce_max_workers_per_type, Option.pure_def, Option.bind_eq_bind]
  obtain ⟨pnd, plen, pmem1, pmem2⟩ := max_partition_facts ctx.nodes ([], [])
    (by simp)
  cases hpr : ctx.nodes.foldl max_partition_step ([], []) with
  | mk term0 grouped0 =>
  rw [hpr] at plen pmem1 pmem2
  obtain ⟨out, hfold, hlen, hgood⟩ := max_fold_total now ctx.node_type_configs
    grouped0 (term0, [])
  obtain ⟨term2, grouped2⟩ := out
  rw [hfold]
  simp only [Option.some_bind]
  have hflat : (grouped2.foldl (fun acc p => acc ++ p.2) []).length =
      0 + ((grouped2.map (fun p => p.2.length)).sum) :=
    flatten_len grouped2 ([] : List SchedulingNode)
  have plen' : term0.length + ((grouped0.map (fun p => p.2.length)).sum) =
      0 + 0 + ctx.nodes.length := plen
  have hlen' : term2.length + ((grouped2.map (fun p => p.2.length)).sum) =
      term0.length + 0 + ((grouped0.map (fun p => p.2.length)).sum) := hlen
  rw [if_pos (by
    rw [List.length_append, hflat]
    omega)]
  refine ⟨_, rfl, ?_⟩
  intro n hn
  have hterm0 : ∀ n ∈ term0, good_node n := by
    intro x hx
    rcases pmem1 x hx with h1 | h1
    · simp at h1
    · exact hg x h1
  have hgrp0 : ∀ g ∈ grouped0, ∀ x ∈ g.2, good_node x := by
    intro g hgm x hx
    rcases pmem2 g hgm x hx with h1 | h1
    · obtain ⟨g2, hg2, _⟩ := h1
      simp at hg2
    · exact hg x h1
  have hres := hgood ⟨hterm0, by simp, hgrp0⟩
  rcases List.mem_append.mp hn with h1 | h1
  · exact hres.1 n h1
  · rcases flatten_mem grouped2 [] n h1 with h2 | h2
    · simp at h2
    · obtain ⟨g, hgm, hng⟩ := h2
      exact hres.2 g hgm n hng

theorem enforce_max_global_total (now : Nat) (ctx : ScheduleContext)
    (hg : ∀ n ∈ ctx.nodes, good_node n) :
    ∃ ctx2, enforce_max_workers_global now ctx = some ctx2 ∧
      ∀ n ∈ ctx2.nodes, good_node n := by
  simp only [enforce_max_workers_global, Option.pure_def, Option.bind_eq_bind]
  split
  · exact ⟨ctx, rfl, hg⟩
  · obtain ⟨pr, hsel, hlen, hgood⟩ := select_total now
      (ctx.nodes.filter (fun n => ¬ n.status = SchedulingNodeStatus.TO_TERMINATE))
      _ .MAX_NUM_NODES ctx.max_num_nodes none (Or.inl rfl)
    obtain ⟨t2, r2⟩ := pr
    rw [hsel]
    simp only [Option.some_bind]
    have hpart := filter_length_partition
      (fun n => n.status = SchedulingNodeStatus.TO_TERMINATE)
      (fun n => ¬ n.status = SchedulingNodeStatus.TO_TERMINATE)
      (fun n => by simp [decide_not]) ctx.nodes
    have hlen' : t2.length + r2.length = (ctx.nodes.filter
        (fun n => ¬ n.status = SchedulingNodeStatus.TO_TERMINATE)).length :=
      hlen
    rw [if_pos (by
      simp only [List.length_append]
      omega)]
    refine ⟨_, rfl, ?_⟩
    intro n hn
    have hnonterm : ∀ x ∈ ctx.nodes.filter
        (fun n => ¬ n.status = SchedulingNodeStatus.TO_TERMINATE),
        good_node x :=
      fun x hx => hg x (List.mem_of_mem_filter hx)
    have hres := hgood hnonterm
    rcases List.mem_append.mp hn with h1 | h1
    · rcases List.mem_append.mp h1 with h2 | h2
      · exact hg n (List.mem_of_mem_filter h2)
      · exact hres.1 n h2
    · exact hres.2 n h1

/-! ## Totality helpers: phases 5-7 -/

theorem mem_ungroup_aux :
    ∀ (bl : List ResourceRequestByCount) (acc : List ResourceRequest)
      (r : ResourceRequest),
      r ∈ bl.foldl (fun acc rc => acc ++ List.replicate rc.count rc.request)
        acc →
      r ∈ acc ∨ ∃ rc ∈ bl, r = rc.request := by
  intro bl
  induction bl with
  | nil => intro acc r h; exact Or.inl h
  | cons rc rest ih =>
      intro acc r h
      rw [List.foldl_cons] at h
      rcases ih (acc ++ List.replicate rc.count rc.request) r h with h1 | h1
      · rcases List.mem_append.mp h1 with h2 | h2
        · exact Or.inl h2
        · exact Or.inr ⟨rc, List.mem_cons_self rc rest,
            List.eq_of_mem_replicate h2⟩
      · obtain ⟨rc2, hrc2, he⟩ := h1
        exact Or.inr ⟨rc2, List.mem_cons_of_mem rc hrc2, he⟩

theorem mem_ungroup (bl : List ResourceRequestByCount) (r : ResourceRequest)
    (h : r ∈ ungroup_by_count bl) : ∃ rc ∈ bl, r = rc.request := by
  rcases mem_ungroup_aux bl [] r h with h1 | h1
  · simp at h1
  · exact h1

theorem enforce_constraints_total (ctx : ScheduleContext)
    (cs : List ClusterResourceConstraint) (hlen : cs.length ≤ 1)
    (hcoh : ctx.node_type_available =
      compute_available_node_types ctx.nodes ctx.node_type_configs)
    (hcfgs : ∀ p ∈ ctx.node_type_configs, good_cfg p.2)
    (hname : ∀ k cfg, dget? ctx.node_type_configs k = some cfg → cfg.name = k)
    (hg : ∀ n ∈ ctx.nodes, good_node n)
    (hcons : ∀ c ∈ cs, ∀ rc ∈ c.min_bundles, good_req rc.request) :
    ∃ out, enforce_resource_constraints ctx cs = some out ∧
      out.1.node_type_configs = ctx.node_type_configs ∧
      out.1.max_num_nodes = ctx.max_num_nodes ∧
      out.1.node_type_available =
        compute_available_node_types out.1.nodes out.1.node_type_configs ∧
      ∀ n ∈ out.1.nodes, good_node n := by
  unfold enforce_resource_constraints
  rw [if_pos hlen]
  cases cs with
  | nil => exact ⟨(ctx, []), rfl, rfl, rfl, hcoh, hg⟩
  | cons c0 rest =>
      obtain ⟨pr, hts, hout⟩ := try_schedule_ctx_total ctx
        (ungroup_by_count c0.min_bundles) true hcoh hcfgs hname hg
        (fun r hr => by
          obtain ⟨rc, hrc, he⟩ := mem_ungroup c0.min_bundles r hr
          rw [he]
          exact hcons c0 (List.mem_cons_self c0 rest) rc hrc)
      obtain ⟨nodes2, inf⟩ := pr
      simp only [hts, Option.bind_eq_bind, Option.some_bind, Option.pure_def]
      by_cases hinf : inf.length ≠ 0
      · rw [if_pos hinf]
        exact ⟨(ctx, [c0]), rfl, rfl, rfl, hcoh, hg⟩
      · rw [if_neg hinf]
        exact ⟨(ctx.update nodes2, []), rfl, rfl, rfl, rfl, hout⟩

theorem combine_fold_id :
    ∀ l : List ResourceRequest,
      (∀ r ∈ l, r.placement_constraints = []) →
      ∀ st : List ((String × String) × ResourceRequest) × List ResourceRequest,
      l.foldl (fun (st : List ((String × String) × ResourceRequest) ×
          List ResourceRequest) (r : ResourceRequest) =>
        match r.placement_constraints.filterMap (·.affinity) with
        | [] => (st.1, st.2 ++ [r])
        | k :: _ =>
            if st.1.any (fun p => p.1 == k) then
              (st.1.map (fun p =>
                if p.1 == k then
                  (p.1,
                    { resources_bundle :=
                        r.resources_bundle.foldl (fun d q => dincr d q.1 q.2 0)
                          p.2.resources_bundle
                      placement_constraints :=
                        p.2.placement_constraints ++ r.placement_constraints })
                else p), st.2)
            else (st.1 ++ [(k, r)], st.2)) st = (st.1, st.2 ++ l) := by
  intro l
  induction l with
  | nil =>
      intro _ st
      simp
  | cons r rest ih =>
      intro h st
      rw [List.foldl_cons]
      have hr := h r (List.mem_cons_self r rest)
      simp only [hr, List.filterMap_nil]
      rw [ih (fun q hq => h q (List.mem_cons_of_mem r hq))
        (st.1, st.2 ++ [r])]
      simp

theorem combine_no_affinity (reqs : List ResourceRequest)
    (h : ∀ r ∈ reqs, r.placement_constraints = []) :
    combine_requests_with_affinity reqs = reqs := by
  simp only [combine_requests_with_affinity]
  rw [combine_fold_id reqs h ([], [])]
  simp

theorem gang_fold_total (cfgs0 : List (String × NodeTypeConfig))
    (hcfgs : ∀ p ∈ cfgs0, good_cfg p.2)
    (hname : ∀ k cfg, dget? cfgs0 k = some cfg → cfg.name = k) :
    ∀ (gl : List GangResourceRequest)
      (st : ScheduleContext × List GangResourceRequest),
      st.1.node_type_configs = cfgs0 →
      st.1.node_type_available =
        compute_available_node_types st.1.nodes st.1.node_type_configs →
      (∀ n ∈ st.1.nodes, good_node n) →
      (∀ g ∈ gl, ∀ r ∈ g.requests, good_req r) →
      ∃ out, List.foldlM gang_step st gl = some out ∧
        out.1.node_type_configs = cfgs0 ∧
        out.1.max_num_nodes = st.1.max_num_nodes ∧
        out.1.node_type_available =
          compute_available_node_types out.1.nodes out.1.node_type_configs ∧
        ∀ n ∈ out.1.nodes, good_node n := by
  intro gl
  induction gl with
  | nil =>
      intro st h1 h2 h3 _
      exact ⟨st, rfl, h1, rfl, h2, h3⟩
  | cons g rest ih =>
      intro st h1 h2 h3 hgl
      have hcomb : combine_requests_with_affinity g.requests = g.requests :=
        combine_no_affinity g.requests
          (fun r hr => (hgl g (List.mem_cons_self g rest) r hr).1)
      obtain ⟨pr, hts, hout⟩ := try_schedule_ctx_total st.1 g.requests false h2
        (by rw [h1]; exact hcfgs) (by rw [h1]; exact hname) h3
        (fun r hr => hgl g (List.mem_cons_self g rest) r hr)
      obtain ⟨nodes2, inf⟩ := pr
      rw [List.foldlM_cons]
      by_cases hinf : inf.length ≠ 0
      · have hstep : gang_step st g = some (st.1, st.2 ++ [g]) := by
          simp only [gang_step, hcomb, hts, Option.bind_eq_bind,
            Option.some_bind, Option.pure_def]
          rw [if_pos hinf]
        rw [hstep]
        simp only [Option.bind_eq_bind, Option.some_bind]
        obtain ⟨out, hrec, o1, o2, o3, o4⟩ := ih (st.1, st.2 ++ [g]) h1 h2 h3
          (fun g2 hg2 r hr => hgl g2 (List.mem_cons_of_mem g hg2) r hr)
        exact ⟨out, hrec, o1, o2, o3, o4⟩
      · have hstep : gang_step st g = some (st.1.update nodes2, st.2) := by
          simp only [gang_step, hcomb, hts, Option.bind_eq_bind,
            Option.some_bind, Option.pure_def]
          rw [if_neg hinf]
        rw [hstep]
        simp only [Option.bind_eq_bind, Option.some_bind]
        obtain ⟨out, hrec, o1, o2, o3, o4⟩ := ih (st.1.update nodes2, st.2)
          h1 rfl hout
          (fun g2 hg2 r hr => hgl g2 (List.mem_cons_of_mem g hg2) r hr)
        exact ⟨out, hrec, o1, o2, o3, o4⟩

theorem sched_gang_total (ctx : ScheduleContext)
    (gl : List GangResourceRequest)
    (hcoh : ctx.node_type_available =
      compute_available_node_types ctx.nodes ctx.node_type_configs)
    (hcfgs : ∀ p ∈ ctx.node_type_configs, good_cfg p.2)
    (hname : ∀ k cfg, dget? ctx.node_type_configs k = some cfg → cfg.name = k)
    (hg : ∀ n ∈ ctx.nodes, good_node n)
    (hgl : ∀ g ∈ gl, ∀ r ∈ g.requests, good_req r) :
    ∃ out, sched_gang_resource_requests ctx gl = some out ∧
      out.1.node_type_configs = ctx.node_type_configs ∧
      out.1.max_num_nodes = ctx.max_num_nodes ∧
      out.1.node_type_available =
        compute_available_node_types out.1.nodes out.1.node_type_configs ∧
      ∀ n ∈ out.1.nodes, good_node n := by
  unfold sched_gang_resource_requests
  exact gang_fold_total ctx.node_type_configs hcfgs hname
    (gl.insertionSort gang_order) (ctx, []) rfl hcoh hg
    (fun g hgm r hr =>
      hgl g ((List.perm_insertionSort gang_order gl).mem_iff.mp hgm) r hr)

theorem sched_resource_requests_total (ctx : ScheduleContext)
    (rbc : List ResourceRequestByCount)
    (hcoh : ctx.node_type_available =
      compute_available_node_types ctx.nodes ctx.node_type_configs)
    (hcfgs : ∀ p ∈ ctx.node_type_configs, good_cfg p.2)
    (hname : ∀ k cfg, dget? ctx.node_type_configs k = some cfg → cfg.name = k)
    (hg : ∀ n ∈ ctx.nodes, good_node n)
    (hrr : ∀ rc ∈ rbc, good_req rc.request) :
    ∃ out, sched_resource_requests ctx rbc = some out := by
  simp only [sched_resource_requests, Option.pure_def, Option.bind_eq_bind]
  obtain ⟨pr, hts, _⟩ := try_schedule_ctx_total ctx (ungroup_by_count rbc)
    false hcoh hcfgs hname hg
    (fun r hr => by
      obtain ⟨rc, hrc, he⟩ := mem_ungroup rbc r hr
      rw [he]
      exact hrr rc hrc)
  obtain ⟨nodes2, inf⟩ := pr
  rw [hts]
  simp only [Option.some_bind]
  exact ⟨_, rfl⟩

/-- Under the well-formedness conditions, every phase of the pipeline
returns `some`. -/
theorem schedule_impl_total (now : Nat) (request : SchedulingRequest)
    (hc : request.cluster_resource_constraints.length ≤ 1)
    (hname : ∀ p ∈ request.node_type_configs, p.2.name = p.1)
    (hcfgs : ∀ p ∈ request.node_type_configs, good_cfg p.2)
    (hrays : ∀ inst ∈ request.current_instances, ∀ rn,
      inst.ray_node = some rn → good_ray rn)
    (hcons : ∀ c ∈ request.cluster_resource_constraints,
      ∀ rc ∈ c.min_bundles, good_req rc.request)
    (hgang : ∀ g ∈ request.gang_resource_requests, ∀ r ∈ g.requests,
      good_req r)
    (hreqs : ∀ rc ∈ request.resource_requests, good_req rc.request) :
    ∃ out, schedule_impl now request = some out := by
  have hname' : ∀ k cfg, dget? request.node_type_configs k = some cfg →
      cfg.name = k := fun k cfg h => hname (k, cfg) (dget?_mem _ k cfg h)
  simp only [schedule_impl, Option.pure_def, Option.bind_eq_bind]
  have hg0 := from_schedule_request_good request hcfgs hrays
  have hg1 := terminate_outdated_good now (from_schedule_request request) hg0
  have hg2 := enforce_min_good
    (terminate_outdated_nodes now (from_schedule_request request)) hcfgs hg1
  obtain ⟨ctxA, hA, hgA⟩ := enforce_max_per_type_total now
    (enforce_min_workers_per_type
      (terminate_outdated_nodes now (from_schedule_request request))) hg2
  rw [hA]
  simp only [Option.some_bind]
  obtain ⟨a1, _, _, a4, _⟩ := enforce_max_workers_per_type_bound now _ ctxA hA
  obtain ⟨ctxB, hB, hgB⟩ := enforce_max_global_total now ctxA hgA
  rw [hB]
  simp only [Option.some_bind]
  obtain ⟨b1, _, _, b4, _⟩ := enforce_max_workers_global_bound now ctxA ctxB
    hB a4
  obtain ⟨prC, hC, c1, _, c4, hgC⟩ := enforce_constraints_total ctxB
    request.cluster_resource_constraints hc b4
    (by rw [b1, a1]; exact hcfgs) (by rw [b1, a1]; exact hname') hgB hcons
  obtain ⟨ctxC, infc⟩ := prC
  rw [hC]
  simp only [Option.some_bind]
  obtain ⟨prD, hD, d1, _, d4, hgD⟩ := sched_gang_total ctxC
    request.gang_resource_requests c4
    (by rw [c1, b1, a1]; exact hcfgs) (by rw [c1, b1, a1]; exact hname') hgC
    hgang
  obtain ⟨ctxD, infg⟩ := prD
  rw [hD]
  simp only [Option.some_bind]
  obtain ⟨outE, hE⟩ := sched_resource_requests_total ctxD
    request.resource_requests d4
    (by rw [d1, c1, b1, a1]; exact hcfgs)
    (by rw [d1, c1, b1, a1]; exact hname') hgD hreqs
  obtain ⟨ctxE, infr⟩ := outE
  rw [hE]
  simp only [Option.some_bind]
  exact ⟨_, rfl⟩

/-! ## Claim C3 — `schedule` reads the clock: purity only up to the
clock-stamped fields -/

/-- C3 (counterexample): `schedule` is not a pure function of the request
alone — it reads `time.time_ns()` and stamps it into
`LaunchRequest.id`/`request_ts_ms` (and `TerminationRequest.id`), so two
calls on the identical request taken at different clock readings return
different replies. -/
theorem schedule_clock_stamp_counterexample :
    schedule 3 c3_request ≠ schedule 4 c3_request := by decide

/-- C3 (amended): `schedule` is deterministic given the clock reading, and
the clock influences nothing but the stamped fields `LaunchRequest.id`,
`LaunchRequest.request_ts_ms` and `TerminationRequest.id`: after zeroing
exactly those fields, two calls on the identical request at any two clock
readings return identical replies — same `to_launch` entries field by
field in the same order, same `to_terminate`, and the same three
infeasibility lists. (The embedded `schedule` is a function of
`(now, request)`, so it never mutates its input.) -/
theorem schedule_pure_up_to_clock (now1 now2 : Nat)
    (request : SchedulingRequest) :
    (schedule now1 request).map erase_clock_reply =
      (schedule now2 request).map erase_clock_reply := by
  simp only [schedule, Option.pure_def]
  have h := schedule_impl_rel now1 now2 request
  cases h1 : schedule_impl now1 request with
  | none =>
      rw [h1] at h
      cases h2 : schedule_impl now2 request with
      | none => rfl
      | some o2 => rw [h2] at h; exact absurd h (by simp)
  | some o1 =>
  obtain ⟨ctxE1, infc1, infg1, infr1⟩ := o1
  rw [h1] at h
  cases h2 : schedule_impl now2 request with
  | none => rw [h2] at h; exact absurd h (by simp)
  | some o2 =>
  obtain ⟨ctxE2, infc2, infg2, infr2⟩ := o2
  rw [h2] at h
  simp only [Option.map_some', Option.some.injEq] at h
  have hRE : erase_clock_ctx ctxE1 = erase_clock_ctx ctxE2 := by
    have h3 := congrArg (fun x => Prod.fst x) h
    exact h3
  have hrest : (infc1, infg1, infr1) = (infc2, infg2, infr2) := by
    have h3 := congrArg (fun x => Prod.snd x) h
    exact h3
  simp only [Prod.mk.injEq] at hrest
  obtain ⟨hinfc, hinfg, hinfr⟩ := hrest
  simp only [Option.bind_eq_bind, Option.some_bind, Option.map_some',
    Option.some.injEq, erase_clock_reply]
  rw [get_launch_requests_rel hRE now1 now2, get_terminate_requests_rel hRE,
    hinfc, hinfg, hinfr]

/-! ## Claim C4 — `schedule` can raise; totality holds only on
well-formed inputs -/

/-- C4 (counterexample): `schedule` is not total on all requests — a
request carrying two cluster resource constraints trips the
`assert len(constraints) <= 1` of `_enforce_resource_constraints`, so the
call raises (`none` in the embedding) instead of returning the extra
constraint in `infeasible_cluster_resource_constraints`. -/
theorem schedule_two_constraints_raises :
    schedule 3 c4_request = none := by decide

/-- C4 (amended): `schedule` never raises on well-formed inputs: at most
one cluster resource constraint; every node type config with unique,
nonnegative resource entries; every ray node reporting unique total keys
and `0 ≤ available ≤ total`; and every demand (constraint bundle, gang
member, resource request) with no placement constraints, unique bundle
keys and strictly positive amounts. Under these conditions every phase
returns, and unsatisfiable demand comes back as data in the reply's
`infeasible_*` lists rather than as an exception. -/
theorem schedule_total_of_wellformed (now : Nat) (request : SchedulingRequest)
    (hc : request.cluster_resource_constraints.length ≤ 1)
    (hname : ∀ p ∈ request.node_type_configs, p.2.name = p.1)
    (hcfgs : ∀ p ∈ request.node_type_configs, good_cfg p.2)
    (hrays : ∀ inst ∈ request.current_instances, ∀ rn,
      inst.ray_node = some rn → good_ray rn)
    (hcons : ∀ c ∈ request.cluster_resource_constraints,
      ∀ rc ∈ c.min_bundles, good_req rc.request)
    (hgang : ∀ g ∈ request.gang_resource_requests, ∀ r ∈ g.requests,
      good_req r)
    (hreqs : ∀ rc ∈ request.resource_requests, good_req rc.request) :
    ∃ reply, schedule now request = some reply := by
  obtain ⟨out, hout⟩ := schedule_impl_total now request hc hname hcfgs hrays
    hcons hgang hreqs
  simp only [schedule, Option.pure_def, Option.bind_eq_bind]
  obtain ⟨ctxE, infc, infg, infr⟩ := out
  rw [hout]
  simp only [Option.some_bind]
  exact ⟨_, rfl⟩

/-- Witness for C4 at a concrete input: the single-type idle request is
well-formed and `schedule` returns a reply. -/
theorem schedule_total_of_wellformed_witness :
    ∃ reply, schedule 3 c7_request = some reply :=
  schedule_total_of_wellformed 3 c7_request (by decide) (by decide)
    (by decide)
    (by
      intro inst hinst rn hrn
      simp only [c7_request, List.mem_singleton] at hinst
      subst hinst
      simp only [c7_instance, Option.some.injEq] at hrn
      rw [← hrn]
      decide)
    (by decide) (by decide) (by decide)

end Sched

end Ray
